import Mathlib

/-!
go-dhcpd: lease backend, request pipeline, segment loading and cache reload.

A shallow embedding of the in-memory lease engine (`backend_hash.go`,
`struct_others.go`), of the per-request bookkeeping and the ingress
(`struct_context.go`, `dhcp.go`), and of the loading of segments and the cache
reload (`main.go`, `aerospike.go`).

Conventions of the embedding:

* `uint32` / `uint64` values (IPs, MACs, masks) are `Nat`; where the source
  relies on 32-bit wrap-around the reduction `% 2 ^ 32` is written out.
* `time.Time` and `time.Duration` are `Int` (one common unit, the Go zero time
  being `0`).  The clock readings taken while one operation holds the subnet
  lock are one instant `now`, passed as an argument.
* Go maps are association lists with natural-number keys (`GoMap`).
* `*Lease` values are indices into the `heap` of the subnet: two map entries
  are "the same lease" when they hold the same index.
* Counters (`StatsInc`) and log lines are not part of the model; the one
  exception is the ingress, whose result `Ingress.malformed` stands for the
  paths that count a malformed packet.
-/

namespace DHCPD

/-! ## Go maps -/

namespace GoMap

variable {V : Type}

/-- Value stored under key `k` (`v, ok = m[k]`), `none` when the key is absent. -/
def lookup : List (Nat × V) → Nat → Option V
  | [], _ => none
  | (k', v) :: t, k => if k' = k then some v else lookup t k

/-- The Go builtin `delete(m, k)`. -/
def delete (m : List (Nat × V)) (k : Nat) : List (Nat × V) :=
  m.filter (fun e => decide (e.1 ≠ k))

/-- The assignment `m[k] = v`. -/
def insert (m : List (Nat × V)) (k : Nat) (v : V) : List (Nat × V) :=
  (k, v) :: delete m k

/-- Writing through a pointer stored under `k`: the value under `k` is
replaced in place, the key set is untouched. -/
def replace (m : List (Nat × V)) (k : Nat) (v : V) : List (Nat × V) :=
  m.map (fun e => if e.1 = k then (k, v) else e)

/-- The keys a `range` loop over the map visits. -/
def keys (m : List (Nat × V)) : List Nat :=
  m.map Prod.fst

end GoMap

/-! ## Data model (`struct_others.go`) -/

/-- The Go struct `Lease`. -/
structure Lease where
  IP : Nat
  MAC : Nat
  Expires : Int
  Discover : Bool := false
  DiscoverTime : Int := 0
  deriving DecidableEq, Repr

/-- `Lease.Expired`: `time.Now().After(l.Expires)`. -/
def Lease.Expired (now : Int) (l : Lease) : Bool :=
  decide (l.Expires < now)

/-- `Lease.DiscoverSet`. -/
def Lease.DiscoverSet (now : Int) (l : Lease) : Lease :=
  { l with Discover := true, DiscoverTime := now }

/-- One DHCP option of a reply: code and value bytes. -/
structure DhcpOption where
  Code : Nat
  Value : List Nat
  deriving DecidableEq, Repr

/-- The Go struct `Subnet`.  `heap` holds the `Lease` objects the two indices
point to; a pointer is an index into it. -/
structure Subnet where
  Dynamic : Bool := false
  Net : Nat := 0
  Mask : Nat := 0
  RangeStart : Nat
  RangeEnd : Nat
  Router : Nat := 0
  LeaseTTL : Int := 0
  DNS : List Nat := []
  DHCPOptions : List DhcpOption := []
  LeasesByIP : List (Nat × Nat) := []
  LeasesByMAC : List (Nat × Nat) := []
  LeasesActiveCount : Nat := 0
  LeasesExpiredCount : Nat := 0
  heap : List Lease := []
  deriving DecidableEq, Repr

/-- `Subnet.Capacity`. -/
def Subnet.Capacity (s : Subnet) : Int :=
  (s.RangeEnd : Int) - (s.RangeStart : Int) + 1

/-- The lease object a by-IP entry points to. -/
def Subnet.leaseAtIP (s : Subnet) (ip : Nat) : Option Lease :=
  match GoMap.lookup s.LeasesByIP ip with
  | some p => s.heap[p]?
  | none => none

/-- The lease object a by-MAC entry points to. -/
def Subnet.leaseAtMAC (s : Subnet) (mac : Nat) : Option Lease :=
  match GoMap.lookup s.LeasesByMAC mac with
  | some p => s.heap[p]?
  | none => none

/-- The part of the configuration `o` (`Opts`) the lease backend reads. -/
structure Opts where
  DHCPGraceTTL : Int
  DHCPCleanupAge : Int
  deriving DecidableEq, Repr

/-! ## Request context (`struct_context.go`) -/

/-- The response types `GenerateReply` is called with. -/
inductive Response where
  | Offer
  | ACK
  | NAK
  | Drop
  deriving DecidableEq, Repr

/-- The fields of `ReqCtx` the pipeline and the backend read or write.
`Lease` is the pointer `Ctx.Lease` (an index into the subnet heap),
`LeaseCopy` the by-value snapshot, `Segment` / `Subnet` the position of the
segment in the segment table and the directory key of the subnet,
`ReqLockShard` whether the shard pointer is non-nil. -/
structure ReqCtx where
  MAC : Nat
  RelayIP : Nat := 0
  RelayIPSource : Nat := 0
  RemoteIP : Nat := 0
  LocalIP : Nat := 0
  IP : Nat := 0
  DHCPRequest : Nat := 0
  DHCPResponse : Option Response := none
  DropReason : String := ""
  NAKReason : String := ""
  NotFoundReason : String := ""
  LeaseSource : String := ""
  Segment : Option Nat := none
  Subnet : Option Nat := none
  Lease : Option Nat := none
  LeaseCopy : Option DHCPD.Lease := none
  ReplyOptions : List DhcpOption := []
  ReqLockShard : Bool := false
  RequestStart : Int := 0
  deriving DecidableEq, Repr

/-- `ReqCtx.SetRequestedIP`. -/
def ReqCtx.SetRequestedIP (c : ReqCtx) (ip : Nat) : ReqCtx :=
  { c with IP := ip }

/-- `ReqCtx.SetRelayIP`. -/
def ReqCtx.SetRelayIP (c : ReqCtx) (ip : Nat) : ReqCtx :=
  { c with RelayIP := ip }

/-! ## Constants (`dhcp.go`, `stats.go`) -/

/-- Values of `ReqCtx.LeaseSource` (`dhcp.go`). -/
def LEASE_SRC_EXISTING : String := "Existing"

/-- See `LEASE_SRC_EXISTING`. -/
def LEASE_SRC_RANDOM : String := "Random"

/-- See `LEASE_SRC_EXISTING`. -/
def LEASE_SRC_RANGE : String := "Range"

/-- Values of `ReqCtx.NotFoundReason` (`dhcp.go`). -/
def NOTFOUND_NOTFOUND : String := "NotFound"

/-- See `NOTFOUND_NOTFOUND`. -/
def NOTFOUND_EXPIRED : String := "Expired"

/-- See `NOTFOUND_NOTFOUND`. -/
def NOTFOUND_ANOTHER_MAC : String := "AnotherMAC"

/-- Values of `ReqCtx.DropReason` (`dhcp.go`). -/
def DROPREASON_MALFORMED_PACKET : String := "MalformedPacket"

/-- See `DROPREASON_MALFORMED_PACKET`. -/
def DROPREASON_RELAYIP_NOT_FOUND : String := "RelayIPNotFound"

/-- See `DROPREASON_MALFORMED_PACKET`. -/
def DROPREASON_UNKNOWN_SEGMENT : String := "UnknownSegment"

/-- See `DROPREASON_MALFORMED_PACKET`. -/
def DROPREASON_CONCURRENT_REQUEST : String := "ConcurrentRequest"

/-- See `DROPREASON_MALFORMED_PACKET`. -/
def DROPREASON_BACKEND_ERROR : String := "BackendError"

/-- See `DROPREASON_MALFORMED_PACKET`. -/
def DROPREASON_NO_FREE_LEASES : String := "NoFreeLeases"

/-- See `DROPREASON_MALFORMED_PACKET`. -/
def DROPREASON_INCORRECT_SERVER : String := "IncorrectServer"

/-- See `DROPREASON_MALFORMED_PACKET`. -/
def DROPREASON_NO_REQUESTED_IP : String := "NoRequestedIP"

/-- See `DROPREASON_MALFORMED_PACKET`. -/
def DROPREASON_UNSUPPORTED_REQUEST : String := "UnsupportedRequest"

/-- Position of `STATS_RELAYIP_OPTION82` in the `iota` block of `stats.go`. -/
def STATS_RELAYIP_OPTION82 : Nat := 10

/-- Position of `STATS_RELAYIP_GIADDR` in the `iota` block of `stats.go`. -/
def STATS_RELAYIP_GIADDR : Nat := 11

/-- Position of `STATS_RELAYIP_UNICAST` in the `iota` block of `stats.go`. -/
def STATS_RELAYIP_UNICAST : Nat := 12

/-! ## Lease backend (`backend_hash.go`) -/

/-- What the persistence mirror is asked to do by a `go ...Aerospike(...)` call. -/
inductive MirrorOp where
  | leaseUpload (l : Lease)
  | leaseDelete (l : Lease)
  | subnetUpload (net : Nat)
  deriving DecidableEq, Repr

/-- The lease `LeaseAdd` builds: `&Lease{IP, MAC, Expires}` followed by `DiscoverSet`. -/
def newLease (o : Opts) (now : Int) (Ctx : ReqCtx) (ip : Nat) : Lease :=
  Lease.DiscoverSet now
    { IP := ip, MAC := Ctx.MAC, Expires := Ctx.RequestStart + o.DHCPGraceTTL }

/-- The tail of `LeaseAdd`: allocate the lease and store it in both indices. -/
def storeLease (o : Opts) (now : Int) (Ctx : ReqCtx) (s : Subnet) (ip : Nat) : Subnet :=
  { s with
    heap := s.heap ++ [newLease o now Ctx ip]
    LeasesByIP := GoMap.insert s.LeasesByIP ip s.heap.length
    LeasesByMAC := GoMap.insert s.LeasesByMAC Ctx.MAC s.heap.length }

/-- `BackendHash.LeaseAdd` on an already locked subnet.  `none`: a map entry
holds a pointer to no lease (the Go code would fault). -/
def LeaseAdd (o : Opts) (now : Int) (Ctx : ReqCtx) (s : Subnet) (ip : Nat) :
    Option (Bool × Subnet) :=
  match GoMap.lookup s.LeasesByIP ip with
  | some p =>
    match s.heap[p]? with
    | none => none
    | some L =>
      if L.Expired now then some (true, storeLease o now Ctx s ip)
      else some (false, s)
  | none => some (true, storeLease o now Ctx s ip)

/-- The loop `for i := 0; i < o.DHCPRandomTries; i++` of `LeaseFind`: the list
holds the values `aux.RandRangeUint32` returns, one per iteration.  The result
is the IP of the first successful probe, if any. -/
def randomTries (o : Opts) (now : Int) (Ctx : ReqCtx) :
    Subnet → List Nat → Option (Option Nat × Subnet)
  | s, [] => some (none, s)
  | s, ip :: rest =>
    match LeaseAdd o now Ctx s ip with
    | none => none
    | some (true, s') => some (some ip, s')
    | some (false, s') => randomTries o now Ctx s' rest

/-- The loop `for ip = RangeStart; ip <= RangeEnd; ip++` of `LeaseFind`, `ip`
being a `uint32`.  `fuel` bounds the number of evaluations of the loop
condition; `none` when it is used up (or on a fault of `LeaseAdd`). -/
def rangeScan (o : Opts) (now : Int) (Ctx : ReqCtx) :
    Nat → Subnet → Nat → Option (Option Nat × Subnet)
  | 0, _, _ => none
  | fuel + 1, s, ip =>
    if ip ≤ s.RangeEnd then
      match LeaseAdd o now Ctx s ip with
      | none => none
      | some (true, s') => some (some ip, s')
      | some (false, s') => rangeScan o now Ctx fuel s' ((ip + 1) % 2 ^ 32)
    else some (none, s)

/-- The code of `LeaseFind` from the label `search` on. -/
def leaseSearch (o : Opts) (fuel : Nat) (now : Int) (rands : List Nat) (Ctx : ReqCtx)
    (s : Subnet) : Option (ReqCtx × Subnet) :=
  match randomTries o now Ctx s rands with
  | none => none
  | some (some ip, s') =>
    some ({ Ctx.SetRequestedIP ip with LeaseSource := LEASE_SRC_RANDOM }, s')
  | some (none, s') =>
    match rangeScan o now Ctx fuel s' s'.RangeStart with
    | none => none
    | some (some ip, s'') =>
      some ({ Ctx.SetRequestedIP ip with LeaseSource := LEASE_SRC_RANGE }, s'')
    | some (none, s'') => some (Ctx, s'')

/-- `BackendHash.LeaseFind`.  `rands` are the random probes
(`len rands = o.DHCPRandomTries`), `fuel` bounds the linear scan. -/
def LeaseFind (o : Opts) (fuel : Nat) (now : Int) (rands : List Nat) (Ctx : ReqCtx)
    (s : Subnet) : Option (ReqCtx × Subnet) :=
  match GoMap.lookup s.LeasesByMAC Ctx.MAC with
  | none => leaseSearch o fuel now rands Ctx s
  | some p =>
    match s.heap[p]? with
    | none => none
    | some l =>
      if l.MAC ≠ Ctx.MAC then
        leaseSearch o fuel now rands Ctx
          { s with LeasesByMAC := GoMap.delete s.LeasesByMAC Ctx.MAC }
      else
        match GoMap.lookup s.LeasesByIP l.IP with
        | none =>
          leaseSearch o fuel now rands Ctx
            { s with LeasesByMAC := GoMap.delete s.LeasesByMAC Ctx.MAC }
        | some q =>
          match s.heap[q]? with
          | none => none
          | some L =>
            if L.MAC ≠ Ctx.MAC then leaseSearch o fuel now rands Ctx s
            else
              some ({ Ctx.SetRequestedIP L.IP with LeaseSource := LEASE_SRC_EXISTING },
                { s with
                  heap := s.heap.set q
                    (Lease.DiscoverSet now
                      { L with Expires := Ctx.RequestStart + o.DHCPGraceTTL }) })

/-- `BackendHash.LeaseCheckAndUpdate`; the third component is what is handed
to the mirror. -/
def LeaseCheckAndUpdate (now : Int) (Ctx : ReqCtx) (s : Subnet) :
    Option (ReqCtx × Subnet × List MirrorOp) :=
  match GoMap.lookup s.LeasesByIP Ctx.IP with
  | none => some ({ Ctx with Lease := none, NotFoundReason := NOTFOUND_NOTFOUND }, s, [])
  | some p =>
    match s.heap[p]? with
    | none => none
    | some L =>
      if L.Expired now then
        some ({ Ctx with Lease := none, NotFoundReason := NOTFOUND_EXPIRED }, s, [])
      else if L.MAC ≠ Ctx.MAC then
        some ({ Ctx with Lease := none, NotFoundReason := NOTFOUND_ANOTHER_MAC }, s, [])
      else
        let L1 : Lease := { L with Expires := Ctx.RequestStart + s.LeaseTTL }
        some ({ Ctx with Lease := some p, LeaseCopy := some L1 },
          { s with heap := s.heap.set p { L1 with Discover := false } },
          [MirrorOp.leaseUpload L1])

/-- `BackendHash.LeaseCheckAndDelete`. -/
def LeaseCheckAndDelete (Ctx : ReqCtx) (s : Subnet) : Option (Subnet × List MirrorOp) :=
  match GoMap.lookup s.LeasesByIP Ctx.IP with
  | none => some (s, [])
  | some p =>
    match s.heap[p]? with
    | none => none
    | some L =>
      if L.MAC ≠ Ctx.MAC then some (s, [])
      else
        some ({ s with
                LeasesByIP := GoMap.delete s.LeasesByIP Ctx.IP
                LeasesByMAC := GoMap.delete s.LeasesByMAC Ctx.MAC },
          [MirrorOp.leaseDelete L])

/-- One iteration of the `range s.LeasesByMAC` loop of `CleanupExpired`, for
the key `mac`; a key deleted earlier in the loop is skipped, as Go does.  The
two numbers are the increments of `ExpiredMAC` and `ExpiredIP`. -/
def cleanupStep (o : Opts) (now : Int) (s : Subnet) (mac : Nat) : Option (Subnet × Nat × Nat) :=
  match GoMap.lookup s.LeasesByMAC mac with
  | none => some (s, 0, 0)
  | some p =>
    match s.heap[p]? with
    | none => none
    | some l =>
      if now - l.Expires > o.DHCPCleanupAge then
        let s1 : Subnet := { s with LeasesByMAC := GoMap.delete s.LeasesByMAC mac }
        match GoMap.lookup s1.LeasesByIP l.IP with
        | none => some (s1, 1, 0)
        | some q =>
          match s1.heap[q]? with
          | none => none
          | some L =>
            if L.MAC = l.MAC then
              some ({ s1 with LeasesByIP := GoMap.delete s1.LeasesByIP l.IP }, 1, 1)
            else some (s1, 1, 0)
      else some (s, 0, 0)

/-- The loop of `CleanupExpired` over the keys still to be visited. -/
def cleanupLoop (o : Opts) (now : Int) :
    Subnet → List Nat → Nat → Nat → Option (Subnet × Nat × Nat)
  | s, [], em, ei => some (s, em, ei)
  | s, mac :: rest, em, ei =>
    match cleanupStep o now s mac with
    | none => none
    | some (s', dm, di) => cleanupLoop o now s' rest (em + dm) (ei + di)

/-- `Subnet.CleanupExpired`: the subnet afterwards and `(ExpiredMAC, ExpiredIP)`. -/
def CleanupExpired (o : Opts) (now : Int) (s : Subnet) : Option (Subnet × Nat × Nat) :=
  cleanupLoop o now s (GoMap.keys s.LeasesByMAC) 0 0


/-! ## Index invariants and reachable subnet states -/

/-- Forward half of the bijection: a by-IP entry under `ip` points to a lease
with that IP, and the by-MAC entry of that lease's MAC is the same pointer. -/
def Subnet.Forward (s : Subnet) : Prop :=
  ∀ ip p, GoMap.lookup s.LeasesByIP ip = some p →
    ∃ L, s.heap[p]? = some L ∧ L.IP = ip ∧ GoMap.lookup s.LeasesByMAC L.MAC = some p

/-- A by-MAC entry under `mac` points to a lease with that MAC. -/
def Subnet.MacKeyed (s : Subnet) : Prop :=
  ∀ mac p, GoMap.lookup s.LeasesByMAC mac = some p →
    ∃ L, s.heap[p]? = some L ∧ L.MAC = mac

/-- Symmetric half of the bijection: a by-MAC entry under `mac` points to a
lease with that MAC, and the by-IP entry of that lease's IP is the same pointer. -/
def Subnet.Backward (s : Subnet) : Prop :=
  ∀ mac p, GoMap.lookup s.LeasesByMAC mac = some p →
    ∃ L, s.heap[p]? = some L ∧ L.MAC = mac ∧ GoMap.lookup s.LeasesByIP L.IP = some p

/-- No by-IP entry points to a lease of MAC `m`. -/
def Subnet.NoOwn (s : Subnet) (m : Nat) : Prop :=
  ∀ ip p L, GoMap.lookup s.LeasesByIP ip = some p → s.heap[p]? = some L → L.MAC ≠ m

/-- Subnet states reachable from empty indices by the four operations that
take the subnet lock, each with arbitrary arguments. -/
inductive Reachable (o : Opts) : Subnet → Prop where
  | init (s : Subnet) (hip : s.LeasesByIP = []) (hmac : s.LeasesByMAC = []) : Reachable o s
  | leaseFind {s : Subnet} (fuel : Nat) (now : Int) (rands : List Nat) (Ctx Ctx' : ReqCtx)
      (s' : Subnet) (h : Reachable o s)
      (hstep : LeaseFind o fuel now rands Ctx s = some (Ctx', s')) : Reachable o s'
  | leaseCheckAndUpdate {s : Subnet} (now : Int) (Ctx Ctx' : ReqCtx) (s' : Subnet)
      (ops : List MirrorOp) (h : Reachable o s)
      (hstep : LeaseCheckAndUpdate now Ctx s = some (Ctx', s', ops)) : Reachable o s'
  | leaseCheckAndDelete {s : Subnet} (Ctx : ReqCtx) (s' : Subnet) (ops : List MirrorOp)
      (h : Reachable o s)
      (hstep : LeaseCheckAndDelete Ctx s = some (s', ops)) : Reachable o s'
  | cleanupExpired {s : Subnet} (now : Int) (s' : Subnet) (em ei : Nat)
      (h : Reachable o s)
      (hstep : CleanupExpired o now s = some (s', em, ei)) : Reachable o s'

/-- The probe of `LeaseAdd` succeeds at `ip`: no by-IP entry, or one whose
lease is expired. -/
def Subnet.freeAt (s : Subnet) (now : Int) (ip : Nat) : Bool :=
  match GoMap.lookup s.LeasesByIP ip with
  | none => true
  | some p =>
    match s.heap[p]? with
    | none => false
    | some L => L.Expired now

/-- The by-IP entry of `ip` holds a lease that is not expired. -/
def Subnet.heldLive (s : Subnet) (now : Int) (ip : Nat) : Bool :=
  match GoMap.lookup s.LeasesByIP ip with
  | none => false
  | some p =>
    match s.heap[p]? with
    | none => false
    | some L => !L.Expired now

/-- The check `LeaseFind` makes before it adopts an existing lease: the by-MAC
entry of `m` holds a lease of MAC `m` whose IP has a by-IP entry of MAC `m`. -/
def Subnet.selfConsistent (s : Subnet) (m : Nat) : Bool :=
  match GoMap.lookup s.LeasesByMAC m with
  | none => false
  | some p =>
    match s.heap[p]? with
    | none => false
    | some l =>
      if l.MAC ≠ m then false
      else
        match GoMap.lookup s.LeasesByIP l.IP with
        | none => false
        | some q =>
          match s.heap[q]? with
          | none => false
          | some L => decide (L.MAC = m)

/-- Every pointer stored in the two indices refers to an allocated lease
(Go map values are never dangling). -/
def Subnet.Valid (s : Subnet) : Prop :=
  (∀ ip p, GoMap.lookup s.LeasesByIP ip = some p → p < s.heap.length) ∧
    (∀ mac p, GoMap.lookup s.LeasesByMAC mac = some p → p < s.heap.length)

/-! ## Concrete states used to exercise the backend -/

/-- Grace TTL 60, cleanup age 3600. -/
def exOpts : Opts := { DHCPGraceTTL := 60, DHCPCleanupAge := 3600 }

/-- Empty subnet with the range `10.0.0.10 - 10.0.0.11`. -/
def exEmpty : Subnet := { RangeStart := 167772170, RangeEnd := 167772171, LeaseTTL := 600 }

/-- The lease client `1` gets from a DISCOVER at time `0`. -/
def exLeaseA : Lease :=
  { IP := 167772170, MAC := 1, Expires := 60, Discover := true, DiscoverTime := 0 }

/-- The lease client `2` gets from a DISCOVER at time `100`. -/
def exLeaseB : Lease :=
  { IP := 167772170, MAC := 2, Expires := 160, Discover := true, DiscoverTime := 100 }

/-- `exEmpty` after the DISCOVER of client `1` at time `0`. -/
def exOne : Subnet :=
  { exEmpty with
    LeasesByIP := [(167772170, 0)], LeasesByMAC := [(1, 0)], heap := [exLeaseA] }

/-- `exOne` after the DISCOVER of client `2` at time `100`, when the lease of
client `1` has expired: client `2` has taken `10.0.0.10` over. -/
def exTaken : Subnet :=
  { exEmpty with
    LeasesByIP := [(167772170, 1)], LeasesByMAC := [(2, 1), (1, 0)],
    heap := [exLeaseA, exLeaseB] }

/-- The lease client `3` gets from a DISCOVER at time `105`. -/
def exLeaseC : Lease :=
  { IP := 167772171, MAC := 3, Expires := 165, Discover := true, DiscoverTime := 105 }

/-- `exTaken` after the DISCOVER of client `3` at time `105`: both addresses
of the range are held by leases that are not yet expired. -/
def exFull : Subnet :=
  { exEmpty with
    LeasesByIP := [(167772171, 2), (167772170, 1)],
    LeasesByMAC := [(3, 2), (2, 1), (1, 0)],
    heap := [exLeaseA, exLeaseB, exLeaseC] }

/-- Empty subnet whose range is the single address `255.255.255.255`, the
largest `uint32`. -/
def exEdge : Subnet := { RangeStart := 4294967295, RangeEnd := 4294967295 }

/-- The lease client `2` gets in `exEdge` from a DISCOVER at time `0`. -/
def exEdgeLeaseB : Lease :=
  { IP := 4294967295, MAC := 2, Expires := 60, Discover := true, DiscoverTime := 0 }

/-- The lease `LeaseFind` stores for client `3` at time `10`, at `0.0.0.0`. -/
def exEdgeLeaseC : Lease :=
  { IP := 0, MAC := 3, Expires := 70, Discover := true, DiscoverTime := 10 }

/-- The lease `LeaseFind` stores for client `1` at time `20`, at `0.0.0.1`. -/
def exEdgeLeaseA : Lease :=
  { IP := 1, MAC := 1, Expires := 80, Discover := true, DiscoverTime := 20 }

/-- `exEdge` after the DISCOVER of client `2` at time `0`. -/
def exEdgeOne : Subnet :=
  { exEdge with
    LeasesByIP := [(4294967295, 0)], LeasesByMAC := [(2, 0)], heap := [exEdgeLeaseB] }

/-- `exEdgeOne` after the DISCOVER of client `3` at time `10`. -/
def exEdgeTwo : Subnet :=
  { exEdge with
    LeasesByIP := [(0, 1), (4294967295, 0)], LeasesByMAC := [(3, 1), (2, 0)],
    heap := [exEdgeLeaseB, exEdgeLeaseC] }

/-- `exEdgeTwo` after the DISCOVER of client `1` at time `20`. -/
def exEdgeThree : Subnet :=
  { exEdge with
    LeasesByIP := [(1, 2), (0, 1), (4294967295, 0)],
    LeasesByMAC := [(1, 2), (3, 1), (2, 0)],
    heap := [exEdgeLeaseB, exEdgeLeaseC, exEdgeLeaseA] }

/-! ## Request pipeline (`dhcp.go`, `struct_context.go`, `main.go`) -/

/-- Modelled from the spec: `dhcp.Discover` of the package `mt-aux/dhcp`, which
is not under `src/`; the message types `DISCOVER .. INFORM` in RFC 2132
numbering. -/
def dhcpDiscover : Nat := 1

/-- Modelled from the spec: `dhcp.Request` of `mt-aux/dhcp` (RFC 2132). -/
def dhcpRequest : Nat := 3

/-- Modelled from the spec: `dhcp.Decline` of `mt-aux/dhcp` (RFC 2132). -/
def dhcpDecline : Nat := 4

/-- Modelled from the spec: `dhcp.Release` of `mt-aux/dhcp` (RFC 2132). -/
def dhcpRelease : Nat := 7

/-- Modelled from the spec: `dhcp.Inform` of `mt-aux/dhcp` (RFC 2132). -/
def dhcpInform : Nat := 8

/-- Modelled from the spec: `dhcp.OptionSubnetMask` of `mt-aux/dhcp` (RFC 2132). -/
def OptionSubnetMask : Nat := 1

/-- Modelled from the spec: `dhcp.OptionRouter` of `mt-aux/dhcp` (RFC 2132). -/
def OptionRouter : Nat := 3

/-- Modelled from the spec: `dhcp.OptionDomainNameServer` of `mt-aux/dhcp` (RFC 2132). -/
def OptionDomainNameServer : Nat := 6

/-- Modelled from the spec: `dhcp.OptionRequestedIPAddress` of `mt-aux/dhcp` (RFC 2132). -/
def OptionRequestedIPAddress : Nat := 50

/-- Modelled from the spec: `dhcp.OptionServerIdentifier` of `mt-aux/dhcp` (RFC 2132). -/
def OptionServerIdentifier : Nat := 54

/-- Modelled from the spec: `dhcp.OptionRelayAgentInformation` of `mt-aux/dhcp`,
Option-82 (RFC 3046). -/
def OptionRelayAgentInformation : Nat := 82

/-- Modelled from the spec: `dhcp.Option82LinkSelection` of `mt-aux/dhcp`, the
Link-Selection sub-option of Option-82 (RFC 3527). -/
def Option82LinkSelection : Nat := 5

/-- Modelled from the spec: `aux.IPByteToInt` / `aux.IPNetToInt` of the package
`mt-aux`, which is not under `src/`: the integer encoding of an IPv4 address
given by its bytes, most significant byte first. -/
def IPByteToInt (b : List Nat) : Nat :=
  b.foldl (fun acc x => acc * 256 + x) 0

/-- Modelled from the spec: `aux.IPIntToNet(ip).To4()` of the package `mt-aux`,
the four bytes of an address, most significant first. -/
def IPIntToNet (ip : Nat) : List Nat :=
  [ip / 16777216 % 256, ip / 65536 % 256, ip / 256 % 256, ip % 256]

/-- What `DHCPHandleRequest` receives: the fields of the packet it reads, the
message type, the parsed options (a missing key is a nil value), the
sub-options `dhcp.ParseOption82` returns for the raw Option-82 (when that
option is present), and the two addresses. -/
structure Request where
  CHAddr : Nat
  GIAddr : Nat := 0
  CIAddr : Nat := 0
  msgType : Nat
  options : List (Nat × List Nat) := []
  Option82 : Option (List (Nat × List Nat)) := none
  LocalAddr : Nat := 0
  RemoteAddr : Nat := 0
  deriving DecidableEq, Repr

/-- Outcome of evaluating a segment's `DetectExpression`. -/
inductive EvalResult where
  | error
  | nonBool
  | bool (b : Bool)
  deriving DecidableEq, Repr

/-- The Go struct `Segment`; `DetectExpression` is the compiled rule as a
function of `RemoteIP` and `RelayIP`. -/
structure Segment where
  Id : Nat
  DetectExpression : Nat → Nat → EvalResult
  DNSRandom : Bool := false
  AutoMode : Bool := false
  AutoModeMask : Nat := 0
  AutoModeRangeStart : Nat := 0
  AutoModeRangeEnd : Nat := 0
  AutoModeRouter : Nat := 0
  AutoModeDNS : List Nat := []
  AutoModeLeaseTTL : Int := 0
  Subnets : List (Nat × Subnet) := []
  Masks : List Nat := []

/-- Process-wide state a request touches: the segment table `o.Segments` in
the order a `range` loop visits it, and the items of `RequestLock` (the shard
of a MAC is a function of the MAC, so the shards together are one map). -/
structure World where
  Segments : List Segment
  RequestLock : List (Nat × Bool) := []

/-- What the run-time supplies to one request: the clock, the random probes of
`LeaseFind`, the bound on its linear scan, and the permutation
`aux.ShuffleNetIPSlice` applies. -/
structure Env where
  now : Int
  rands : List Nat := []
  fuel : Nat
  shuffle : List Nat → List Nat := id

/-- The packet `dhcp.ReplyPacket` is asked to build. -/
structure Reply where
  Kind : Response
  ServerIP : Nat
  YIAddr : Nat
  TTL : Int
  Options : List DhcpOption
  deriving DecidableEq, Repr

/-- `ReqCtx.WorkStart`: test-and-set of the MAC in its shard. -/
def ReqCtx.WorkStart (c : ReqCtx) (Items : List (Nat × Bool)) :
    Bool × ReqCtx × List (Nat × Bool) :=
  let c1 : ReqCtx := { c with ReqLockShard := true }
  match GoMap.lookup Items c.MAC with
  | some _ => (false, c1, Items)
  | none => (true, c1, GoMap.insert Items c.MAC true)

/-- `ReqCtx.WorkFinish`. -/
def ReqCtx.WorkFinish (c : ReqCtx) (Items : List (Nat × Bool)) : List (Nat × Bool) :=
  if c.ReqLockShard = false then Items else GoMap.delete Items c.MAC

/-- `ReqCtx.ObtainRequestedIP`. -/
def ReqCtx.ObtainRequestedIP (c : ReqCtx) (req : Request) : Bool × ReqCtx :=
  match GoMap.lookup req.options OptionRequestedIPAddress with
  | some ip => (true, c.SetRequestedIP (IPByteToInt ip))
  | none =>
    if req.CIAddr ≠ 0 then (true, c.SetRequestedIP req.CIAddr)
    else (false, c)

/-- The loop of `ReqCtx.SegmentEvaluate`: position of the first segment, from
position `i` on, whose rule evaluates to the boolean `true`. -/
def segmentFind (RemoteIP RelayIP : Nat) : List Segment → Nat → Option Nat
  | [], _ => none
  | v :: rest, i =>
    match v.DetectExpression RemoteIP RelayIP with
    | EvalResult.bool true => some i
    | _ => segmentFind RemoteIP RelayIP rest (i + 1)

/-- `ReqCtx.SegmentEvaluate`. -/
def ReqCtx.SegmentEvaluate (c : ReqCtx) (Segments : List DHCPD.Segment) : ReqCtx :=
  match segmentFind c.RemoteIP c.RelayIP Segments 0 with
  | some i => { c with Segment := some i }
  | none => c

/-- `GenerateAutoSubnet`; the sums are `uint32` sums. -/
def GenerateAutoSubnet (NetAddr : Nat) (Seg : Segment) : Subnet :=
  { Dynamic := true
    Net := NetAddr
    Mask := Seg.AutoModeMask
    LeaseTTL := Seg.AutoModeLeaseTTL
    RangeStart := (NetAddr + Seg.AutoModeRangeStart) % 2 ^ 32
    RangeEnd := (NetAddr + Seg.AutoModeRangeEnd) % 2 ^ 32
    DHCPOptions :=
      [{ Code := OptionRouter, Value := IPIntToNet ((NetAddr + Seg.AutoModeRouter) % 2 ^ 32) },
       { Code := OptionSubnetMask, Value := IPIntToNet Seg.AutoModeMask }] }

/-- The loop over `Segment.Masks` in `ObtainSubnet`: the directory key of the
subnet the loop leaves in `c.Subnet`, if any. -/
def subnetFind (Subnets : List (Nat × Subnet)) (RelayIP : Nat) : List Nat → Option Nat
  | [] => none
  | Mask :: rest =>
    match GoMap.lookup Subnets (RelayIP &&& Mask) with
    | none => subnetFind Subnets RelayIP rest
    | some sn =>
      if sn.Mask = Mask then some (RelayIP &&& Mask)
      else subnetFind Subnets RelayIP rest

/-- `ReqCtx.ObtainSubnet` on the segment of the context, for a context whose
`Subnet` is nil on entry (as in `DHCPHandleRequest`, its only caller): the
context, the segment afterwards and what was sent to the mirror. -/
def ReqCtx.ObtainSubnet (c : ReqCtx) (Seg : DHCPD.Segment) :
    ReqCtx × DHCPD.Segment × List MirrorOp :=
  match subnetFind Seg.Subnets c.RelayIP Seg.Masks with
  | some key => ({ c with Subnet := some key }, Seg, [])
  | none =>
    if Seg.AutoMode = false then (c, Seg, [])
    else
      let sn := GenerateAutoSubnet (c.RelayIP &&& Seg.AutoModeMask) Seg
      ({ c with Subnet := some sn.Net },
        { Seg with Subnets := GoMap.insert Seg.Subnets sn.Net sn },
        [MirrorOp.subnetUpload sn.Net])

/-- `ReqCtx.AddDNS`. -/
def ReqCtx.AddDNS (c : ReqCtx) (e : Env) (Seg : DHCPD.Segment) (sn : DHCPD.Subnet) : ReqCtx :=
  let DNS := if sn.Dynamic then Seg.AutoModeDNS else sn.DNS
  let DNS := if Seg.DNSRandom then e.shuffle DNS else DNS
  { c with
    ReplyOptions := c.ReplyOptions ++
      DNS.map (fun d => { Code := OptionDomainNameServer, Value := IPIntToNet d }) }

/-- `ReqCtx.GenerateReply`: the reply (`none` for a nil packet), the context
and the items of `RequestLock` after `WorkFinish`.  `sn` is `c.Subnet`, which
is only read for OFFER and ACK. -/
def ReqCtx.GenerateReply (c : ReqCtx) (Resp : Response) (sn : Option DHCPD.Subnet)
    (Items : List (Nat × Bool)) : Option Reply × ReqCtx × List (Nat × Bool) :=
  let c1 : ReqCtx := { c with DHCPResponse := some Resp }
  let ttl : Int := match sn with
    | some s => s.LeaseTTL
    | none => 0
  let opts : List DhcpOption := match sn with
    | some s => c.ReplyOptions ++ s.DHCPOptions
    | none => c.ReplyOptions
  let reply : Option Reply :=
    match Resp with
    | Response.Offer =>
      some { Kind := Response.Offer, ServerIP := c.LocalIP, YIAddr := c.IP, TTL := ttl,
             Options := opts }
    | Response.ACK =>
      some { Kind := Response.ACK, ServerIP := c.LocalIP, YIAddr := c.IP, TTL := ttl,
             Options := opts }
    | Response.NAK =>
      some { Kind := Response.NAK, ServerIP := c.LocalIP, YIAddr := 0, TTL := 0,
             Options := [] }
    | Response.Drop => none
  (reply, c1, c1.WorkFinish Items)

/-- The two labels the relay-IP block of `DHCPHandleRequest` jumps to. -/
inductive Label where
  | RelayIPObtained
  | Drop
  deriving DecidableEq, Repr

/-- `DHCPHandleRequest` from the label `Option82Done` up to the label
`RelayIPObtained`. -/
def option82Done (req : Request) (Ctx : ReqCtx) : ReqCtx × Label :=
  let Ctx := Ctx.SetRelayIP req.GIAddr
  if Ctx.RelayIP > 0 then
    ({ Ctx with RelayIPSource := STATS_RELAYIP_GIADDR }, Label.RelayIPObtained)
  else if req.msgType ≠ dhcpRequest then
    ({ Ctx with DropReason := DROPREASON_RELAYIP_NOT_FOUND }, Label.Drop)
  else
    match Ctx.ObtainRequestedIP req with
    | (true, Ctx1) =>
      if Ctx1.IP = Ctx1.RemoteIP then
        ({ Ctx1.SetRelayIP Ctx1.IP with RelayIPSource := STATS_RELAYIP_UNICAST },
          Label.RelayIPObtained)
      else ({ Ctx1 with DropReason := DROPREASON_RELAYIP_NOT_FOUND }, Label.Drop)
    | (false, Ctx1) => (Ctx1, Label.RelayIPObtained)

/-- The relay-IP block of `DHCPHandleRequest` (from the Option-82 check up to
the label `RelayIPObtained`): the context and the label control reaches. -/
def relayIP (req : Request) (Ctx : ReqCtx) : ReqCtx × Label :=
  match req.Option82 with
  | none => option82Done req Ctx
  | some Option82 =>
    match GoMap.lookup Option82 Option82LinkSelection with
    | none => option82Done req Ctx
    | some LinkSelection =>
      if LinkSelection.length = 4 then
        ({ Ctx.SetRelayIP (IPByteToInt LinkSelection) with
            RelayIPSource := STATS_RELAYIP_OPTION82 }, Label.RelayIPObtained)
      else ({ Ctx with DropReason := DROPREASON_MALFORMED_PACKET }, Label.Drop)

/-- What one call of `DHCPHandleRequest` leaves behind: the reply (`none` for
a nil packet), the final context, the process-wide state and what was handed
to the mirror. -/
structure Outcome where
  reply : Option Reply
  Ctx : ReqCtx
  world : World
  mirror : List MirrorOp

/-- `return Ctx.GenerateReply(Resp)`. -/
def finish (c : ReqCtx) (Resp : Response) (sn : Option Subnet) (w : World)
    (m : List MirrorOp) : Outcome :=
  match c.GenerateReply Resp sn w.RequestLock with
  | (r, c', items) =>
    { reply := r, Ctx := c', world := { w with RequestLock := items }, mirror := m }

/-- The subnet `c.Subnet` points to after an operation of the backend: the
entry under `key` of segment `i` is replaced in place. -/
def writeBack (w : World) (i : Nat) (Seg : Segment) (key : Nat) (sn : Subnet) : World :=
  { w with
    Segments := w.Segments.set i { Seg with Subnets := GoMap.replace Seg.Subnets key sn } }

/-- The body of `case dhcp.Request` after the `ServerIdentifier` check. -/
def handleRequest (e : Env) (req : Request) (Ctx : ReqCtx) (i : Nat) (Seg : Segment)
    (key : Nat) (sn : Subnet) (w : World) (m : List MirrorOp) : Option Outcome :=
  match Ctx.ObtainRequestedIP req with
  | (false, Ctx1) =>
    some (finish { Ctx1 with DropReason := DROPREASON_NO_REQUESTED_IP } Response.Drop
      (some sn) w m)
  | (true, Ctx1) =>
    if (Ctx1.IP &&& sn.Mask) ≠ sn.Net then
      some (finish { Ctx1 with NAKReason := "IPSubnetMismatch" } Response.NAK (some sn) w m)
    else
      match LeaseCheckAndUpdate e.now Ctx1 sn with
      | none => none
      | some (Ctx2, sn2, ops) =>
        if Ctx2.Lease = none then
          some (finish { Ctx2 with NAKReason := "LeaseNotFound" } Response.NAK (some sn2)
            (writeBack w i Seg key sn2) (m ++ ops))
        else
          some (finish (Ctx2.AddDNS e Seg sn2) Response.ACK (some sn2)
            (writeBack w i Seg key sn2) (m ++ ops))

/-- Modelled from the spec: `v4InV6Prefix` of the Go package `net`, which is not
under `src/`: the twelve bytes that precede an IPv4 address in its 16-byte
form. -/
def v4InV6Prefix : List Nat := [0, 0, 0, 0, 0, 0, 0, 0, 0, 0, 255, 255]

/-- Modelled from the spec: `net.IP(ServerID).Equal(LocalAddr)` of the Go package
`net`, which is not under `src/`, for the four-byte `LocalAddr` that `main`
passes (`net.ParseIP(ip).To4()`): the bytes are those of `LocalAddr`, or they
are its 16-byte form, `v4InV6Prefix` followed by the four bytes. -/
def netIPEqual (ServerID : List Nat) (LocalAddr : Nat) : Bool :=
  decide (ServerID = IPIntToNet LocalAddr) ||
    decide (ServerID = v4InV6Prefix ++ IPIntToNet LocalAddr)

/-- The `switch msgType` of `DHCPHandleRequest`, entered after a successful
`WorkStart`, with `c.Segment` the segment `Seg` at position `i` and `c.Subnet`
the subnet `sn` under `key`. -/
def dispatch (o : Opts) (e : Env) (req : Request) (Ctx : ReqCtx) (i : Nat) (Seg : Segment)
    (key : Nat) (sn : Subnet) (w : World) (m : List MirrorOp) : Option Outcome :=
  if req.msgType = dhcpDiscover then
    match LeaseFind o e.fuel e.now e.rands Ctx sn with
    | none => none
    | some (Ctx1, sn1) =>
      if Ctx1.IP = 0 then
        some (finish { Ctx1 with DropReason := DROPREASON_NO_FREE_LEASES } Response.Drop
          (some sn1) (writeBack w i Seg key sn1) m)
      else
        some (finish (Ctx1.AddDNS e Seg sn1) Response.Offer (some sn1)
          (writeBack w i Seg key sn1) m)
  else if req.msgType = dhcpRequest then
    match GoMap.lookup req.options OptionServerIdentifier with
    | some ServerID =>
      if netIPEqual ServerID req.LocalAddr = false then
        some (finish { Ctx with DropReason := DROPREASON_INCORRECT_SERVER } Response.Drop
          (some sn) w m)
      else handleRequest e req Ctx i Seg key sn w m
    | none => handleRequest e req Ctx i Seg key sn w m
  else if req.msgType = dhcpRelease then
    if req.CIAddr = 0 then
      some (finish { Ctx with DropReason := DROPREASON_NO_REQUESTED_IP } Response.Drop
        (some sn) w m)
    else
      let Ctx1 := Ctx.SetRequestedIP req.CIAddr
      match LeaseCheckAndDelete Ctx1 sn with
      | none => none
      | some (sn1, ops) =>
        some (finish Ctx1 Response.Drop (some sn1) (writeBack w i Seg key sn1) (m ++ ops))
  else if req.msgType = dhcpDecline then
    match GoMap.lookup req.options OptionRequestedIPAddress with
    | none =>
      some (finish { Ctx with DropReason := DROPREASON_NO_REQUESTED_IP } Response.Drop
        (some sn) w m)
    | some ip =>
      let Ctx1 := Ctx.SetRequestedIP (IPByteToInt ip)
      match LeaseCheckAndDelete Ctx1 sn with
      | none => none
      | some (sn1, ops) =>
        some (finish Ctx1 Response.Drop (some sn1) (writeBack w i Seg key sn1) (m ++ ops))
  else if req.msgType = dhcpInform then
    let Ctx1 := Ctx.AddDNS e Seg sn
    some (finish Ctx1 Response.ACK (some sn)
      { w with RequestLock := Ctx1.WorkFinish w.RequestLock } m)
  else
    some (finish { Ctx with DropReason := DROPREASON_UNSUPPORTED_REQUEST } Response.Drop
      (some sn) w m)

/-- `DHCPHandleRequest`.  `none`: the call does not return (the scan of
`LeaseFind` is not over within `e.fuel` steps, or a nil pointer is read). -/
def DHCPHandleRequest (o : Opts) (e : Env) (w : World) (req : Request) : Option Outcome :=
  let Ctx0 : ReqCtx :=
    { RequestStart := e.now, MAC := req.CHAddr, DHCPRequest := req.msgType,
      RemoteIP := req.RemoteAddr, LocalIP := req.LocalAddr }
  match relayIP req Ctx0 with
  | (Ctx, Label.Drop) => some (finish Ctx Response.Drop none w [])
  | (Ctx, Label.RelayIPObtained) =>
    if Ctx.MAC = 0 then
      some (finish { Ctx with DropReason := DROPREASON_MALFORMED_PACKET } Response.Drop
        none w [])
    else
      let Ctx := Ctx.SegmentEvaluate w.Segments
      match Ctx.Segment with
      | none =>
        some (finish { Ctx with DropReason := DROPREASON_UNKNOWN_SEGMENT } Response.Drop
          none w [])
      | some i =>
        match w.Segments[i]? with
        | none => none
        | some Seg =>
          match Ctx.ObtainSubnet Seg with
          | (Ctx1, Seg1, m) =>
            let w1 : World := { w with Segments := w.Segments.set i Seg1 }
            match Ctx1.Subnet with
            | none => some (finish Ctx1 Response.Drop none w1 m)
            | some key =>
              match GoMap.lookup Seg1.Subnets key with
              | none => none
              | some sn =>
                match Ctx1.WorkStart w1.RequestLock with
                | (false, Ctx2, items) =>
                  some (finish { Ctx2 with DropReason := DROPREASON_CONCURRENT_REQUEST }
                    Response.Drop (some sn) { w1 with RequestLock := items } m)
                | (true, Ctx2, items) =>
                  dispatch o e req Ctx2 i Seg1 key sn { w1 with RequestLock := items } m

/-! ## Per-MAC serialization as a step relation -/

/-- One request task: its context, whether it is an INFORM, and how far it got:
`started` after `WorkStart`, `admitted` when `WorkStart` returned true,
`finished` after `GenerateReply`. -/
structure Task where
  Ctx : ReqCtx
  inform : Bool := false
  started : Bool := false
  admitted : Bool := false
  finished : Bool := false
  deriving DecidableEq, Repr

/-- The in-flight MAC set and the request tasks. -/
structure Pipeline where
  Items : List (Nat × Bool) := []
  tasks : List Task
  deriving DecidableEq, Repr

/-- The two steps of a task. -/
inductive Step where
  | workStart (r : Nat)
  | terminate (r : Nat) (resp : Response)
  deriving DecidableEq, Repr

/-- One step: task `r` runs `WorkStart`, or it runs its terminating path, which
is `GenerateReply` (and so `WorkFinish`), after one more `WorkFinish` on the
INFORM path. -/
def Pipeline.step (st : Pipeline) : Step → Pipeline
  | Step.workStart r =>
    match st.tasks[r]? with
    | none => st
    | some t =>
      if t.started ∨ t.finished then st
      else
        match t.Ctx.WorkStart st.Items with
        | (ok, c, items) =>
          { Items := items
            tasks := st.tasks.set r { t with Ctx := c, started := true, admitted := ok } }
  | Step.terminate r resp =>
    match st.tasks[r]? with
    | none => st
    | some t =>
      if t.finished then st
      else
        let items1 := if t.inform ∧ t.admitted then t.Ctx.WorkFinish st.Items else st.Items
        match t.Ctx.GenerateReply resp none items1 with
        | (_, c, items2) =>
          { Items := items2, tasks := st.tasks.set r { t with Ctx := c, finished := true } }

/-- The state after a sequence of steps. -/
def Pipeline.run (st : Pipeline) (steps : List Step) : Pipeline :=
  steps.foldl Pipeline.step st

/-- Task `r` is past a successful `WorkStart` and has not run `GenerateReply`. -/
def Pipeline.active (st : Pipeline) (r : Nat) : Bool :=
  match st.tasks[r]? with
  | none => false
  | some t => t.started && t.admitted && !t.finished

/-- The MAC of task `r`. -/
def Pipeline.mac (st : Pipeline) (r : Nat) : Option Nat :=
  (st.tasks[r]?).map (fun t => t.Ctx.MAC)

/-! ## Concrete requests and segment tables -/

/-- Three request tasks of the client with MAC `5`, none of them an INFORM. -/
def exTasks : Pipeline :=
  { tasks := [{ Ctx := { MAC := 5 } }, { Ctx := { MAC := 5 } }, { Ctx := { MAC := 5 } }] }

/-- The static subnet `10.0.0.0/24` with the range `10.0.0.10 - 10.0.0.11`. -/
def exNet : Subnet := { exEmpty with Net := 167772160, Mask := 4294967040 }

/-- Segment `A`: rule `InNetwork(RelayIP, 10.0.0.0, 255.255.0.0)`, one static
subnet, no automode. -/
def exSegmentA : Segment :=
  { Id := 1
    DetectExpression := fun _ RelayIP =>
      EvalResult.bool (decide (RelayIP &&& 4294901760 = 167772160))
    Subnets := [(167772160, exNet)]
    Masks := [4294967040] }

/-- Segment `U`: rule `InNetwork(RemoteIP, 10.0.0.0, 255.255.0.0)` for clients
that talk to the server directly, automode with mask `255.255.255.0`. -/
def exSegmentU : Segment :=
  { Id := 2
    DetectExpression := fun RemoteIP _ =>
      EvalResult.bool (decide (RemoteIP &&& 4294901760 = 167772160))
    AutoMode := true
    AutoModeMask := 4294967040
    AutoModeRangeStart := 10
    AutoModeRangeEnd := 250
    AutoModeRouter := 1
    AutoModeDNS := [134744072]
    AutoModeLeaseTTL := 600
    Masks := [4294967040] }

/-- A REQUEST sent directly from `10.0.0.50` that carries neither Option-82,
nor a GIADDR, nor a RequestedIPAddress option, nor a CIADDR. -/
def exBareRequest : Request :=
  { CHAddr := 5, msgType := dhcpRequest, RemoteAddr := 167772210, LocalAddr := 167772161 }

/-- A DISCOVER relayed with GIADDR `10.0.0.1` from the client with MAC `5`. -/
def exDiscover : Request :=
  { CHAddr := 5, msgType := dhcpDiscover, GIAddr := 167772161, RemoteAddr := 167772161,
    LocalAddr := 167772162 }

/-- A DISCOVER with Option-82 Link-Selection `10.1.0.1` and GIADDR `10.2.0.1`. -/
def exLinkSelection : Request :=
  { CHAddr := 5, msgType := dhcpDiscover, GIAddr := 167903233,
    Option82 := some [(Option82LinkSelection, [10, 1, 0, 1])] }

/-- A DISCOVER whose Link-Selection sub-option has three bytes. -/
def exShortLink : Request :=
  { CHAddr := 5, msgType := dhcpDiscover, GIAddr := 167903233,
    Option82 := some [(Option82LinkSelection, [10, 1, 0])] }

/-- Two contexts carry the same relay IP and the same relay-IP source tag. -/
def sameRelay (a b : ReqCtx) : Prop :=
  a.RelayIP = b.RelayIP ∧ a.RelayIPSource = b.RelayIPSource

/-- An automode segment whose range offsets `0.0.1.0 - 0.0.1.10` do not fit
under its mask `255.255.255.0`. -/
def exSegmentW : Segment :=
  { Id := 3
    DetectExpression := fun _ _ => EvalResult.bool true
    AutoMode := true
    AutoModeMask := 4294967040
    AutoModeRangeStart := 256
    AutoModeRangeEnd := 266
    AutoModeRouter := 1
    AutoModeDNS := [134744072]
    AutoModeLeaseTTL := 600
    Masks := [4294967040] }

/-- `exNet` after the DISCOVER of client `1` at time `0`. -/
def exNetOne : Subnet :=
  { exNet with
    LeasesByIP := [(167772170, 0)], LeasesByMAC := [(1, 0)], heap := [exLeaseA] }

/-- Subnet states reachable from empty indices by the four operations of the
backend when every random probe of `LeaseFind` lies inside the range. -/
inductive ReachableIn (o : Opts) : Subnet → Prop where
  | init (s : Subnet) (hip : s.LeasesByIP = []) (hmac : s.LeasesByMAC = []) : ReachableIn o s
  | leaseFind {s : Subnet} (fuel : Nat) (now : Int) (rands : List Nat) (Ctx Ctx' : ReqCtx)
      (s' : Subnet) (h : ReachableIn o s)
      (hr : ∀ ip ∈ rands, s.RangeStart ≤ ip ∧ ip ≤ s.RangeEnd)
      (hstep : LeaseFind o fuel now rands Ctx s = some (Ctx', s')) : ReachableIn o s'
  | leaseCheckAndUpdate {s : Subnet} (now : Int) (Ctx Ctx' : ReqCtx) (s' : Subnet)
      (ops : List MirrorOp) (h : ReachableIn o s)
      (hstep : LeaseCheckAndUpdate now Ctx s = some (Ctx', s', ops)) : ReachableIn o s'
  | leaseCheckAndDelete {s : Subnet} (Ctx : ReqCtx) (s' : Subnet) (ops : List MirrorOp)
      (h : ReachableIn o s)
      (hstep : LeaseCheckAndDelete Ctx s = some (s', ops)) : ReachableIn o s'
  | cleanupExpired {s : Subnet} (now : Int) (s' : Subnet) (em ei : Nat)
      (h : ReachableIn o s)
      (hstep : CleanupExpired o now s = some (s', em, ei)) : ReachableIn o s'

/-- The by-IP index has one entry per key, every key inside the range. -/
def Subnet.Confined (s : Subnet) : Prop :=
  (GoMap.keys s.LeasesByIP).Nodup ∧
    ∀ k ∈ GoMap.keys s.LeasesByIP, s.RangeStart ≤ k ∧ k ≤ s.RangeEnd

/-- The test of `CleanupExpired`: `time.Since(l.Expires) > o.DHCPCleanupAge`. -/
def Lease.tooOld (o : Opts) (now : Int) (l : Lease) : Prop :=
  now - l.Expires > o.DHCPCleanupAge

/-- Grace TTL 60, cleanup age 0. -/
def exOptsZero : Opts := { DHCPGraceTTL := 60, DHCPCleanupAge := 0 }

/-- The test of the mask loop of `ObtainSubnet` for the mask `M`: the directory
has an entry under `RelayIP AND M` and that subnet has mask exactly `M`. -/
def maskHit (Subnets : List (Nat × Subnet)) (RelayIP M : Nat) : Bool :=
  match GoMap.lookup Subnets (RelayIP &&& M) with
  | none => false
  | some sn => decide (sn.Mask = M)

/-- A static subnet `10.0.0.0/25` with the range of `exEmpty`, after the
DISCOVER of client `1` at time `0`. -/
def exHalfOne : Subnet := { exOne with Net := 167772160, Mask := 4294967168 }

/-- Segment `O`: the static subnet `10.0.0.0/25` and automode with mask
`255.255.255.0`; the mask list as `LoadSegments` builds it, most specific
first. -/
def exSegmentO : Segment :=
  { Id := 4
    DetectExpression := fun _ _ => EvalResult.bool true
    AutoMode := true
    AutoModeMask := 4294967040
    AutoModeRangeStart := 10
    AutoModeRangeEnd := 250
    AutoModeRouter := 1
    AutoModeDNS := [134744072]
    AutoModeLeaseTTL := 600
    Subnets := [(167772160, exHalfOne)]
    Masks := [4294967168, 4294967040] }

/-! ## Cache reload (`main.go`, `aerospike.go`) -/

/-- Modelled from the spec: the compare-and-set `AtomicBool.SetToIf(old, new)`
of the `abool` library, whose code is not part of the repository.  The flag is
set to `new` only if it holds `old`; the result says whether the set was done,
and is paired with the flag afterwards. -/
def SetToIf (flag old new : Bool) : Bool × Bool :=
  if flag = old then (true, new) else (false, flag)

/-- One value a scan of the mirror delivers on `RecordSet.Results()`: a record
or an error. -/
inductive ScanItem (R : Type) where
  | record (r : R)
  | err (msg : String)

/-- The bins of a record of the subnet set. -/
structure SubnetRecord where
  SegmentId : Nat
  NetAddr : Nat
  deriving DecidableEq, Repr

/-- The bins of a record of the lease set, `Expires` already converted by
`time.Unix`. -/
structure LeaseRecord where
  SegmentId : Nat
  NetAddr : Nat
  IP : Nat
  MAC : Nat
  Expires : Int
  deriving DecidableEq, Repr

/-- What the mirror answers to the two scans of a reload; `Except.error` when
`as.Scan` itself fails. -/
structure Mirror where
  Subnets : Except String (List (ScanItem SubnetRecord))
  Leases : Except String (List (ScanItem LeaseRecord))

/-- The map access `o.Segments[SegmentId]`: position and value of the segment
with that id. -/
def segmentById : List Segment → Nat → Option (Nat × Segment)
  | [], _ => none
  | v :: rest, id =>
    if v.Id = id then some (0, v)
    else (segmentById rest id).map (fun r => (r.1 + 1, r.2))

/-- The loop of `Segment.DeleteDynamicSubnets` over the keys the `range`
visits; an entry deleted before it is reached is not visited. -/
def deleteDynamicLoop : List Nat → List (Nat × Subnet) → List (Nat × Subnet)
  | [], m => m
  | NetAddr :: rest, m =>
    match GoMap.lookup m NetAddr with
    | none => deleteDynamicLoop rest m
    | some sn =>
      if sn.Dynamic then deleteDynamicLoop rest (GoMap.delete m NetAddr)
      else deleteDynamicLoop rest m

/-- `Segment.DeleteDynamicSubnets`. -/
def Segment.DeleteDynamicSubnets (s : Segment) : Segment :=
  { s with Subnets := deleteDynamicLoop (GoMap.keys s.Subnets) s.Subnets }

/-- The body of the loop of `SubnetsDownloadFromAerospike` for one record. -/
def subnetImport (Segments : List Segment) (r : SubnetRecord) : List Segment :=
  match segmentById Segments r.SegmentId with
  | none => Segments
  | some (i, Seg) =>
    if Seg.AutoMode = false then Segments
    else
      match GoMap.lookup Seg.Subnets r.NetAddr with
      | some _ => Segments
      | none =>
        Segments.set i
          { Seg with
            Subnets := GoMap.insert Seg.Subnets r.NetAddr (GenerateAutoSubnet r.NetAddr Seg) }

/-- The loop `for s := range RecordSet.Results()` of
`SubnetsDownloadFromAerospike`: an error item ends it, and the function then
returns with `err` still nil. -/
def subnetsLoop : List (ScanItem SubnetRecord) → List Segment → List Segment
  | [], Segments => Segments
  | ScanItem.err _ :: _, Segments => Segments
  | ScanItem.record r :: rest, Segments => subnetsLoop rest (subnetImport Segments r)

/-- `SubnetsDownloadFromAerospike`: the error returned, if any, and the segment
table afterwards. -/
def SubnetsDownloadFromAerospike (scan : Except String (List (ScanItem SubnetRecord)))
    (Segments : List Segment) : Option String × List Segment :=
  match scan with
  | Except.error e => (some e, Segments)
  | Except.ok items => (none, subnetsLoop items Segments)

/-- The `Lease` object the lease import builds from a record. -/
def LeaseRecord.lease (r : LeaseRecord) : Lease :=
  { IP := r.IP, MAC := r.MAC, Expires := r.Expires }

/-- The two index writes of the lease import: the new `Lease` object is stored
under its MAC and under its IP. -/
def loadLease (sn : Subnet) (r : LeaseRecord) : Subnet :=
  { sn with
    heap := sn.heap ++ [r.lease]
    LeasesByMAC := GoMap.insert sn.LeasesByMAC r.MAC sn.heap.length
    LeasesByIP := GoMap.insert sn.LeasesByIP r.IP sn.heap.length }

/-- The body of the loop of `LeasesDownloadFromAerospike` for one record, read
at time `now`. -/
def leaseImport (now : Int) (Segments : List Segment) (r : LeaseRecord) : List Segment :=
  if r.Expires < now then Segments
  else
    match segmentById Segments r.SegmentId with
    | none => Segments
    | some (i, Seg) =>
      match GoMap.lookup Seg.Subnets r.NetAddr with
      | none => Segments
      | some sn =>
        match GoMap.lookup sn.LeasesByMAC r.MAC with
        | some _ => Segments
        | none =>
          Segments.set i
            { Seg with Subnets := GoMap.replace Seg.Subnets r.NetAddr (loadLease sn r) }

/-- The loop `for s := range RecordSet.Results()` of
`LeasesDownloadFromAerospike`: an error item ends it and is returned. -/
def leasesLoop (now : Int) : List (ScanItem LeaseRecord) → List Segment →
    Option String × List Segment
  | [], Segments => (none, Segments)
  | ScanItem.err e :: _, Segments => (some e, Segments)
  | ScanItem.record r :: rest, Segments => leasesLoop now rest (leaseImport now Segments r)

/-- `LeasesDownloadFromAerospike`: the error returned, if any, and the segment
table afterwards. -/
def LeasesDownloadFromAerospike (now : Int)
    (scan : Except String (List (ScanItem LeaseRecord))) (Segments : List Segment) :
    Option String × List Segment :=
  match scan with
  | Except.error e => (some e, Segments)
  | Except.ok items => leasesLoop now items Segments

/-- The errors `CacheReload` returns: `inProgress` is "Cache reload already in
progress", the other two wrap the error of the download that failed. -/
inductive ReloadError where
  | inProgress
  | subnets (e : String)
  | leases (e : String)
  deriving DecidableEq, Repr

/-- The body of `CacheReload` under `CacheReloadingMtx`: the error returned, if
any, and the segment table afterwards. -/
def reloadLocked (now : Int) (mirror : Mirror) (Segments : List Segment) :
    Option ReloadError × List Segment :=
  let S1 := Segments.map Segment.DeleteDynamicSubnets
  match SubnetsDownloadFromAerospike mirror.Subnets S1 with
  | (some e, S2) => (some (ReloadError.subnets e), S2)
  | (none, S2) =>
    match LeasesDownloadFromAerospike now mirror.Leases S2 with
    | (some e, S3) => (some (ReloadError.leases e), S3)
    | (none, S3) => (none, S3)

/-- `CacheReload`, called when the flag `CacheReloading` holds `flag`: the error
returned, the flag afterwards and the segment table afterwards.  The deferred
`CacheReloading.UnSet()` is registered after the guard, so it runs only on the
paths that pass it. -/
def CacheReload (now : Int) (flag : Bool) (mirror : Mirror) (Segments : List Segment) :
    Option ReloadError × Bool × List Segment :=
  match SetToIf flag false true with
  | (true, flag1) => (some ReloadError.inProgress, flag1, Segments)
  | (false, _) =>
    match reloadLocked now mirror Segments with
    | (err, S) => (err, false, S)

/-- The automode parameters of segment `R`, with an empty directory. -/
def exSegmentR0 : Segment :=
  { Id := 5
    DetectExpression := fun _ _ => EvalResult.bool true
    AutoMode := true
    AutoModeMask := 4294967040
    AutoModeRangeStart := 10
    AutoModeRangeEnd := 250
    AutoModeRouter := 1
    AutoModeDNS := [134744072]
    AutoModeLeaseTTL := 600
    Masks := [4294967040] }

/-- The dynamic subnet `10.5.0.0/24` of segment `R`, holding one lease. -/
def exDynFive : Subnet :=
  { GenerateAutoSubnet 168099840 exSegmentR0 with
    LeasesByIP := [(168099850, 0)], LeasesByMAC := [(6, 0)]
    heap := [{ IP := 168099850, MAC := 6, Expires := 700 }] }

/-- Segment `R` before the reload: its directory holds `10.5.0.0/24`. -/
def exSegmentR : Segment := { exSegmentR0 with Subnets := [(168099840, exDynFive)] }

/-- The lease record of the mirror: `10.6.0.10` of client `7` in `10.6.0.0/24`. -/
def exLeaseRecord : LeaseRecord :=
  { SegmentId := 5, NetAddr := 168165376, IP := 168165386, MAC := 7, Expires := 1000 }

/-- A mirror holding the subnet record `10.6.0.0/24` of segment `R` and one
lease in it. -/
def exMirror : Mirror :=
  { Subnets := Except.ok [ScanItem.record { SegmentId := 5, NetAddr := 168165376 }]
    Leases := Except.ok [ScanItem.record exLeaseRecord] }

/-- The subnet `10.6.0.0/24` of segment `R` after the reload from `exMirror`. -/
def exDynSix : Subnet :=
  { GenerateAutoSubnet 168165376 exSegmentR0 with
    LeasesByIP := [(168165386, 0)], LeasesByMAC := [(7, 0)]
    heap := [exLeaseRecord.lease] }

/-- The subnet `o.Segments[id].Subnets[net]`, if both lookups succeed. -/
def subnetAt (Segments : List Segment) (id net : Nat) : Option Subnet :=
  match segmentById Segments id with
  | none => none
  | some (_, Seg) => GoMap.lookup Seg.Subnets net

/-- Number of entries of the by-IP indices of all subnets of all segments. -/
def leaseCountIP (Segments : List Segment) : Nat :=
  (Segments.map (fun Seg => (Seg.Subnets.map (fun e => e.2.LeasesByIP.length)).sum)).sum

/-- Number of entries of the by-MAC indices of all subnets of all segments. -/
def leaseCountMAC (Segments : List Segment) : Nat :=
  (Segments.map (fun Seg => (Seg.Subnets.map (fun e => e.2.LeasesByMAC.length)).sum)).sum

/-- The lease of record `r` is in its subnet: `by_ip[r.ip]` and `by_mac[r.mac]`
are one `Lease` object, whose ip, mac and expiry are those of the record and
whose discover fields are the zero values. -/
def leaseLoaded (Segments : List Segment) (r : LeaseRecord) : Prop :=
  ∃ sn p, subnetAt Segments r.SegmentId r.NetAddr = some sn ∧
    GoMap.lookup sn.LeasesByIP r.IP = some p ∧ GoMap.lookup sn.LeasesByMAC r.MAC = some p ∧
    sn.heap[p]? =
      some { IP := r.IP, MAC := r.MAC, Expires := r.Expires, Discover := false,
             DiscoverTime := 0 }

/-- Two lease records of the mirror for the subnet `10.0.0.0/24` of segment `A`. -/
def exRecords : List LeaseRecord :=
  [{ SegmentId := 1, NetAddr := 167772160, IP := 167772170, MAC := 1, Expires := 1000 },
   { SegmentId := 1, NetAddr := 167772160, IP := 167772171, MAC := 2, Expires := 1000 }]

/-- A DISCOVER relayed with GIADDR `10.0.5.1`: inside the rule of segment `A`,
inside none of its subnets. -/
def exDiscoverNoSubnet : Request :=
  { CHAddr := 5, msgType := dhcpDiscover, GIAddr := 167773441, RemoteAddr := 167773441,
    LocalAddr := 167772162 }

/-! ## Ingress (`dhcp.go`) -/

/-- Modelled from the spec: `dhcp.OptionDHCPMessageType` of `mt-aux/dhcp` (RFC 2132). -/
def OptionDHCPMessageType : Nat := 53

/-- A datagram `ReadFromUDP` delivered without error: the number `n` of bytes
read, and what the accessors of `dhcp.Packet` (package `mt-aux/dhcp`) return
for the buffer, `HLen()` and `ParseOptions()` (a missing key is a nil value). -/
structure Datagram where
  n : Nat
  HLen : Nat
  options : List (Nat × List Nat) := []
  deriving DecidableEq, Repr

/-- What the ingress does with a datagram: `handled t` is the call
`DHCPHandleRequest(Packet, t, options, ...)`; `malformed` is
`Stats.Inc(STATS_ERRORS_MALFORMED_PACKET)` followed by a return (or `continue`)
that sends nothing. -/
inductive Ingress where
  | handled (RequestType : Nat)
  | malformed
  deriving DecidableEq, Repr

/-- `DHCPHandleConnection`. -/
def DHCPHandleConnection (d : Datagram) : Ingress :=
  if d.HLen ≠ 6 then Ingress.malformed
  else
    let t := (GoMap.lookup d.options OptionDHCPMessageType).getD []
    if t.length ≠ 1 then Ingress.malformed
    else
      let RequestType := t.headD 0
      if RequestType < dhcpDiscover ∨ RequestType > dhcpInform then Ingress.malformed
      else Ingress.handled RequestType

/-- One turn of the loop of `DHCPServe` for a datagram read without error. -/
def DHCPServe (d : Datagram) : Ingress :=
  if d.n < 240 then Ingress.malformed
  else DHCPHandleConnection d

/-- Segment `C`: rule `InNetwork(RelayIP, 10.1.0.0, 255.255.0.0)`, no subnets. -/
def exSegmentC : Segment :=
  { Id := 6
    DetectExpression := fun _ RelayIP =>
      EvalResult.bool (decide (RelayIP &&& 4294901760 = 167837696)) }

/-- Segment `E`: a rule whose evaluation fails. -/
def exSegmentE : Segment :=
  { Id := 7, DetectExpression := fun _ _ => EvalResult.error }

/-! ## Loading the segments (`main.go`) -/

/-- One row of the options query of `LoadSubnetsFromSegment`, its value already
converted: `router` and `dns` by `aux.IPStrToInt` (`0` when the text is no
address), `lease_ttl` by `time.ParseDuration` (`none` on a parse error). -/
inductive OptRow where
  | router (ip : Nat)
  | dns (ip : Nat)
  | lease_ttl (d : Option Int)
  | other
  deriving DecidableEq, Repr

/-- One row of the subnet query of `LoadSubnetsFromSegment`, addresses already
converted by `aux.IPStrToInt`, with the rows the options query returns for it. -/
structure SubnetRow where
  Net : Nat
  Mask : Nat
  RangeStart : Nat
  RangeEnd : Nat
  opts : List OptRow := []
  deriving DecidableEq, Repr

/-- The loop `for rows2.Next()` of `LoadSubnetsFromSegment`; `none` is a return
with an error. -/
def loadOpts : Subnet → List OptRow → Option Subnet
  | Net, [] => some Net
  | Net, OptRow.router ip :: rest =>
    if ip = 0 then loadOpts { Net with Router := ip } rest
    else
      loadOpts
        { Net with
          Router := ip
          DHCPOptions := Net.DHCPOptions ++ [{ Code := OptionRouter, Value := IPIntToNet ip }] }
        rest
  | Net, OptRow.dns ip :: rest =>
    if ip = 0 then none else loadOpts { Net with DNS := Net.DNS ++ [ip] } rest
  | _, OptRow.lease_ttl none :: _ => none
  | Net, OptRow.lease_ttl (some d) :: rest => loadOpts { Net with LeaseTTL := d } rest
  | Net, OptRow.other :: rest => loadOpts Net rest

/-- The loop `for rows1.Next()` of `LoadSubnetsFromSegment` over the maps
`Subnets` and `MasksMap`; `none` is a return with an error. -/
def loadRows : List SubnetRow → List (Nat × Subnet) → List (Nat × Bool) →
    Option (List (Nat × Subnet) × List (Nat × Bool))
  | [], Subnets, MasksMap => some (Subnets, MasksMap)
  | row :: rest, Subnets, MasksMap =>
    let Net : Subnet :=
      { Net := row.Net, Mask := row.Mask, RangeStart := row.RangeStart,
        RangeEnd := row.RangeEnd
        DHCPOptions := [{ Code := OptionSubnetMask, Value := IPIntToNet row.Mask }] }
    match loadOpts Net row.opts with
    | none => none
    | some Net1 =>
      loadRows rest (GoMap.insert Subnets row.Net Net1) (GoMap.insert MasksMap Net.Mask true)

/-- `LoadSubnetsFromSegment` for the rows the two queries return: the
directory and the masks collected from `MasksMap`; `none` on an error. -/
def LoadSubnetsFromSegment (rows : List SubnetRow) :
    Option (List (Nat × Subnet) × List Nat) :=
  match loadRows rows [] [] with
  | none => none
  | some (Subnets, MasksMap) => some (Subnets, GoMap.keys MasksMap)

/-- Modelled from the spec: `aux.SortUint32Slice` followed by
`aux.ReverseUint32Slice` of the package `mt-aux`, which is not under `src/`:
ascending sort, then reversal. -/
def sortReverse (Masks : List Nat) : List Nat :=
  (Masks.insertionSort (fun a b => a ≤ b)).reverse

/-- The body of the loop of `LoadSegments` for the segment `s`, `rows` being
what the database holds for `s.Id`; `none` on an error. -/
def loadSegment (rows : List SubnetRow) (s : Segment) : Option Segment :=
  match LoadSubnetsFromSegment rows with
  | none => none
  | some (Subnets, Masks) =>
    let Masks := if s.AutoMode then Masks ++ [s.AutoModeMask] else Masks
    some { s with Subnets := Subnets, Masks := sortReverse Masks }

/-- `LoadSegments` over the segment table, `db` giving the rows of a segment
id; `none` on an error. -/
def LoadSegments (db : Nat → List SubnetRow) : List Segment → Option (List Segment)
  | [] => some []
  | s :: rest =>
    match loadSegment (db s.Id) s with
    | none => none
    | some s' => (LoadSegments db rest).map (fun l => s' :: l)

/-- Segment `R` as the configuration file gives it: automode with mask
`255.255.255.0`, no subnets and no masks yet. -/
def exSegmentCfg : Segment := { exSegmentR0 with Masks := [] }

/-- Rows of two static subnets, `10.0.0.0/24` and `10.0.1.0/25`. -/
def exRows : List SubnetRow :=
  [{ Net := 167772160, Mask := 4294967040, RangeStart := 167772170, RangeEnd := 167772171
     opts := [OptRow.dns 134744072, OptRow.lease_ttl (some 600), OptRow.router 167772161] },
   { Net := 167772416, Mask := 4294967168, RangeStart := 167772426, RangeEnd := 167772436
     opts := [OptRow.lease_ttl (some 600)] }]

/-- The addresses the loop of `rangeScan` hands to `LeaseAdd`, in order; `none`
where `rangeScan` is `none`. -/
def rangeProbes (o : Opts) (now : Int) (Ctx : ReqCtx) :
    Nat → Subnet → Nat → Option (List Nat)
  | 0, _, _ => none
  | fuel + 1, s, ip =>
    if ip ≤ s.RangeEnd then
      match LeaseAdd o now Ctx s ip with
      | none => none
      | some (true, _) => some [ip]
      | some (false, s') =>
        (rangeProbes o now Ctx fuel s' ((ip + 1) % 2 ^ 32)).map (fun l => ip :: l)
    else some []

/-- Empty subnet whose range is the single address `0.0.0.0`. -/
def exZero : Subnet := { RangeStart := 0, RangeEnd := 0, LeaseTTL := 600 }

/-- `exZero` after the DISCOVER of client `3` at time `0`. -/
def exZeroOne : Subnet :=
  { exZero with
    LeasesByIP := [(0, 0)], LeasesByMAC := [(3, 0)]
    heap := [{ IP := 0, MAC := 3, Expires := 60, Discover := true, DiscoverTime := 0 }] }

/-- A state no operation produces: the by-IP entry of `10.0.0.10` holds a lease
of client `1` whose ip is `10.0.0.11`, while `by_ip[10.0.0.11]` holds a lease of
client `2` that expires at `1000`. -/
def exUnkeyed : Subnet :=
  { exEmpty with
    LeasesByIP := [(167772170, 0), (167772171, 1)]
    LeasesByMAC := [(1, 2), (2, 1)]
    heap := [{ IP := 167772171, MAC := 1, Expires := 1000 },
             { IP := 167772171, MAC := 2, Expires := 1000 },
             { IP := 167772170, MAC := 1, Expires := 1000 }] }

/-! ## Facts about Go maps -/

namespace GoMap

variable {V : Type}

theorem delete_cons (e : Nat × V) (t : List (Nat × V)) (k : Nat) :
    delete (e :: t) k = if e.1 = k then delete t k else e :: delete t k := by
  unfold delete
  by_cases h : e.1 = k <;> simp [List.filter_cons, h]

theorem lookup_delete_self (m : List (Nat × V)) (k : Nat) :
    lookup (delete m k) k = none := by
  induction m with
  | nil => rfl
  | cons e t ih =>
    rw [delete_cons]
    by_cases h : e.1 = k
    · simpa [h] using ih
    · simp only [h, if_false]
      obtain ⟨k', v⟩ := e
      simp only [lookup]
      rw [if_neg h]
      exact ih

theorem lookup_delete_ne (m : List (Nat × V)) {k k' : Nat} (hne : k' ≠ k) :
    lookup (delete m k) k' = lookup m k' := by
  induction m with
  | nil => rfl
  | cons e t ih =>
    rw [delete_cons]
    obtain ⟨a, v⟩ := e
    by_cases h : a = k
    · have hak : a ≠ k' := fun h' => hne (h'.symm.trans h)
      simp only [h, if_true, lookup]
      rw [if_neg (h ▸ hak)]
      exact ih
    · simp only [h, if_false, lookup]
      by_cases h2 : a = k'
      · simp [h2]
      · simp [h2, ih]

theorem lookup_insert_self (m : List (Nat × V)) (k : Nat) (v : V) :
    lookup (insert m k v) k = some v := by
  simp [insert, lookup]

theorem lookup_insert_ne (m : List (Nat × V)) {k k' : Nat} (v : V) (hne : k' ≠ k) :
    lookup (insert m k v) k' = lookup m k' := by
  simp only [insert, lookup]
  rw [if_neg (fun h => hne h.symm)]
  exact lookup_delete_ne m hne

theorem lookup_delete_some (m : List (Nat × V)) {k k' : Nat} {v : V}
    (h : lookup (delete m k) k' = some v) : k' ≠ k ∧ lookup m k' = some v := by
  by_cases hk : k' = k
  · subst hk
    rw [lookup_delete_self] at h
    cases h
  · exact ⟨hk, by rwa [lookup_delete_ne m hk] at h⟩

theorem mem_keys_of_lookup (m : List (Nat × V)) {k : Nat} {v : V}
    (h : lookup m k = some v) : k ∈ keys m := by
  induction m with
  | nil => cases h
  | cons e t ih =>
    obtain ⟨a, w⟩ := e
    simp only [lookup] at h
    by_cases hak : a = k
    · simp [keys, hak]
    · rw [if_neg hak] at h
      have := ih h
      simp only [keys, List.map_cons, List.mem_cons] at this ⊢
      exact Or.inr this

end GoMap


/-! ## The lease heap -/

theorem heap_lt {h : List Lease} {p : Nat} {L : Lease} (hp : h[p]? = some L) :
    p < h.length := by
  by_contra hc
  rw [List.getElem?_eq_none (by omega)] at hp
  cases hp

theorem heap_append_old {h : List Lease} {p : Nat} {L : Lease} (x : Lease)
    (hp : h[p]? = some L) : (h ++ [x])[p]? = some L := by
  rw [List.getElem?_append_left (heap_lt hp)]
  exact hp

theorem heap_append_new (h : List Lease) (x : Lease) : (h ++ [x])[h.length]? = some x := by
  simp

theorem heap_set_self {h : List Lease} {p : Nat} {L : Lease} (x : Lease)
    (hp : h[p]? = some L) : (h.set p x)[p]? = some x := by
  rw [List.getElem?_set, if_pos rfl, if_pos (heap_lt hp)]

theorem heap_set_ne {h : List Lease} {p q : Nat} (x : Lease) (hne : q ≠ p) :
    (h.set q x)[p]? = h[p]? := by
  rw [List.getElem?_set, if_neg hne]

/-! ## Shape of the results of the probes -/

theorem LeaseAdd_cases {o : Opts} {now : Int} {Ctx : ReqCtx} {s s' : Subnet} {ip : Nat}
    {b : Bool} (h : LeaseAdd o now Ctx s ip = some (b, s')) :
    (b = false ∧ s' = s) ∨ (b = true ∧ s' = storeLease o now Ctx s ip) := by
  unfold LeaseAdd at h
  split at h
  · split at h
    · cases h
    · split at h <;>
        (simp only [Option.some.injEq, Prod.mk.injEq] at h
         obtain ⟨rfl, rfl⟩ := h
         simp)
  · simp only [Option.some.injEq, Prod.mk.injEq] at h
    obtain ⟨rfl, rfl⟩ := h
    simp

theorem randomTries_cases {o : Opts} {now : Int} {Ctx : ReqCtx} {rands : List Nat}
    {s s' : Subnet} {r : Option Nat} (h : randomTries o now Ctx s rands = some (r, s')) :
    (r = none ∧ s' = s) ∨ (∃ ip, r = some ip ∧ s' = storeLease o now Ctx s ip) := by
  induction rands generalizing s with
  | nil =>
    simp only [randomTries, Option.some.injEq, Prod.mk.injEq] at h
    exact Or.inl ⟨h.1.symm, h.2.symm⟩
  | cons ip rest ih =>
    simp only [randomTries] at h
    cases hadd : LeaseAdd o now Ctx s ip with
    | none => rw [hadd] at h; cases h
    | some res =>
      obtain ⟨b, s1⟩ := res
      rw [hadd] at h
      rcases LeaseAdd_cases hadd with ⟨rfl, rfl⟩ | ⟨rfl, rfl⟩
      · exact ih h
      · simp only [Option.some.injEq, Prod.mk.injEq] at h
        exact Or.inr ⟨ip, h.1.symm, h.2.symm⟩

theorem rangeScan_cases {o : Opts} {now : Int} {Ctx : ReqCtx} {fuel : Nat}
    {s s' : Subnet} {ip : Nat} {r : Option Nat}
    (h : rangeScan o now Ctx fuel s ip = some (r, s')) :
    (r = none ∧ s' = s) ∨ (∃ ip', r = some ip' ∧ s' = storeLease o now Ctx s ip') := by
  induction fuel generalizing ip with
  | zero => simp [rangeScan] at h
  | succ n ih =>
    simp only [rangeScan] at h
    split at h
    · cases hadd : LeaseAdd o now Ctx s ip with
      | none => rw [hadd] at h; cases h
      | some res =>
        obtain ⟨b, s1⟩ := res
        rw [hadd] at h
        rcases LeaseAdd_cases hadd with ⟨rfl, rfl⟩ | ⟨rfl, rfl⟩
        · exact ih h
        · simp only [Option.some.injEq, Prod.mk.injEq] at h
          exact Or.inr ⟨ip, h.1.symm, h.2.symm⟩
    · simp only [Option.some.injEq, Prod.mk.injEq] at h
      exact Or.inl ⟨h.1.symm, h.2.symm⟩

theorem leaseSearch_cases {o : Opts} {fuel : Nat} {now : Int} {rands : List Nat}
    {Ctx Ctx' : ReqCtx} {s s' : Subnet}
    (h : leaseSearch o fuel now rands Ctx s = some (Ctx', s')) :
    (Ctx' = Ctx ∧ s' = s) ∨
      (∃ ip, Ctx'.IP = ip ∧ s' = storeLease o now Ctx s ip ∧
        (Ctx'.LeaseSource = LEASE_SRC_RANDOM ∨ Ctx'.LeaseSource = LEASE_SRC_RANGE)) := by
  unfold leaseSearch at h
  cases hr : randomTries o now Ctx s rands with
  | none => rw [hr] at h; cases h
  | some res =>
    obtain ⟨r, s1⟩ := res
    rw [hr] at h
    rcases randomTries_cases hr with ⟨rfl, rfl⟩ | ⟨ip, rfl, rfl⟩
    · simp only at h
      cases hs : rangeScan o now Ctx fuel s1 s1.RangeStart with
      | none => rw [hs] at h; cases h
      | some res2 =>
        obtain ⟨r2, s2⟩ := res2
        rw [hs] at h
        rcases rangeScan_cases hs with ⟨rfl, rfl⟩ | ⟨ip, rfl, rfl⟩
        · simp only [Option.some.injEq, Prod.mk.injEq] at h
          exact Or.inl ⟨h.1.symm, h.2.symm⟩
        · simp only [Option.some.injEq, Prod.mk.injEq] at h
          obtain ⟨rfl, rfl⟩ := h
          exact Or.inr ⟨ip, rfl, rfl, Or.inr rfl⟩
    · simp only [Option.some.injEq, Prod.mk.injEq] at h
      obtain ⟨rfl, rfl⟩ := h
      exact Or.inr ⟨ip, rfl, rfl, Or.inl rfl⟩

/-! ## Preservation of the index invariants -/

theorem storeLease_inv {o : Opts} {now : Int} {Ctx : ReqCtx} {s : Subnet} (ip : Nat)
    (hF : s.Forward) (hM : s.MacKeyed) (hN : s.NoOwn Ctx.MAC) :
    (storeLease o now Ctx s ip).Forward ∧ (storeLease o now Ctx s ip).MacKeyed := by
  constructor
  · intro ip' p' hl
    simp only [storeLease] at hl ⊢
    by_cases hip : ip' = ip
    · subst hip
      rw [GoMap.lookup_insert_self] at hl
      cases hl
      exact ⟨newLease o now Ctx ip', heap_append_new _ _, rfl, GoMap.lookup_insert_self _ _ _⟩
    · rw [GoMap.lookup_insert_ne _ _ hip] at hl
      obtain ⟨L, hL, hIP, hmac⟩ := hF ip' p' hl
      refine ⟨L, heap_append_old _ hL, hIP, ?_⟩
      rw [GoMap.lookup_insert_ne _ _ (hN ip' p' L hl hL)]
      exact hmac
  · intro mac p hl
    simp only [storeLease] at hl ⊢
    by_cases hm : mac = Ctx.MAC
    · subst hm
      rw [GoMap.lookup_insert_self] at hl
      cases hl
      exact ⟨newLease o now Ctx ip, heap_append_new _ _, rfl⟩
    · rw [GoMap.lookup_insert_ne _ _ hm] at hl
      obtain ⟨L, hL, hmac⟩ := hM mac p hl
      exact ⟨L, heap_append_old _ hL, hmac⟩

theorem setHeap_inv {s : Subnet} {q : Nat} {L : Lease} (L' : Lease)
    (hq : s.heap[q]? = some L) (hip : L'.IP = L.IP) (hmac : L'.MAC = L.MAC)
    (hF : s.Forward) (hM : s.MacKeyed) :
    ({ s with heap := s.heap.set q L' } : Subnet).Forward ∧
      ({ s with heap := s.heap.set q L' } : Subnet).MacKeyed := by
  constructor
  · intro ip p hl
    obtain ⟨L0, hL0, hIP, hm⟩ := hF ip p hl
    by_cases hpq : q = p
    · subst hpq
      rw [hq] at hL0
      cases hL0
      exact ⟨L', heap_set_self _ hq, hip.trans hIP, by rw [hmac]; exact hm⟩
    · exact ⟨L0, by simpa [heap_set_ne _ hpq] using hL0, hIP, hm⟩
  · intro mac p hl
    obtain ⟨L0, hL0, hm⟩ := hM mac p hl
    by_cases hpq : q = p
    · subst hpq
      rw [hq] at hL0
      cases hL0
      exact ⟨L', heap_set_self _ hq, hmac.trans hm⟩
    · exact ⟨L0, by simpa [heap_set_ne _ hpq] using hL0, hm⟩

theorem deleteMac_inv {s : Subnet} {m : Nat}
    (hF : s.Forward) (hM : s.MacKeyed) (hN : s.NoOwn m) :
    ({ s with LeasesByMAC := GoMap.delete s.LeasesByMAC m } : Subnet).Forward ∧
      ({ s with LeasesByMAC := GoMap.delete s.LeasesByMAC m } : Subnet).MacKeyed ∧
      ({ s with LeasesByMAC := GoMap.delete s.LeasesByMAC m } : Subnet).NoOwn m := by
  refine ⟨?_, ?_, ?_⟩
  · intro ip p hl
    obtain ⟨L, hL, hIP, hm⟩ := hF ip p hl
    refine ⟨L, hL, hIP, ?_⟩
    show GoMap.lookup (GoMap.delete s.LeasesByMAC m) L.MAC = some p
    rw [GoMap.lookup_delete_ne _ (hN ip p L hl hL)]
    exact hm
  · intro mac p hl
    exact hM mac p (GoMap.lookup_delete_some _ hl).2
  · intro ip p L hl hL
    exact hN ip p L hl hL

theorem noOwn_of_absent {s : Subnet} {m : Nat} (hF : s.Forward)
    (h : GoMap.lookup s.LeasesByMAC m = none) : s.NoOwn m := by
  intro ip p L hl hL hm
  obtain ⟨L0, hL0, _, hmac⟩ := hF ip p hl
  rw [hL] at hL0
  cases hL0
  rw [hm, h] at hmac
  cases hmac

/-- Whenever `LeaseFind` reaches the label `search`, no by-IP entry belongs to
the client. -/
theorem noOwn_of_stale {s : Subnet} {m p : Nat} {l : Lease} (hF : s.Forward)
    (hp : GoMap.lookup s.LeasesByMAC m = some p) (hl : s.heap[p]? = some l)
    (hstale : l.MAC ≠ m ∨ GoMap.lookup s.LeasesByIP l.IP = none ∨
      ∃ q L, GoMap.lookup s.LeasesByIP l.IP = some q ∧ s.heap[q]? = some L ∧ L.MAC ≠ m) :
    s.NoOwn m := by
  intro ip p' L hl' hL hm
  obtain ⟨L0, hL0, hIP, hmac⟩ := hF ip p' hl'
  rw [hL] at hL0
  cases hL0
  rw [hm, hp] at hmac
  cases hmac
  rw [hl] at hL
  cases hL
  rcases hstale with h1 | h2 | ⟨q, L2, hq, hL2, hne⟩
  · exact h1 hm
  · rw [hIP, hl'] at h2
    cases h2
  · rw [hIP, hl'] at hq
    cases hq
    rw [hl] at hL2
    cases hL2
    exact hne hm

theorem leaseSearch_inv {o : Opts} {fuel : Nat} {now : Int} {rands : List Nat}
    {Ctx Ctx' : ReqCtx} {s s' : Subnet}
    (hF : s.Forward) (hM : s.MacKeyed) (hN : s.NoOwn Ctx.MAC)
    (h : leaseSearch o fuel now rands Ctx s = some (Ctx', s')) :
    s'.Forward ∧ s'.MacKeyed := by
  rcases leaseSearch_cases h with ⟨_, rfl⟩ | ⟨ip, _, rfl, _⟩
  · exact ⟨hF, hM⟩
  · exact storeLease_inv ip hF hM hN

theorem LeaseFind_inv {o : Opts} {fuel : Nat} {now : Int} {rands : List Nat}
    {Ctx Ctx' : ReqCtx} {s s' : Subnet}
    (hF : s.Forward) (hM : s.MacKeyed)
    (h : LeaseFind o fuel now rands Ctx s = some (Ctx', s')) :
    s'.Forward ∧ s'.MacKeyed := by
  unfold LeaseFind at h
  cases hp : GoMap.lookup s.LeasesByMAC Ctx.MAC with
  | none =>
    rw [hp] at h
    exact leaseSearch_inv hF hM (noOwn_of_absent hF hp) h
  | some p =>
    rw [hp] at h
    simp only at h
    cases hl : s.heap[p]? with
    | none => rw [hl] at h; cases h
    | some l =>
      rw [hl] at h
      simp only at h
      by_cases hmac : l.MAC ≠ Ctx.MAC
      · rw [if_pos hmac] at h
        have hN := noOwn_of_stale hF hp hl (Or.inl hmac)
        obtain ⟨hF1, hM1, hN1⟩ := deleteMac_inv hF hM hN
        exact leaseSearch_inv hF1 hM1 hN1 h
      · rw [if_neg hmac] at h
        cases hq : GoMap.lookup s.LeasesByIP l.IP with
        | none =>
          rw [hq] at h
          have hN := noOwn_of_stale hF hp hl (Or.inr (Or.inl hq))
          obtain ⟨hF1, hM1, hN1⟩ := deleteMac_inv hF hM hN
          exact leaseSearch_inv hF1 hM1 hN1 h
        | some q =>
          rw [hq] at h
          simp only at h
          cases hL : s.heap[q]? with
          | none => rw [hL] at h; cases h
          | some L =>
            rw [hL] at h
            simp only at h
            by_cases hmac2 : L.MAC ≠ Ctx.MAC
            · rw [if_pos hmac2] at h
              exact leaseSearch_inv hF hM
                (noOwn_of_stale hF hp hl (Or.inr (Or.inr ⟨q, L, hq, hL, hmac2⟩))) h
            · rw [if_neg hmac2] at h
              simp only [Option.some.injEq, Prod.mk.injEq] at h
              obtain ⟨_, rfl⟩ := h
              exact setHeap_inv _ hL rfl rfl hF hM

theorem LeaseCheckAndUpdate_inv {now : Int} {Ctx Ctx' : ReqCtx} {s s' : Subnet}
    {ops : List MirrorOp} (hF : s.Forward) (hM : s.MacKeyed)
    (h : LeaseCheckAndUpdate now Ctx s = some (Ctx', s', ops)) :
    s'.Forward ∧ s'.MacKeyed := by
  unfold LeaseCheckAndUpdate at h
  split at h
  · simp only [Option.some.injEq, Prod.mk.injEq] at h
    obtain ⟨_, rfl, _⟩ := h
    exact ⟨hF, hM⟩
  · split at h
    · cases h
    · rename_i p _ L hL
      split at h
      · simp only [Option.some.injEq, Prod.mk.injEq] at h
        obtain ⟨_, rfl, _⟩ := h
        exact ⟨hF, hM⟩
      · split at h
        · simp only [Option.some.injEq, Prod.mk.injEq] at h
          obtain ⟨_, rfl, _⟩ := h
          exact ⟨hF, hM⟩
        · simp only [Option.some.injEq, Prod.mk.injEq] at h
          obtain ⟨_, rfl, _⟩ := h
          exact setHeap_inv _ hL rfl rfl hF hM

theorem deleteBoth_inv {s : Subnet} {ip m p : Nat} {L : Lease}
    (hF : s.Forward) (hM : s.MacKeyed)
    (hp : GoMap.lookup s.LeasesByIP ip = some p) (hL : s.heap[p]? = some L)
    (hmac : L.MAC = m) :
    ({ s with LeasesByIP := GoMap.delete s.LeasesByIP ip
              LeasesByMAC := GoMap.delete s.LeasesByMAC m } : Subnet).Forward ∧
      ({ s with LeasesByIP := GoMap.delete s.LeasesByIP ip
                LeasesByMAC := GoMap.delete s.LeasesByMAC m } : Subnet).MacKeyed := by
  constructor
  · intro ip' p' hl
    obtain ⟨hne, hl'⟩ := GoMap.lookup_delete_some _ hl
    obtain ⟨L', hL', hIP', hm'⟩ := hF ip' p' hl'
    refine ⟨L', hL', hIP', ?_⟩
    show GoMap.lookup (GoMap.delete s.LeasesByMAC m) L'.MAC = some p'
    have hne2 : L'.MAC ≠ m := by
      intro heq
      obtain ⟨L0, hL0, hIP0, hm0⟩ := hF ip p hp
      rw [hL] at hL0
      cases hL0
      rw [hmac] at hm0
      rw [heq, hm0] at hm'
      cases hm'
      rw [hL] at hL'
      cases hL'
      exact hne (hIP'.symm.trans hIP0)
    rw [GoMap.lookup_delete_ne _ hne2]
    exact hm'
  · intro mac p' hl
    exact hM mac p' (GoMap.lookup_delete_some _ hl).2

theorem LeaseCheckAndDelete_inv {Ctx : ReqCtx} {s s' : Subnet} {ops : List MirrorOp}
    (hF : s.Forward) (hM : s.MacKeyed)
    (h : LeaseCheckAndDelete Ctx s = some (s', ops)) :
    s'.Forward ∧ s'.MacKeyed := by
  unfold LeaseCheckAndDelete at h
  split at h
  · simp only [Option.some.injEq, Prod.mk.injEq] at h
    obtain ⟨rfl, _⟩ := h
    exact ⟨hF, hM⟩
  · rename_i p hp
    split at h
    · cases h
    · rename_i L hL
      split at h
      · simp only [Option.some.injEq, Prod.mk.injEq] at h
        obtain ⟨rfl, _⟩ := h
        exact ⟨hF, hM⟩
      · rename_i hmac
        simp only [Option.some.injEq, Prod.mk.injEq] at h
        obtain ⟨rfl, _⟩ := h
        exact deleteBoth_inv hF hM hp hL (not_not.mp hmac)

theorem cleanupStep_inv {o : Opts} {now : Int} {s s' : Subnet} {mac dm di : Nat}
    (hF : s.Forward) (hM : s.MacKeyed)
    (h : cleanupStep o now s mac = some (s', dm, di)) :
    s'.Forward ∧ s'.MacKeyed := by
  unfold cleanupStep at h
  cases hp : GoMap.lookup s.LeasesByMAC mac with
  | none =>
    rw [hp] at h
    simp only [Option.some.injEq, Prod.mk.injEq] at h
    obtain ⟨rfl, _⟩ := h
    exact ⟨hF, hM⟩
  | some p =>
    rw [hp] at h
    simp only at h
    cases hl : s.heap[p]? with
    | none => rw [hl] at h; cases h
    | some l =>
      rw [hl] at h
      simp only at h
      by_cases hold : now - l.Expires > o.DHCPCleanupAge
      · rw [if_pos hold] at h
        obtain ⟨l0, hl0, hmac0⟩ := hM mac p hp
        rw [hl] at hl0
        cases hl0
        cases hq : GoMap.lookup s.LeasesByIP l.IP with
        | none =>
          rw [hq] at h
          simp only [Option.some.injEq, Prod.mk.injEq] at h
          obtain ⟨rfl, _⟩ := h
          have hN : s.NoOwn mac := noOwn_of_stale hF hp hl (Or.inr (Or.inl hq))
          obtain ⟨hF1, hM1, _⟩ := deleteMac_inv hF hM hN
          exact ⟨hF1, hM1⟩
        | some q =>
          rw [hq] at h
          simp only at h
          cases hL : s.heap[q]? with
          | none => rw [hL] at h; cases h
          | some L =>
            rw [hL] at h
            simp only at h
            by_cases hsame : L.MAC = l.MAC
            · rw [if_pos hsame] at h
              simp only [Option.some.injEq, Prod.mk.injEq] at h
              obtain ⟨rfl, _⟩ := h
              have := deleteBoth_inv hF hM hq hL (hsame.trans hmac0)
              exact this
            · rw [if_neg hsame] at h
              simp only [Option.some.injEq, Prod.mk.injEq] at h
              obtain ⟨rfl, _⟩ := h
              have hN : s.NoOwn mac :=
                noOwn_of_stale hF hp hl
                  (Or.inr (Or.inr ⟨q, L, hq, hL, fun hh => hsame (hh.trans hmac0.symm)⟩))
              obtain ⟨hF1, hM1, _⟩ := deleteMac_inv hF hM hN
              exact ⟨hF1, hM1⟩
      · rw [if_neg hold] at h
        simp only [Option.some.injEq, Prod.mk.injEq] at h
        obtain ⟨rfl, _⟩ := h
        exact ⟨hF, hM⟩

theorem cleanupLoop_inv {o : Opts} {now : Int} {ks : List Nat} {s s' : Subnet}
    {em ei em' ei' : Nat} (hF : s.Forward) (hM : s.MacKeyed)
    (h : cleanupLoop o now s ks em ei = some (s', em', ei')) :
    s'.Forward ∧ s'.MacKeyed := by
  induction ks generalizing s em ei with
  | nil =>
    simp only [cleanupLoop, Option.some.injEq, Prod.mk.injEq] at h
    obtain ⟨rfl, _⟩ := h
    exact ⟨hF, hM⟩
  | cons k rest ih =>
    simp only [cleanupLoop] at h
    cases hs : cleanupStep o now s k with
    | none => rw [hs] at h; cases h
    | some res =>
      obtain ⟨s1, dm, di⟩ := res
      rw [hs] at h
      obtain ⟨hF1, hM1⟩ := cleanupStep_inv hF hM hs
      exact ih hF1 hM1 h

theorem Reachable_inv {o : Opts} {s : Subnet} (h : Reachable o s) :
    s.Forward ∧ s.MacKeyed := by
  induction h with
  | init s hip hmac =>
    constructor
    · intro ip p hl
      rw [hip] at hl
      cases hl
    · intro mac p hl
      rw [hmac] at hl
      cases hl
  | leaseFind fuel now rands Ctx Ctx' s' _ hstep ih => exact LeaseFind_inv ih.1 ih.2 hstep
  | leaseCheckAndUpdate now Ctx Ctx' s' ops _ hstep ih =>
    exact LeaseCheckAndUpdate_inv ih.1 ih.2 hstep
  | leaseCheckAndDelete Ctx s' ops _ hstep ih => exact LeaseCheckAndDelete_inv ih.1 ih.2 hstep
  | cleanupExpired now s' em ei _ hstep ih => exact cleanupLoop_inv ih.1 ih.2 hstep

/-! ## The concrete states are reachable -/

theorem exOne_step :
    LeaseFind exOpts 3 0 [] { MAC := 1 } exEmpty =
      some ({ MAC := 1, IP := 167772170, LeaseSource := LEASE_SRC_RANGE }, exOne) := by
  decide

theorem exTaken_step :
    LeaseFind exOpts 3 100 [] { MAC := 2, RequestStart := 100 } exOne =
      some ({ MAC := 2, RequestStart := 100, IP := 167772170,
              LeaseSource := LEASE_SRC_RANGE }, exTaken) := by
  decide

theorem exOne_reachable : Reachable exOpts exOne :=
  Reachable.leaseFind 3 0 [] _ _ _ (Reachable.init exEmpty rfl rfl) exOne_step

theorem exTaken_reachable : Reachable exOpts exTaken :=
  Reachable.leaseFind 3 100 [] _ _ _ exOne_reachable exTaken_step

/-! ## C1, C2: the bijection between the two indices -/

/-- C1. In every subnet state reachable from empty indices by `LeaseFind`,
`LeaseCheckAndUpdate`, `LeaseCheckAndDelete` and `CleanupExpired`, an entry
`by_ip[ip] = L` has `L.ip = ip`, and `by_mac[L.mac]` is that same lease. -/
theorem forward_bijection_reachable (o : Opts) (s : Subnet) (h : Reachable o s)
    (ip p : Nat) (hl : GoMap.lookup s.LeasesByIP ip = some p) :
    ∃ L, s.heap[p]? = some L ∧ L.IP = ip ∧ GoMap.lookup s.LeasesByMAC L.MAC = some p :=
  (Reachable_inv h).1 ip p hl

theorem forward_bijection_reachable_witness :
    Reachable exOpts exTaken ∧ GoMap.lookup exTaken.LeasesByIP 167772170 = some 1 ∧
      ∃ L, exTaken.heap[1]? = some L ∧ L.IP = 167772170 ∧
        GoMap.lookup exTaken.LeasesByMAC L.MAC = some 1 :=
  ⟨exTaken_reachable, by decide,
    forward_bijection_reachable exOpts exTaken exTaken_reachable 167772170 1 (by decide)⟩

/-- C2 fails as stated: after client `2` has taken the expired `10.0.0.10` over
from client `1`, the reachable state `exTaken` still has `by_mac[1]` pointing
to the old lease, whose IP is indexed to the lease of client `2`. -/
theorem symmetric_bijection_counterexample :
    Reachable exOpts exTaken ∧ ¬ exTaken.Backward := by
  refine ⟨exTaken_reachable, ?_⟩
  intro hB
  obtain ⟨L, hL, _, hip⟩ := hB 1 0 (by decide)
  have hL' : L = exLeaseA := by
    have : exTaken.heap[0]? = some exLeaseA := by decide
    rw [this] at hL
    exact (Option.some.inj hL).symm
  subst hL'
  revert hip
  decide

/-- C2, amended. In every reachable subnet state an entry `by_mac[mac] = L` has
`L.mac = mac`, and `by_ip[L.ip]` is that same lease unless it is absent or
holds a lease of another MAC (a back-reference left stale by a takeover). -/
theorem symmetric_bijection_amended (o : Opts) (s : Subnet) (h : Reachable o s)
    (mac p : Nat) (hl : GoMap.lookup s.LeasesByMAC mac = some p) :
    ∃ L, s.heap[p]? = some L ∧ L.MAC = mac ∧
      (GoMap.lookup s.LeasesByIP L.IP = some p ∨
        GoMap.lookup s.LeasesByIP L.IP = none ∨
        ∃ q L', GoMap.lookup s.LeasesByIP L.IP = some q ∧ s.heap[q]? = some L' ∧
          L'.MAC ≠ mac) := by
  obtain ⟨hF, hM⟩ := Reachable_inv h
  obtain ⟨L, hL, hmac⟩ := hM mac p hl
  refine ⟨L, hL, hmac, ?_⟩
  cases hq : GoMap.lookup s.LeasesByIP L.IP with
  | none => exact Or.inr (Or.inl rfl)
  | some q =>
    obtain ⟨L', hL', _, hback⟩ := hF L.IP q hq
    by_cases hm : L'.MAC = mac
    · rw [hm, hl] at hback
      cases hback
      exact Or.inl rfl
    · exact Or.inr (Or.inr ⟨q, L', rfl, hL', hm⟩)

theorem symmetric_bijection_amended_witness :
    Reachable exOpts exTaken ∧ GoMap.lookup exTaken.LeasesByMAC 1 = some 0 ∧
      ∃ L, exTaken.heap[0]? = some L ∧ L.MAC = 1 ∧
        (GoMap.lookup exTaken.LeasesByIP L.IP = some 0 ∨
          GoMap.lookup exTaken.LeasesByIP L.IP = none ∨
          ∃ q L', GoMap.lookup exTaken.LeasesByIP L.IP = some q ∧
            exTaken.heap[q]? = some L' ∧ L'.MAC ≠ 1) :=
  ⟨exTaken_reachable, by decide,
    symmetric_bijection_amended exOpts exTaken exTaken_reachable 1 0 (by decide)⟩

theorem exFull_step :
    LeaseFind exOpts 3 105 [] { MAC := 3, RequestStart := 105 } exTaken =
      some ({ MAC := 3, RequestStart := 105, IP := 167772171,
              LeaseSource := LEASE_SRC_RANGE }, exFull) := by
  decide

theorem exFull_reachable : Reachable exOpts exFull :=
  Reachable.leaseFind 3 105 [] _ _ _ exTaken_reachable exFull_step

/-! ## The probe and the two loops -/

theorem LeaseAdd_of_free {o : Opts} {now : Int} {Ctx : ReqCtx} {s : Subnet} {ip : Nat}
    (h : s.freeAt now ip = true) :
    LeaseAdd o now Ctx s ip = some (true, storeLease o now Ctx s ip) := by
  unfold Subnet.freeAt at h
  unfold LeaseAdd
  split at h
  · rename_i hl
    rw [hl]
  · rename_i p hl
    rw [hl]
    split at h
    · cases h
    · rename_i L hL
      simp only [hL, h, if_true]

theorem LeaseAdd_of_held {o : Opts} {now : Int} {Ctx : ReqCtx} {s : Subnet} {ip : Nat}
    (h : s.heldLive now ip = true) :
    LeaseAdd o now Ctx s ip = some (false, s) := by
  unfold Subnet.heldLive at h
  unfold LeaseAdd
  split at h
  · cases h
  · rename_i p hl
    rw [hl]
    split at h
    · cases h
    · rename_i L hL
      simp only [hL]
      have hE : L.Expired now = false := by
        cases hx : L.Expired now
        · rfl
        · rw [hx] at h; cases h
      simp [hE]

theorem heldLive_of_not_free {s : Subnet} {now : Int} {ip : Nat}
    (hV : ∀ ip p, GoMap.lookup s.LeasesByIP ip = some p → p < s.heap.length)
    (h : s.freeAt now ip = false) : s.heldLive now ip = true := by
  unfold Subnet.freeAt at h
  unfold Subnet.heldLive
  split at h
  · cases h
  · rename_i p hl
    split at h
    · rename_i hn
      have := hV ip p hl
      rw [List.getElem?_eq_none_iff] at hn
      omega
    · rename_i L hL
      simp [h]

theorem not_free_of_heldLive {s : Subnet} {now : Int} {ip : Nat}
    (h : s.heldLive now ip = true) : s.freeAt now ip = false := by
  unfold Subnet.heldLive at h
  unfold Subnet.freeAt
  split at h
  · cases h
  · split at h
    · cases h
    · simpa using h

theorem free_or_held (now : Int) {s : Subnet} (ip : Nat)
    (hV : ∀ ip p, GoMap.lookup s.LeasesByIP ip = some p → p < s.heap.length) :
    s.freeAt now ip = true ∨ s.heldLive now ip = true := by
  cases hf : s.freeAt now ip
  · exact Or.inr (heldLive_of_not_free hV hf)
  · exact Or.inl rfl

theorem randomTries_all_held {o : Opts} {now : Int} {Ctx : ReqCtx} {s : Subnet}
    {rands : List Nat} (h : ∀ ip ∈ rands, s.heldLive now ip = true) :
    randomTries o now Ctx s rands = some (none, s) := by
  induction rands with
  | nil => rfl
  | cons ip rest ih =>
    simp only [randomTries]
    rw [LeaseAdd_of_held (h ip (List.mem_cons_self _ _))]
    exact ih (fun j hj => h j (List.mem_cons_of_mem _ hj))

theorem randomTries_returns (o : Opts) (now : Int) (Ctx : ReqCtx) {s : Subnet}
    (rands : List Nat)
    (hV : ∀ ip p, GoMap.lookup s.LeasesByIP ip = some p → p < s.heap.length) :
    ∃ r, randomTries o now Ctx s rands = some r := by
  induction rands with
  | nil => exact ⟨_, rfl⟩
  | cons ip rest ih =>
    simp only [randomTries]
    rcases free_or_held now ip hV with hf | hh
    · rw [LeaseAdd_of_free hf]
      exact ⟨_, rfl⟩
    · rw [LeaseAdd_of_held hh]
      exact ih

/-- The linear scan stops at the first address of the range that is free. -/
theorem rangeScan_first_free {o : Opts} {now : Int} {Ctx : ReqCtx} {s : Subnet} {ip0 : Nat}
    (h32 : ip0 < 2 ^ 32) (hhi : ip0 ≤ s.RangeEnd) (hfree : s.freeAt now ip0 = true) :
    ∀ (fuel ip : Nat), ip ≤ ip0 → (∀ j, ip ≤ j → j < ip0 → s.heldLive now j = true) →
      ip0 - ip < fuel →
      rangeScan o now Ctx fuel s ip = some (some ip0, storeLease o now Ctx s ip0) := by
  intro fuel
  induction fuel with
  | zero => intro ip _ _ hf; omega
  | succ n ih =>
    intro ip hle hheld hf
    simp only [rangeScan]
    rw [if_pos (le_trans hle hhi)]
    by_cases heq : ip = ip0
    · subst heq
      rw [LeaseAdd_of_free hfree]
    · have hlt : ip < ip0 := lt_of_le_of_ne hle heq
      rw [LeaseAdd_of_held (hheld ip le_rfl hlt)]
      simp only
      have hmod : (ip + 1) % 2 ^ 32 = ip + 1 := Nat.mod_eq_of_lt (by omega)
      rw [hmod]
      exact ih (ip + 1) hlt (fun j hj1 hj2 => hheld j (by omega) hj2) (by omega)

/-- The linear scan over a range whose addresses are all held by live leases
ends without a result, provided the range does not end at the largest `uint32`. -/
theorem rangeScan_all_held {o : Opts} {now : Int} {Ctx : ReqCtx} {s : Subnet}
    (h32 : s.RangeEnd + 1 < 2 ^ 32) :
    ∀ (fuel ip : Nat), (∀ j, ip ≤ j → j ≤ s.RangeEnd → s.heldLive now j = true) →
      s.RangeEnd + 1 - ip < fuel →
      rangeScan o now Ctx fuel s ip = some (none, s) := by
  intro fuel
  induction fuel with
  | zero => intro ip _ hf; omega
  | succ n ih =>
    intro ip hheld hf
    simp only [rangeScan]
    by_cases hle : ip ≤ s.RangeEnd
    · rw [if_pos hle, LeaseAdd_of_held (hheld ip le_rfl hle)]
      simp only
      have hmod : (ip + 1) % 2 ^ 32 = ip + 1 := Nat.mod_eq_of_lt (by omega)
      rw [hmod]
      exact ih (ip + 1) (fun j hj1 hj2 => hheld j (by omega) hj2) (by omega)
    · rw [if_neg hle]

theorem rangeScan_returns (o : Opts) (now : Int) (Ctx : ReqCtx) {s : Subnet}
    (hV : ∀ ip p, GoMap.lookup s.LeasesByIP ip = some p → p < s.heap.length)
    (h32 : s.RangeEnd + 1 < 2 ^ 32) :
    ∀ (fuel ip : Nat), s.RangeEnd + 1 - ip < fuel →
      ∃ r, rangeScan o now Ctx fuel s ip = some r := by
  intro fuel
  induction fuel with
  | zero => intro ip hf; omega
  | succ n ih =>
    intro ip hf
    simp only [rangeScan]
    by_cases hle : ip ≤ s.RangeEnd
    · rw [if_pos hle]
      rcases free_or_held now ip hV with hfr | hh
      · rw [LeaseAdd_of_free hfr]
        exact ⟨_, rfl⟩
      · rw [LeaseAdd_of_held hh]
        simp only
        have hmod : (ip + 1) % 2 ^ 32 = ip + 1 := Nat.mod_eq_of_lt (by omega)
        rw [hmod]
        exact ih (ip + 1) (by omega)
    · rw [if_neg hle]
      exact ⟨_, rfl⟩

theorem leaseSearch_returns (o : Opts) {fuel : Nat} (now : Int) (rands : List Nat)
    (Ctx : ReqCtx) {s : Subnet}
    (hV : ∀ ip p, GoMap.lookup s.LeasesByIP ip = some p → p < s.heap.length)
    (h32 : s.RangeEnd + 1 < 2 ^ 32) (hfuel : s.RangeEnd + 1 - s.RangeStart < fuel) :
    ∃ r, leaseSearch o fuel now rands Ctx s = some r := by
  unfold leaseSearch
  obtain ⟨r, hr⟩ := randomTries_returns o now Ctx rands hV
  obtain ⟨r1, s1⟩ := r
  rw [hr]
  rcases randomTries_cases hr with ⟨rfl, rfl⟩ | ⟨ip, rfl, rfl⟩
  · simp only
    obtain ⟨r2, hr2⟩ := rangeScan_returns o now Ctx hV h32 fuel
      s1.RangeStart hfuel
    rw [hr2]
    obtain ⟨r3, s3⟩ := r2
    cases r3 <;> exact ⟨_, rfl⟩
  · exact ⟨_, rfl⟩

theorem leaseSearch_all_held {o : Opts} {fuel : Nat} {now : Int} {rands : List Nat}
    {Ctx : ReqCtx} {s : Subnet}
    (h32 : s.RangeEnd + 1 < 2 ^ 32) (hfuel : s.RangeEnd + 1 - s.RangeStart < fuel)
    (hr : ∀ ip ∈ rands, s.heldLive now ip = true)
    (hs : ∀ ip, s.RangeStart ≤ ip → ip ≤ s.RangeEnd → s.heldLive now ip = true) :
    leaseSearch o fuel now rands Ctx s = some (Ctx, s) := by
  unfold leaseSearch
  rw [randomTries_all_held hr]
  simp only
  rw [rangeScan_all_held h32 fuel s.RangeStart hs hfuel]

theorem LeaseFind_returns (o : Opts) {fuel : Nat} (now : Int) (rands : List Nat)
    (Ctx : ReqCtx) {s : Subnet} (hV : s.Valid)
    (h32 : s.RangeEnd + 1 < 2 ^ 32) (hfuel : s.RangeEnd + 1 - s.RangeStart < fuel) :
    ∃ r, LeaseFind o fuel now rands Ctx s = some r := by
  unfold LeaseFind
  cases hp : GoMap.lookup s.LeasesByMAC Ctx.MAC with
  | none => exact leaseSearch_returns o now rands Ctx hV.1 h32 hfuel
  | some p =>
    simp only
    have hlt : p < s.heap.length := hV.2 _ _ hp
    obtain ⟨l, hl⟩ : ∃ l, s.heap[p]? = some l := ⟨s.heap[p], List.getElem?_eq_getElem hlt⟩
    rw [hl]
    simp only
    split
    · exact @leaseSearch_returns o fuel now rands Ctx { s with LeasesByMAC := _ } hV.1 h32 hfuel
    · split
      · exact @leaseSearch_returns o fuel now rands Ctx { s with LeasesByMAC := _ } hV.1 h32 hfuel
      · rename_i q hq
        have hqlt : q < s.heap.length := hV.1 _ _ hq
        obtain ⟨L, hL⟩ : ∃ L, s.heap[q]? = some L := ⟨s.heap[q], List.getElem?_eq_getElem hqlt⟩
        rw [hL]
        simp only
        split
        · exact leaseSearch_returns o now rands Ctx hV.1 h32 hfuel
        · exact ⟨_, rfl⟩

theorem storeLease_lookup_ip (o : Opts) (now : Int) (Ctx : ReqCtx) (s : Subnet) (ip : Nat) :
    GoMap.lookup (storeLease o now Ctx s ip).LeasesByIP ip = some s.heap.length :=
  GoMap.lookup_insert_self _ _ _

theorem storeLease_lookup_mac (o : Opts) (now : Int) (Ctx : ReqCtx) (s : Subnet) (ip : Nat) :
    GoMap.lookup (storeLease o now Ctx s ip).LeasesByMAC Ctx.MAC = some s.heap.length :=
  GoMap.lookup_insert_self _ _ _

theorem storeLease_heap_new (o : Opts) (now : Int) (Ctx : ReqCtx) (s : Subnet) (ip : Nat) :
    (storeLease o now Ctx s ip).heap[s.heap.length]? =
      some { IP := ip, MAC := Ctx.MAC, Expires := Ctx.RequestStart + o.DHCPGraceTTL,
             Discover := true, DiscoverTime := now } :=
  heap_append_new _ _

theorem GoMap.mem_of_lookup {V : Type} (m : List (Nat × V)) {k : Nat} {v : V}
    (h : GoMap.lookup m k = some v) : (k, v) ∈ m := by
  induction m with
  | nil => cases h
  | cons e t ih =>
    obtain ⟨a, w⟩ := e
    simp only [GoMap.lookup] at h
    by_cases hak : a = k
    · rw [if_pos hak] at h
      cases h
      subst hak
      exact List.mem_cons_self _ _
    · rw [if_neg hak] at h
      exact List.mem_cons_of_mem _ (ih h)

theorem valid_of_entries {s : Subnet}
    (h1 : ∀ e ∈ s.LeasesByIP, e.2 < s.heap.length)
    (h2 : ∀ e ∈ s.LeasesByMAC, e.2 < s.heap.length) : s.Valid :=
  ⟨fun _ _ h => h1 _ (GoMap.mem_of_lookup _ h), fun _ _ h => h2 _ (GoMap.mem_of_lookup _ h)⟩

theorem exOne_valid : exOne.Valid :=
  valid_of_entries (by decide) (by decide)

theorem exFull_valid : exFull.Valid :=
  valid_of_entries (by decide) (by decide)

/-! ## C6: allocation by the linear scan -/

/-- C6. With `random_tries = 0`, when the client MAC has no by-MAC entry and
`ip0` is the smallest address of the range that is absent from the by-IP index
or held by an expired lease, `LeaseFind` returns with `context.ip = ip0` and
`lease_source = RANGE`, and both `by_ip[ip0]` and `by_mac[client mac]` point to
one newly allocated lease `{ip0, client mac, request_start + grace_TTL,
discover_phase = true}`. -/
theorem LeaseFind_linear_scan (o : Opts) (fuel : Nat) (now : Int) (Ctx : ReqCtx)
    (s : Subnet) (ip0 : Nat) (hV : s.Valid) (h32 : s.RangeEnd < 2 ^ 32)
    (hmac : GoMap.lookup s.LeasesByMAC Ctx.MAC = none)
    (hlo : s.RangeStart ≤ ip0) (hhi : ip0 ≤ s.RangeEnd)
    (hfree : s.freeAt now ip0 = true)
    (hmin : ∀ ip, s.RangeStart ≤ ip → ip < ip0 → s.freeAt now ip = false)
    (hfuel : ip0 - s.RangeStart < fuel) :
    ∃ Ctx' s', LeaseFind o fuel now [] Ctx s = some (Ctx', s') ∧
      Ctx'.IP = ip0 ∧ Ctx'.LeaseSource = LEASE_SRC_RANGE ∧
      GoMap.lookup s'.LeasesByIP ip0 = some s.heap.length ∧
      GoMap.lookup s'.LeasesByMAC Ctx.MAC = some s.heap.length ∧
      s'.heap[s.heap.length]? =
        some { IP := ip0, MAC := Ctx.MAC, Expires := Ctx.RequestStart + o.DHCPGraceTTL,
               Discover := true, DiscoverTime := now } := by
  refine ⟨{ Ctx.SetRequestedIP ip0 with LeaseSource := LEASE_SRC_RANGE },
    storeLease o now Ctx s ip0, ?_, rfl, rfl, storeLease_lookup_ip _ _ _ _ _,
    storeLease_lookup_mac _ _ _ _ _, storeLease_heap_new _ _ _ _ _⟩
  unfold LeaseFind
  rw [hmac]
  simp only [leaseSearch, randomTries]
  rw [rangeScan_first_free (lt_of_le_of_lt hhi h32) hhi hfree fuel s.RangeStart hlo
    (fun j hj1 hj2 => heldLive_of_not_free hV.1 (hmin j hj1 hj2)) hfuel]

theorem LeaseFind_linear_scan_witness :
    exOne.Valid ∧ exOne.RangeEnd < 2 ^ 32 ∧
      GoMap.lookup exOne.LeasesByMAC 2 = none ∧
      exOne.freeAt 100 167772170 = true ∧
      ∃ Ctx' s', LeaseFind exOpts 3 100 [] { MAC := 2, RequestStart := 100 } exOne =
          some (Ctx', s') ∧
        Ctx'.IP = 167772170 ∧ Ctx'.LeaseSource = LEASE_SRC_RANGE ∧
        GoMap.lookup s'.LeasesByIP 167772170 = some 1 ∧
        GoMap.lookup s'.LeasesByMAC 2 = some 1 ∧
        s'.heap[1]? = some exLeaseB :=
  ⟨exOne_valid, by decide, by decide, by decide,
    LeaseFind_linear_scan exOpts 3 100 { MAC := 2, RequestStart := 100 } exOne 167772170
      exOne_valid (by decide) (by decide) (by decide) (by decide) (by decide)
      (fun ip h1 h2 => absurd h2 (not_lt.mpr h1)) (by decide)⟩

/-! ## C7: adoption of the existing lease -/

/-- C7. In a subnet state that satisfies the forward bijection invariant of C1,
if `by_mac[client mac] = L` with `L.mac` the client's and `by_ip[L.ip]` exists
with the client's MAC, `LeaseFind` returns with `context.ip = L.ip` and
`lease_source = EXISTING`, that lease now has `expires = request_start +
grace_TTL` and `discover_phase = true` (ip and mac as before), and both indices
are unchanged.  Nothing is assumed about the lease being expired or not. -/
theorem LeaseFind_existing (o : Opts) (fuel : Nat) (now : Int) (rands : List Nat)
    (Ctx : ReqCtx) (s : Subnet) (p q : Nat) (L L' : Lease) (hF : s.Forward)
    (hp : GoMap.lookup s.LeasesByMAC Ctx.MAC = some p) (hL : s.heap[p]? = some L)
    (hmac : L.MAC = Ctx.MAC)
    (hq : GoMap.lookup s.LeasesByIP L.IP = some q) (hL' : s.heap[q]? = some L')
    (hmac' : L'.MAC = Ctx.MAC) :
    ∃ Ctx' s', LeaseFind o fuel now rands Ctx s = some (Ctx', s') ∧
      Ctx'.IP = L.IP ∧ Ctx'.LeaseSource = LEASE_SRC_EXISTING ∧
      s'.heap[p]? =
        some { IP := L.IP, MAC := L.MAC, Expires := Ctx.RequestStart + o.DHCPGraceTTL,
               Discover := true, DiscoverTime := now } ∧
      s'.LeasesByIP = s.LeasesByIP ∧ s'.LeasesByMAC = s.LeasesByMAC := by
  obtain ⟨L2, hL2, _, hback⟩ := hF L.IP q hq
  rw [hL'] at hL2
  cases hL2
  rw [hmac', hp] at hback
  cases hback
  rw [hL] at hL'
  cases hL'
  refine ⟨{ Ctx.SetRequestedIP L.IP with LeaseSource := LEASE_SRC_EXISTING },
    { s with
      heap := s.heap.set p
        (Lease.DiscoverSet now { L with Expires := Ctx.RequestStart + o.DHCPGraceTTL }) },
    ?_, rfl, rfl, heap_set_self _ hL, rfl, rfl⟩
  unfold LeaseFind
  rw [hp]
  simp only
  rw [hL]
  simp only [hmac, ne_eq, not_true_eq_false, if_false]
  rw [hq]
  simp only
  rw [hL]
  simp only [hmac, ne_eq, not_true_eq_false, if_false]

theorem LeaseFind_existing_witness :
    exOne.Forward ∧ GoMap.lookup exOne.LeasesByMAC 1 = some 0 ∧
      exOne.heap[0]? = some exLeaseA ∧ exLeaseA.Expired 200 = true ∧
      ∃ Ctx' s', LeaseFind exOpts 0 200 [] { MAC := 1, RequestStart := 200 } exOne =
          some (Ctx', s') ∧
        Ctx'.IP = 167772170 ∧ Ctx'.LeaseSource = LEASE_SRC_EXISTING ∧
        s'.heap[0]? =
          some { IP := 167772170, MAC := 1, Expires := 200 + 60,
                 Discover := true, DiscoverTime := 200 } ∧
        s'.LeasesByIP = exOne.LeasesByIP ∧ s'.LeasesByMAC = exOne.LeasesByMAC :=
  ⟨(Reachable_inv exOne_reachable).1, by decide, by decide, by decide,
    LeaseFind_existing exOpts 0 200 [] { MAC := 1, RequestStart := 200 } exOne 0 0
      exLeaseA exLeaseA (Reachable_inv exOne_reachable).1 (by decide) (by decide)
      (by decide) (by decide) (by decide) (by decide)⟩

/-! ## C8: repair of a stale by-MAC entry -/

theorem leaseSearch_mac {o : Opts} {fuel : Nat} {now : Int} {rands : List Nat}
    {Ctx Ctx' : ReqCtx} {t t' : Subnet}
    (h : leaseSearch o fuel now rands Ctx t = some (Ctx', t')) :
    GoMap.lookup t'.LeasesByMAC Ctx.MAC = GoMap.lookup t.LeasesByMAC Ctx.MAC ∨
      GoMap.lookup t'.LeasesByMAC Ctx.MAC = some t.heap.length := by
  rcases leaseSearch_cases h with ⟨_, rfl⟩ | ⟨ip, _, rfl, _⟩
  · exact Or.inl rfl
  · exact Or.inr (storeLease_lookup_mac _ _ _ _ _)

/-- C8 fails as stated: in the reachable state `exFull` the by-MAC entry of
client `1` is stale (its IP is indexed to the lease of client `2`) and no
address is free; `LeaseFind` for client `1` returns with `context.ip = 0` and
the stale lease is still the value of `by_mac[1]`. -/
theorem stale_repair_counterexample :
    Reachable exOpts exFull ∧
      GoMap.lookup exFull.LeasesByMAC 1 = some 0 ∧ exFull.heap[0]? = some exLeaseA ∧
      GoMap.lookup exFull.LeasesByIP exLeaseA.IP = some 1 ∧
      exFull.heap[1]? = some exLeaseB ∧ exLeaseB.MAC ≠ 1 ∧
      LeaseFind exOpts 3 110 [] { MAC := 1, RequestStart := 110 } exFull =
        some ({ MAC := 1, RequestStart := 110, IP := 0 }, exFull) :=
  ⟨exFull_reachable, by decide, by decide, by decide, by decide, by decide, by decide⟩

/-- C8, amended. When `by_mac[client mac]` holds a lease `l` that fails the
self-consistency check, then after `LeaseFind` returns: if `l` belongs to
another MAC or `by_ip` has no entry for `l.ip`, the stale pointer is no longer
the value of `by_mac[client mac]` (also when no address was free); if the by-IP
entry of `l.ip` belongs to another MAC, the stale pointer is replaced by the
newly allocated lease when an address is allocated, and it stays the value of
`by_mac[client mac]` when none is, which is what happens when every probed
address is held by a live lease.  The call does return when the range ends
below the largest `uint32` and the scan has enough steps. -/
theorem LeaseFind_stale_repair (o : Opts) (fuel : Nat) (now : Int) (rands : List Nat)
    (Ctx : ReqCtx) (s : Subnet) (p : Nat) (l : Lease)
    (hp : GoMap.lookup s.LeasesByMAC Ctx.MAC = some p) (hl : s.heap[p]? = some l) :
    (s.Valid → s.RangeEnd + 1 < 2 ^ 32 → s.RangeEnd + 1 - s.RangeStart < fuel →
      ∃ r, LeaseFind o fuel now rands Ctx s = some r) ∧
    ∀ Ctx' s', LeaseFind o fuel now rands Ctx s = some (Ctx', s') →
      ((l.MAC ≠ Ctx.MAC ∨ GoMap.lookup s.LeasesByIP l.IP = none) →
        GoMap.lookup s'.LeasesByMAC Ctx.MAC ≠ some p) ∧
      (∀ q L, l.MAC = Ctx.MAC → GoMap.lookup s.LeasesByIP l.IP = some q →
        s.heap[q]? = some L → L.MAC ≠ Ctx.MAC →
        ((Ctx' = Ctx ∧ s' = s ∧ GoMap.lookup s'.LeasesByMAC Ctx.MAC = some p) ∨
          (∃ ip, Ctx'.IP = ip ∧ s' = storeLease o now Ctx s ip ∧
            GoMap.lookup s'.LeasesByMAC Ctx.MAC = some s.heap.length ∧
            s.heap.length ≠ p)) ∧
        ((∀ ip ∈ rands, s.heldLive now ip = true) →
          (∀ ip, s.RangeStart ≤ ip → ip ≤ s.RangeEnd → s.heldLive now ip = true) →
          s.RangeEnd + 1 < 2 ^ 32 → s.RangeEnd + 1 - s.RangeStart < fuel →
          Ctx' = Ctx ∧ s' = s ∧ GoMap.lookup s'.LeasesByMAC Ctx.MAC = some p)) := by
  refine ⟨fun hV h32 hfuel => LeaseFind_returns o now rands Ctx hV h32 hfuel, ?_⟩
  intro Ctx' s' hr
  have hlt : p < s.heap.length := heap_lt hl
  refine ⟨?_, ?_⟩
  · -- the two branches that delete the entry
    have key : ∀ (t : Subnet), t.heap = s.heap →
        t.LeasesByMAC = GoMap.delete s.LeasesByMAC Ctx.MAC →
        leaseSearch o fuel now rands Ctx t = some (Ctx', s') →
        GoMap.lookup s'.LeasesByMAC Ctx.MAC ≠ some p := by
      intro t ht1 ht2 hs
      rcases leaseSearch_mac hs with h | h
      · rw [h, ht2, GoMap.lookup_delete_self]
        exact fun hh => Option.noConfusion hh
      · rw [h, ht1]
        intro hh
        have := Option.some.inj hh
        omega
    intro hstale
    unfold LeaseFind at hr
    rw [hp] at hr
    simp only at hr
    rw [hl] at hr
    simp only at hr
    by_cases h1 : l.MAC ≠ Ctx.MAC
    · rw [if_pos h1] at hr
      exact key { s with LeasesByMAC := GoMap.delete s.LeasesByMAC Ctx.MAC } rfl rfl hr
    · rw [if_neg h1] at hr
      rcases hstale with h2 | h2
      · exact absurd h2 h1
      · rw [h2] at hr
        exact key { s with LeasesByMAC := GoMap.delete s.LeasesByMAC Ctx.MAC } rfl rfl hr
  · intro q L hm hq hL hne
    unfold LeaseFind at hr
    rw [hp] at hr
    simp only at hr
    rw [hl] at hr
    simp only at hr
    rw [if_neg (not_not.mpr hm), hq] at hr
    simp only at hr
    rw [hL] at hr
    simp only at hr
    rw [if_pos hne] at hr
    constructor
    · rcases leaseSearch_cases hr with ⟨rfl, rfl⟩ | ⟨ip, hip, rfl, _⟩
      · exact Or.inl ⟨rfl, rfl, hp⟩
      · exact Or.inr ⟨ip, hip, rfl, storeLease_lookup_mac _ _ _ _ _, by omega⟩
    · intro hr1 hr2 h32 hfuel
      rw [leaseSearch_all_held h32 hfuel hr1 hr2] at hr
      simp only [Option.some.injEq, Prod.mk.injEq] at hr
      obtain ⟨rfl, rfl⟩ := hr
      exact ⟨rfl, rfl, hp⟩

theorem LeaseFind_stale_repair_witness :
    GoMap.lookup exFull.LeasesByMAC 1 = some 0 ∧ exFull.heap[0]? = some exLeaseA ∧
      LeaseFind exOpts 3 110 [] { MAC := 1, RequestStart := 110 } exFull =
        some ({ MAC := 1, RequestStart := 110 }, exFull) ∧
      exLeaseA.MAC = 1 ∧ GoMap.lookup exFull.LeasesByIP exLeaseA.IP = some 1 ∧
      exFull.heap[1]? = some exLeaseB ∧ exLeaseB.MAC ≠ 1 ∧
      ((({ MAC := 1, RequestStart := 110 } : ReqCtx) = { MAC := 1, RequestStart := 110 } ∧
          exFull = exFull ∧ GoMap.lookup exFull.LeasesByMAC 1 = some 0) ∨
        (∃ ip, ({ MAC := 1, RequestStart := 110 } : ReqCtx).IP = ip ∧
          exFull = storeLease exOpts 110 { MAC := 1, RequestStart := 110 } exFull ip ∧
          GoMap.lookup exFull.LeasesByMAC 1 = some exFull.heap.length ∧
          exFull.heap.length ≠ 0)) :=
  ⟨by decide, by decide, by decide, by decide, by decide, by decide, by decide,
    ((((LeaseFind_stale_repair exOpts 3 110 [] { MAC := 1, RequestStart := 110 } exFull 0
      exLeaseA (by decide) (by decide)).2 { MAC := 1, RequestStart := 110 } exFull
      (by decide)).2 1 exLeaseB (by decide) (by decide) (by decide) (by decide)).1)⟩

/-! ## What a returned probe or loop has done -/

theorem LeaseAdd_spec {o : Opts} {now : Int} {Ctx : ReqCtx} {s s' : Subnet} {ip : Nat}
    {b : Bool} (h : LeaseAdd o now Ctx s ip = some (b, s')) :
    (b = true ∧ s.freeAt now ip = true ∧ s' = storeLease o now Ctx s ip) ∨
      (b = false ∧ s.heldLive now ip = true ∧ s' = s) := by
  unfold LeaseAdd at h
  unfold Subnet.freeAt Subnet.heldLive
  cases hl : GoMap.lookup s.LeasesByIP ip with
  | none =>
    rw [hl] at h
    simp only [Option.some.injEq, Prod.mk.injEq] at h
    obtain ⟨rfl, rfl⟩ := h
    exact Or.inl ⟨rfl, rfl, rfl⟩
  | some p =>
    rw [hl] at h
    simp only at h ⊢
    cases hL : s.heap[p]? with
    | none => rw [hL] at h; cases h
    | some L =>
      rw [hL] at h
      simp only at h ⊢
      by_cases hE : L.Expired now = true
      · rw [if_pos hE] at h
        simp only [Option.some.injEq, Prod.mk.injEq] at h
        obtain ⟨rfl, rfl⟩ := h
        exact Or.inl ⟨rfl, hE, rfl⟩
      · rw [if_neg hE] at h
        simp only [Option.some.injEq, Prod.mk.injEq] at h
        obtain ⟨rfl, rfl⟩ := h
        refine Or.inr ⟨rfl, ?_, rfl⟩
        simpa using hE

theorem randomTries_spec {o : Opts} {now : Int} {Ctx : ReqCtx} {rands : List Nat}
    {s s' : Subnet} {r : Option Nat} (h : randomTries o now Ctx s rands = some (r, s')) :
    (r = none ∧ s' = s ∧ ∀ ip ∈ rands, s.heldLive now ip = true) ∨
      (∃ ip ∈ rands, r = some ip ∧ s.freeAt now ip = true ∧
        s' = storeLease o now Ctx s ip) := by
  induction rands with
  | nil =>
    simp only [randomTries, Option.some.injEq, Prod.mk.injEq] at h
    exact Or.inl ⟨h.1.symm, h.2.symm, fun _ hm => absurd hm (List.not_mem_nil _)⟩
  | cons ip rest ih =>
    simp only [randomTries] at h
    cases hadd : LeaseAdd o now Ctx s ip with
    | none => rw [hadd] at h; cases h
    | some res =>
      obtain ⟨b, s1⟩ := res
      rw [hadd] at h
      rcases LeaseAdd_spec hadd with ⟨rfl, hf, rfl⟩ | ⟨rfl, hh, rfl⟩
      · simp only [Option.some.injEq, Prod.mk.injEq] at h
        exact Or.inr ⟨ip, List.mem_cons_self _ _, h.1.symm, hf, h.2.symm⟩
      · rcases ih h with ⟨h1, h2, h3⟩ | ⟨j, hj, h1, h2, h3⟩
        · refine Or.inl ⟨h1, h2, ?_⟩
          intro j hj
          rcases List.mem_cons.mp hj with rfl | hj'
          · exact hh
          · exact h3 j hj'
        · exact Or.inr ⟨j, List.mem_cons_of_mem _ hj, h1, h2, h3⟩

/-- For a range that ends below the largest `uint32`, a linear scan that
returns has either found every address from `ip` on held, or stored a lease at
the first free address. -/
theorem rangeScan_spec {o : Opts} {now : Int} {Ctx : ReqCtx} {s : Subnet}
    (h32 : s.RangeEnd + 1 < 2 ^ 32) :
    ∀ (fuel ip : Nat) (r : Option Nat) (s' : Subnet),
      rangeScan o now Ctx fuel s ip = some (r, s') →
      (r = none ∧ s' = s ∧ ∀ j, ip ≤ j → j ≤ s.RangeEnd → s.heldLive now j = true) ∨
        (∃ ip0, r = some ip0 ∧ ip ≤ ip0 ∧ ip0 ≤ s.RangeEnd ∧ s.freeAt now ip0 = true ∧
          (∀ j, ip ≤ j → j < ip0 → s.heldLive now j = true) ∧
          s' = storeLease o now Ctx s ip0) := by
  intro fuel
  induction fuel with
  | zero =>
    intro ip r s' h
    simp [rangeScan] at h
  | succ n ih =>
    intro ip r s' h
    simp only [rangeScan] at h
    by_cases hle : ip ≤ s.RangeEnd
    · rw [if_pos hle] at h
      cases hadd : LeaseAdd o now Ctx s ip with
      | none => rw [hadd] at h; cases h
      | some res =>
        obtain ⟨b, s1⟩ := res
        rw [hadd] at h
        rcases LeaseAdd_spec hadd with ⟨rfl, hf, rfl⟩ | ⟨rfl, hh, rfl⟩
        · simp only [Option.some.injEq, Prod.mk.injEq] at h
          exact Or.inr ⟨ip, h.1.symm, le_rfl, hle, hf,
            fun j h1 h2 => absurd h2 (not_lt.mpr h1), h.2.symm⟩
        · simp only at h
          have hmod : (ip + 1) % 2 ^ 32 = ip + 1 := Nat.mod_eq_of_lt (by omega)
          rw [hmod] at h
          rcases ih (ip + 1) r s' h with ⟨h1, h2, h3⟩ | ⟨ip0, h1, h2, h3, h4, h5, h6⟩
          · refine Or.inl ⟨h1, h2, ?_⟩
            intro j hj1 hj2
            by_cases hj : j = ip
            · rw [hj]; exact hh
            · exact h3 j (by omega) hj2
          · refine Or.inr ⟨ip0, h1, by omega, h3, h4, ?_, h6⟩
            intro j hj1 hj2
            by_cases hj : j = ip
            · rw [hj]; exact hh
            · exact h5 j (by omega) hj2
    · rw [if_neg hle] at h
      simp only [Option.some.injEq, Prod.mk.injEq] at h
      exact Or.inl ⟨h.1.symm, h.2.symm, fun j h1 h2 => absurd (le_trans h1 h2) hle⟩

/-- A search that returns has either changed nothing, every probed address
being held by a live lease, or stored a lease at a free address that is one of
the random probes or lies in the range. -/
theorem leaseSearch_spec {o : Opts} {fuel : Nat} {now : Int} {rands : List Nat}
    {Ctx Ctx' : ReqCtx} {s s' : Subnet} (h32 : s.RangeEnd + 1 < 2 ^ 32)
    (h : leaseSearch o fuel now rands Ctx s = some (Ctx', s')) :
    (Ctx' = Ctx ∧ s' = s ∧ (∀ ip ∈ rands, s.heldLive now ip = true) ∧
        ∀ j, s.RangeStart ≤ j → j ≤ s.RangeEnd → s.heldLive now j = true) ∨
      (∃ ip, (ip ∈ rands ∨ (s.RangeStart ≤ ip ∧ ip ≤ s.RangeEnd)) ∧
        s.freeAt now ip = true ∧ Ctx'.IP = ip ∧ s' = storeLease o now Ctx s ip) := by
  unfold leaseSearch at h
  cases hr : randomTries o now Ctx s rands with
  | none => rw [hr] at h; cases h
  | some res =>
    obtain ⟨r, s1⟩ := res
    rw [hr] at h
    rcases randomTries_spec hr with ⟨rfl, rfl, hheld⟩ | ⟨ip, hip, rfl, hf, rfl⟩
    · simp only at h
      cases hs : rangeScan o now Ctx fuel s1 s1.RangeStart with
      | none => rw [hs] at h; cases h
      | some res2 =>
        obtain ⟨r2, s2⟩ := res2
        rw [hs] at h
        rcases rangeScan_spec h32 fuel s1.RangeStart r2 s2 hs with
          ⟨rfl, rfl, hall⟩ | ⟨ip0, rfl, h2, h3, h4, _, rfl⟩
        · simp only [Option.some.injEq, Prod.mk.injEq] at h
          exact Or.inl ⟨h.1.symm, h.2.symm, hheld, hall⟩
        · simp only [Option.some.injEq, Prod.mk.injEq] at h
          obtain ⟨rfl, rfl⟩ := h
          exact Or.inr ⟨ip0, Or.inr ⟨h2, h3⟩, h4, rfl, rfl⟩
    · simp only [Option.some.injEq, Prod.mk.injEq] at h
      obtain ⟨rfl, rfl⟩ := h
      exact Or.inr ⟨ip, Or.inl hip, hf, rfl, rfl⟩

/-! ## C9: the "no free lease" signal -/

theorem LeaseFind_of_selfConsistent {o : Opts} {fuel : Nat} {now : Int} {rands : List Nat}
    {Ctx Ctx' : ReqCtx} {s s' : Subnet} (hc : s.selfConsistent Ctx.MAC = true)
    (h : LeaseFind o fuel now rands Ctx s = some (Ctx', s')) :
    ∃ ip q L, GoMap.lookup s.LeasesByIP ip = some q ∧ s.heap[q]? = some L ∧
      Ctx'.IP = L.IP ∧ Ctx'.LeaseSource = LEASE_SRC_EXISTING := by
  unfold Subnet.selfConsistent at hc
  unfold LeaseFind at h
  cases hp : GoMap.lookup s.LeasesByMAC Ctx.MAC with
  | none => rw [hp] at hc; cases hc
  | some p =>
    rw [hp] at hc h
    simp only at hc h
    cases hl : s.heap[p]? with
    | none => rw [hl] at hc; cases hc
    | some l =>
      rw [hl] at hc h
      simp only at hc h
      by_cases hm : l.MAC ≠ Ctx.MAC
      · rw [if_pos hm] at hc; cases hc
      · rw [if_neg hm] at hc h
        cases hq : GoMap.lookup s.LeasesByIP l.IP with
        | none => rw [hq] at hc; cases hc
        | some q =>
          rw [hq] at hc h
          simp only at hc h
          cases hL : s.heap[q]? with
          | none => rw [hL] at hc; cases hc
          | some L =>
            rw [hL] at hc h
            simp only at hc h
            have hm2 : L.MAC = Ctx.MAC := of_decide_eq_true hc
            rw [if_neg (not_not.mpr hm2)] at h
            simp only [Option.some.injEq, Prod.mk.injEq] at h
            obtain ⟨rfl, _⟩ := h
            exact ⟨l.IP, q, L, hq, hL, rfl, rfl⟩

theorem LeaseFind_of_not_selfConsistent {o : Opts} {fuel : Nat} {now : Int}
    {rands : List Nat} {Ctx Ctx' : ReqCtx} {s s' : Subnet}
    (hc : s.selfConsistent Ctx.MAC = false)
    (h : LeaseFind o fuel now rands Ctx s = some (Ctx', s')) :
    leaseSearch o fuel now rands Ctx s = some (Ctx', s') ∨
      leaseSearch o fuel now rands Ctx
        { s with LeasesByMAC := GoMap.delete s.LeasesByMAC Ctx.MAC } = some (Ctx', s') := by
  unfold Subnet.selfConsistent at hc
  unfold LeaseFind at h
  cases hp : GoMap.lookup s.LeasesByMAC Ctx.MAC with
  | none => rw [hp] at h; exact Or.inl h
  | some p =>
    rw [hp] at hc h
    simp only at hc h
    cases hl : s.heap[p]? with
    | none => rw [hl] at h; cases h
    | some l =>
      rw [hl] at hc h
      simp only at hc h
      by_cases hm : l.MAC ≠ Ctx.MAC
      · rw [if_pos hm] at h; exact Or.inr h
      · rw [if_neg hm] at hc h
        cases hq : GoMap.lookup s.LeasesByIP l.IP with
        | none => rw [hq] at h; exact Or.inr h
        | some q =>
          rw [hq] at hc h
          simp only at hc h
          cases hL : s.heap[q]? with
          | none => rw [hL] at h; cases h
          | some L =>
            rw [hL] at hc h
            simp only at hc h
            have hm2 : L.MAC ≠ Ctx.MAC := of_decide_eq_false hc
            rw [if_pos hm2] at h
            exact Or.inl h

/-- The "no free lease" signal is exact on every subnet whose range ends below
the largest `uint32` and whose stored leases have a non-zero IP: with
`context.ip = 0` on entry, `range_start > 0` and the random probes inside the
range, `LeaseFind` returns, and it leaves `context.ip = 0` if and only if the
client has no self-consistent lease and every address of the range is held by
a lease that is not expired. -/
theorem LeaseFind_no_free_iff (o : Opts) (fuel : Nat) (now : Int) (rands : List Nat)
    (Ctx : ReqCtx) (s : Subnet) (hV : s.Valid) (hip0 : Ctx.IP = 0)
    (hstart : 0 < s.RangeStart) (h32 : s.RangeEnd + 1 < 2 ^ 32)
    (hfuel : s.RangeEnd + 1 - s.RangeStart < fuel)
    (hr : ∀ ip ∈ rands, s.RangeStart ≤ ip ∧ ip ≤ s.RangeEnd)
    (hnz : ∀ ip p L, GoMap.lookup s.LeasesByIP ip = some p → s.heap[p]? = some L → L.IP ≠ 0) :
    ∃ Ctx' s', LeaseFind o fuel now rands Ctx s = some (Ctx', s') ∧
      (Ctx'.IP = 0 ↔
        (s.selfConsistent Ctx.MAC = false ∧
          ∀ ip, s.RangeStart ≤ ip → ip ≤ s.RangeEnd → s.heldLive now ip = true)) := by
  obtain ⟨r, hret⟩ := LeaseFind_returns o now rands Ctx hV h32 hfuel
  obtain ⟨Ctx', s'⟩ := r
  refine ⟨Ctx', s', hret, ?_⟩
  cases hc : s.selfConsistent Ctx.MAC with
  | true =>
    obtain ⟨ip, q, L, hq, hL, hIP, _⟩ := LeaseFind_of_selfConsistent hc hret
    constructor
    · intro h0
      rw [hIP] at h0
      exact absurd h0 (hnz ip q L hq hL)
    · intro h
      cases h.1
  | false =>
    -- the search runs on a state with the same by-IP index, heap and range
    have key : ∀ (t : Subnet), t.RangeStart = s.RangeStart → t.RangeEnd = s.RangeEnd →
        (∀ ip, t.heldLive now ip = s.heldLive now ip) →
        (∀ ip, t.freeAt now ip = s.freeAt now ip) →
        leaseSearch o fuel now rands Ctx t = some (Ctx', s') →
        (Ctx'.IP = 0 ↔
          (false = false ∧
            ∀ ip, s.RangeStart ≤ ip → ip ≤ s.RangeEnd → s.heldLive now ip = true)) := by
      intro t hs1 hs2 hheld hfree hsearch
      have h32t : t.RangeEnd + 1 < 2 ^ 32 := by rw [hs2]; exact h32
      rcases leaseSearch_spec h32t hsearch with ⟨rfl, _, _, hall⟩ | ⟨ip, hin, hf, hIP, _⟩
      · constructor
        · intro _
          refine ⟨rfl, ?_⟩
          intro ip h1 h2
          rw [← hheld]
          exact hall ip (by rw [hs1]; exact h1) (by rw [hs2]; exact h2)
        · intro _
          exact hip0
      · have hrange : s.RangeStart ≤ ip ∧ ip ≤ s.RangeEnd := by
          rcases hin with hin | hin
          · exact hr ip hin
          · rw [hs1, hs2] at hin
            exact hin
        constructor
        · intro h0
          rw [hIP] at h0
          omega
        · intro hh
          have h1 := hh.2 ip hrange.1 hrange.2
          have h2 := not_free_of_heldLive h1
          rw [← hfree, hf] at h2
          cases h2
    rcases LeaseFind_of_not_selfConsistent hc hret with h | h
    · exact key s rfl rfl (fun _ => rfl) (fun _ => rfl) h
    · exact key { s with LeasesByMAC := GoMap.delete s.LeasesByMAC Ctx.MAC } rfl rfl
        (fun _ => rfl) (fun _ => rfl) h

theorem LeaseFind_no_free_iff_witness :
    ∃ Ctx' s', LeaseFind exOpts 3 110 [] { MAC := 4, RequestStart := 110 } exFull =
        some (Ctx', s') ∧
      (Ctx'.IP = 0 ↔
        (exFull.selfConsistent 4 = false ∧
          ∀ ip, exFull.RangeStart ≤ ip → ip ≤ exFull.RangeEnd →
            exFull.heldLive 110 ip = true)) :=
  LeaseFind_no_free_iff exOpts 3 110 [] { MAC := 4, RequestStart := 110 } exFull
    exFull_valid rfl (by decide) (by decide) (by decide)
    (fun _ h => absurd h (List.not_mem_nil _))
    (by
      intro ip p L h1 h2
      have hmem := GoMap.mem_of_lookup _ h1
      have hall : ∀ e ∈ exFull.LeasesByIP, ∀ L, exFull.heap[e.2]? = some L → L.IP ≠ 0 := by
        decide
      exact hall _ hmem L h2)


theorem exEdgeOne_step :
    LeaseFind exOpts 3 0 [] { MAC := 2 } exEdge =
      some ({ MAC := 2, IP := 4294967295, LeaseSource := LEASE_SRC_RANGE }, exEdgeOne) := by
  decide

theorem exEdgeTwo_step :
    LeaseFind exOpts 3 10 [] { MAC := 3, RequestStart := 10 } exEdgeOne =
      some ({ MAC := 3, RequestStart := 10, IP := 0, LeaseSource := LEASE_SRC_RANGE },
        exEdgeTwo) := by
  decide

theorem exEdgeTwo_reachable : Reachable exOpts exEdgeTwo :=
  Reachable.leaseFind 3 10 [] _ _ _
    (Reachable.leaseFind 3 0 [] _ _ _ (Reachable.init exEdge rfl rfl) exEdgeOne_step)
    exEdgeTwo_step

/-- C9, the code at the failing input.  In the reachable state `exEdgeTwo`
(range `255.255.255.255 - 255.255.255.255`, `range_start > 0`, no random
probes) client `1` has no lease and the only address of the range is held by a
live lease, yet `LeaseFind` returns with `context.ip = 0.0.0.1`: the `uint32`
loop counter wraps past `range_end` and the scan goes on at `0.0.0.0`. -/
theorem no_free_lease_wraparound :
    Reachable exOpts exEdgeTwo ∧ 0 < exEdgeTwo.RangeStart ∧
      GoMap.lookup exEdgeTwo.LeasesByMAC 1 = none ∧
      (∀ ip, exEdgeTwo.RangeStart ≤ ip → ip ≤ exEdgeTwo.RangeEnd →
        exEdgeTwo.heldLive 20 ip = true) ∧
      LeaseFind exOpts 4 20 [] { MAC := 1, RequestStart := 20 } exEdgeTwo =
        some ({ MAC := 1, RequestStart := 20, IP := 1, LeaseSource := LEASE_SRC_RANGE },
          exEdgeThree) := by
  refine ⟨exEdgeTwo_reachable, by decide, by decide, ?_, by decide⟩
  intro ip h1 h2
  have hip : ip = 4294967295 := le_antisymm h2 h1
  subst hip
  decide

/-! ## C10: failure outcomes of check-and-update -/

/-- C10. `LeaseCheckAndUpdate` returns no lease with `NotFound` when `by_ip`
has no entry for the requested IP; otherwise with `Expired` when the entry is
expired (whatever its MAC); otherwise with `AnotherMAC` when its MAC is not the
client's.  In the three cases the subnet (both indices and all stored leases)
is unchanged and nothing is sent to the mirror. -/
theorem LeaseCheckAndUpdate_failures (now : Int) (Ctx : ReqCtx) (s : Subnet) :
    (GoMap.lookup s.LeasesByIP Ctx.IP = none →
      LeaseCheckAndUpdate now Ctx s =
        some ({ Ctx with Lease := none, NotFoundReason := NOTFOUND_NOTFOUND }, s, [])) ∧
    (∀ p L, GoMap.lookup s.LeasesByIP Ctx.IP = some p → s.heap[p]? = some L →
      L.Expired now = true →
      LeaseCheckAndUpdate now Ctx s =
        some ({ Ctx with Lease := none, NotFoundReason := NOTFOUND_EXPIRED }, s, [])) ∧
    (∀ p L, GoMap.lookup s.LeasesByIP Ctx.IP = some p → s.heap[p]? = some L →
      L.Expired now = false → L.MAC ≠ Ctx.MAC →
      LeaseCheckAndUpdate now Ctx s =
        some ({ Ctx with Lease := none, NotFoundReason := NOTFOUND_ANOTHER_MAC }, s, [])) := by
  refine ⟨?_, ?_, ?_⟩
  · intro h
    unfold LeaseCheckAndUpdate
    rw [h]
  · intro p L hp hL hE
    unfold LeaseCheckAndUpdate
    rw [hp]
    simp only
    rw [hL]
    simp only [hE, if_true]
  · intro p L hp hL hE hm
    unfold LeaseCheckAndUpdate
    rw [hp]
    simp only
    rw [hL]
    simp only [hE, Bool.false_eq_true, if_false, hm, ne_eq, not_false_eq_true, if_true]

theorem LeaseCheckAndUpdate_failures_witness :
    LeaseCheckAndUpdate 100 { MAC := 2, IP := 167772171 } exOne =
        some ({ MAC := 2, IP := 167772171, NotFoundReason := NOTFOUND_NOTFOUND }, exOne, []) ∧
      LeaseCheckAndUpdate 100 { MAC := 2, IP := 167772170 } exOne =
        some ({ MAC := 2, IP := 167772170, NotFoundReason := NOTFOUND_EXPIRED }, exOne, []) ∧
      LeaseCheckAndUpdate 10 { MAC := 2, IP := 167772170 } exOne =
        some ({ MAC := 2, IP := 167772170, NotFoundReason := NOTFOUND_ANOTHER_MAC },
          exOne, []) :=
  ⟨(LeaseCheckAndUpdate_failures 100 { MAC := 2, IP := 167772171 } exOne).1 (by decide),
    (LeaseCheckAndUpdate_failures 100 { MAC := 2, IP := 167772170 } exOne).2.1 0 exLeaseA
      (by decide) (by decide) (by decide),
    (LeaseCheckAndUpdate_failures 10 { MAC := 2, IP := 167772170 } exOne).2.2 0 exLeaseA
      (by decide) (by decide) (by decide) (by decide)⟩

/-! ## C3: per-MAC serialization -/

/-- C3, the code at the failing input.  Three requests of MAC `5`: the first
passes `WorkStart`; the second is rejected (`ConcurrentRequest`) and runs
`GenerateReply`, whose `WorkFinish` removes the marker of the first; the third
then passes `WorkStart` while the first has not finished.  The same is seen on
`DHCPHandleRequest`: a DISCOVER for a MAC that is in flight is dropped with
`ConcurrentRequest` and leaves the in-flight set empty. -/
theorem serialization_broken_by_rejected_request :
    (exTasks.run [Step.workStart 0, Step.workStart 1, Step.terminate 1 Response.Drop,
        Step.workStart 2]).active 0 = true ∧
      (exTasks.run [Step.workStart 0, Step.workStart 1, Step.terminate 1 Response.Drop,
        Step.workStart 2]).active 2 = true ∧
      (exTasks.run [Step.workStart 0, Step.workStart 1, Step.terminate 1 Response.Drop,
        Step.workStart 2]).mac 0 = some 5 ∧
      (exTasks.run [Step.workStart 0, Step.workStart 1, Step.terminate 1 Response.Drop,
        Step.workStart 2]).mac 2 = some 5 ∧
      (DHCPHandleRequest exOpts { now := 0, fuel := 3 }
          { Segments := [exSegmentA], RequestLock := [(5, true)] } exDiscover).map
        (fun out => (out.reply, out.Ctx.DropReason, out.world.RequestLock)) =
        some (none, DROPREASON_CONCURRENT_REQUEST, []) := by
  decide

/-! ## C4, C5: relay-IP resolution -/

/-- C4, the code at the failing input.  A REQUEST without Option-82, with
GIADDR zero, no RequestedIPAddress option and CIADDR zero reaches the label
`RelayIPObtained` with relay IP `0`: it is classified into segment `U`, an
automode subnet `0.0.0.0/24` is synthesized and mirrored, and the request is
dropped with `NoRequestedIP`, not `RelayIPNotFound`. -/
theorem bare_request_falls_through :
    relayIP exBareRequest
        { MAC := 5, DHCPRequest := dhcpRequest, RemoteIP := 167772210, LocalIP := 167772161 } =
      ({ MAC := 5, DHCPRequest := dhcpRequest, RemoteIP := 167772210, LocalIP := 167772161 },
        Label.RelayIPObtained) ∧
    (DHCPHandleRequest exOpts { now := 0, fuel := 3 } { Segments := [exSegmentU] }
        exBareRequest).map
      (fun out => (out.reply, out.Ctx.DropReason, out.Ctx.RelayIP, out.Ctx.Segment,
        out.Ctx.Subnet)) =
      some (none, DROPREASON_NO_REQUESTED_IP, 0, some 0, some 0) ∧
    (DHCPHandleRequest exOpts { now := 0, fuel := 3 } { Segments := [exSegmentU] }
        exBareRequest).map
      (fun out => (out.mirror, out.world.Segments.map (fun sg => GoMap.keys sg.Subnets))) =
      some ([MirrorOp.subnetUpload 0], [[0]]) := by
  refine ⟨by decide, by decide, by decide⟩

theorem sameRelay_refl (a : ReqCtx) : sameRelay a a := ⟨rfl, rfl⟩

theorem sameRelay_trans {a b c : ReqCtx} (h1 : sameRelay a b) (h2 : sameRelay b c) :
    sameRelay a c := ⟨h1.1.trans h2.1, h1.2.trans h2.2⟩

theorem finish_relay (c : ReqCtx) (Resp : Response) (sn : Option Subnet) (w : World)
    (m : List MirrorOp) : sameRelay (finish c Resp sn w m).Ctx c := by
  simp [finish, ReqCtx.GenerateReply, sameRelay]

theorem leaseSearch_relay {o : Opts} {fuel : Nat} {now : Int} {rands : List Nat}
    {Ctx Ctx' : ReqCtx} {s s' : Subnet}
    (h : leaseSearch o fuel now rands Ctx s = some (Ctx', s')) : sameRelay Ctx' Ctx := by
  unfold leaseSearch at h
  cases hr : randomTries o now Ctx s rands with
  | none => rw [hr] at h; cases h
  | some res =>
    obtain ⟨r, s1⟩ := res
    rw [hr] at h
    cases r with
    | some ip =>
      simp only [Option.some.injEq, Prod.mk.injEq] at h
      obtain ⟨rfl, _⟩ := h
      exact ⟨rfl, rfl⟩
    | none =>
      simp only at h
      cases hs : rangeScan o now Ctx fuel s1 s1.RangeStart with
      | none => rw [hs] at h; cases h
      | some res2 =>
        obtain ⟨r2, s2⟩ := res2
        rw [hs] at h
        cases r2 with
        | some ip =>
          simp only [Option.some.injEq, Prod.mk.injEq] at h
          obtain ⟨rfl, _⟩ := h
          exact ⟨rfl, rfl⟩
        | none =>
          simp only [Option.some.injEq, Prod.mk.injEq] at h
          obtain ⟨rfl, _⟩ := h
          exact ⟨rfl, rfl⟩

theorem LeaseFind_relay {o : Opts} {fuel : Nat} {now : Int} {rands : List Nat}
    {Ctx Ctx' : ReqCtx} {s s' : Subnet}
    (h : LeaseFind o fuel now rands Ctx s = some (Ctx', s')) : sameRelay Ctx' Ctx := by
  unfold LeaseFind at h
  split at h
  · exact leaseSearch_relay h
  · split at h
    · cases h
    · split at h
      · exact leaseSearch_relay h
      · split at h
        · exact leaseSearch_relay h
        · split at h
          · cases h
          · split at h
            · exact leaseSearch_relay h
            · simp only [Option.some.injEq, Prod.mk.injEq] at h
              obtain ⟨rfl, _⟩ := h
              exact ⟨rfl, rfl⟩

theorem LeaseCheckAndUpdate_relay {now : Int} {Ctx Ctx' : ReqCtx} {s s' : Subnet}
    {ops : List MirrorOp} (h : LeaseCheckAndUpdate now Ctx s = some (Ctx', s', ops)) :
    sameRelay Ctx' Ctx := by
  unfold LeaseCheckAndUpdate at h
  split at h
  · simp only [Option.some.injEq, Prod.mk.injEq] at h
    obtain ⟨rfl, _⟩ := h
    exact ⟨rfl, rfl⟩
  · split at h
    · cases h
    · split at h
      · simp only [Option.some.injEq, Prod.mk.injEq] at h
        obtain ⟨rfl, _⟩ := h
        exact ⟨rfl, rfl⟩
      · split at h <;>
          (simp only [Option.some.injEq, Prod.mk.injEq] at h
           obtain ⟨rfl, _⟩ := h
           exact ⟨rfl, rfl⟩)

theorem ObtainRequestedIP_relay (c : ReqCtx) (req : Request) :
    sameRelay (c.ObtainRequestedIP req).2 c := by
  unfold ReqCtx.ObtainRequestedIP
  split
  · exact ⟨rfl, rfl⟩
  · split <;> exact ⟨rfl, rfl⟩

theorem handleRequest_relay {e : Env} {req : Request} {Ctx : ReqCtx} {i : Nat}
    {Seg : Segment} {key : Nat} {sn : Subnet} {w : World} {m : List MirrorOp}
    {out : Outcome} (h : handleRequest e req Ctx i Seg key sn w m = some out) :
    sameRelay out.Ctx Ctx := by
  unfold handleRequest at h
  have hO := ObtainRequestedIP_relay Ctx req
  split at h
  · rename_i Ctx1 hc
    rw [hc] at hO
    cases h
    exact sameRelay_trans (finish_relay _ _ _ _ _) hO
  · rename_i Ctx1 hc
    rw [hc] at hO
    split at h
    · cases h
      exact sameRelay_trans (finish_relay _ _ _ _ _) hO
    · split at h
      · cases h
      · rename_i Ctx2 sn2 ops hU
        have hU' := LeaseCheckAndUpdate_relay hU
        split at h
        · cases h
          exact sameRelay_trans (finish_relay _ _ _ _ _) (sameRelay_trans hU' hO)
        · cases h
          exact sameRelay_trans (finish_relay _ _ _ _ _) (sameRelay_trans hU' hO)

theorem dispatch_relay {o : Opts} {e : Env} {req : Request} {Ctx : ReqCtx} {i : Nat}
    {Seg : Segment} {key : Nat} {sn : Subnet} {w : World} {m : List MirrorOp}
    {out : Outcome} (h : dispatch o e req Ctx i Seg key sn w m = some out) :
    sameRelay out.Ctx Ctx := by
  unfold dispatch at h
  split at h
  · split at h
    · cases h
    · rename_i Ctx1 sn1 hF
      have hF' := LeaseFind_relay hF
      split at h
      · cases h
        exact sameRelay_trans (finish_relay _ _ _ _ _) hF'
      · cases h
        exact sameRelay_trans (finish_relay _ _ _ _ _) hF'
  · split at h
    · split at h
      · split at h
        · cases h
          exact finish_relay _ _ _ _ _
        · exact handleRequest_relay h
      · exact handleRequest_relay h
    · split at h
      · split at h
        · cases h
          exact finish_relay _ _ _ _ _
        · simp only at h
          split at h
          · cases h
          · cases h
            exact finish_relay _ _ _ _ _
      · split at h
        · split at h
          · cases h
            exact finish_relay _ _ _ _ _
          · simp only at h
            split at h
            · cases h
            · cases h
              exact finish_relay _ _ _ _ _
        · split at h
          · cases h
            exact finish_relay _ _ _ _ _
          · cases h
            exact finish_relay _ _ _ _ _

theorem SegmentEvaluate_relay (c : ReqCtx) (Segments : List Segment) :
    sameRelay (c.SegmentEvaluate Segments) c := by
  unfold ReqCtx.SegmentEvaluate
  split <;> exact ⟨rfl, rfl⟩

theorem ObtainSubnet_relay (c : ReqCtx) (Seg : Segment) :
    sameRelay (c.ObtainSubnet Seg).1 c := by
  unfold ReqCtx.ObtainSubnet
  split
  · exact ⟨rfl, rfl⟩
  · split <;> exact ⟨rfl, rfl⟩

theorem WorkStart_relay (c : ReqCtx) (Items : List (Nat × Bool)) :
    sameRelay (c.WorkStart Items).2.1 c := by
  unfold ReqCtx.WorkStart
  split <;> exact ⟨rfl, rfl⟩

/-- The relay IP and its source tag are fixed by the relay-IP block: whatever
`DHCPHandleRequest` does afterwards, the final context carries them. -/
theorem DHCPHandleRequest_relay {o : Opts} {e : Env} {w : World} {req : Request}
    {out : Outcome} (h : DHCPHandleRequest o e w req = some out) :
    sameRelay out.Ctx
      (relayIP req
        { RequestStart := e.now, MAC := req.CHAddr, DHCPRequest := req.msgType,
          RemoteIP := req.RemoteAddr, LocalIP := req.LocalAddr }).1 := by
  unfold DHCPHandleRequest at h
  simp only at h
  split at h
  · rename_i Ctx hrel
    rw [hrel]
    cases h
    exact finish_relay _ _ _ _ _
  · rename_i Ctx hrel
    rw [hrel]
    split at h
    · cases h
      exact finish_relay _ _ _ _ _
    · have hS := SegmentEvaluate_relay Ctx w.Segments
      split at h
      · cases h
        exact sameRelay_trans (finish_relay _ _ _ _ _) hS
      · split at h
        · cases h
        · rename_i Seg _
          have hO := ObtainSubnet_relay (Ctx.SegmentEvaluate w.Segments) Seg
          split at h
          · cases h
            exact sameRelay_trans (finish_relay _ _ _ _ _) (sameRelay_trans hO hS)
          · split at h
            · cases h
            · split at h
              · rename_i Ctx2 items hws
                have hW : sameRelay Ctx2 ((Ctx.SegmentEvaluate w.Segments).ObtainSubnet Seg).1 := by
                  have := WorkStart_relay ((Ctx.SegmentEvaluate w.Segments).ObtainSubnet Seg).1
                    w.RequestLock
                  rw [hws] at this
                  exact this
                cases h
                exact sameRelay_trans (finish_relay _ _ _ _ _)
                  (sameRelay_trans hW (sameRelay_trans hO hS))
              · rename_i Ctx2 items hws
                have hW : sameRelay Ctx2 ((Ctx.SegmentEvaluate w.Segments).ObtainSubnet Seg).1 := by
                  have := WorkStart_relay ((Ctx.SegmentEvaluate w.Segments).ObtainSubnet Seg).1
                    w.RequestLock
                  rw [hws] at this
                  exact this
                exact sameRelay_trans (dispatch_relay h)
                  (sameRelay_trans hW (sameRelay_trans hO hS))

/-- C5. A request whose Option-82 holds a Link-Selection sub-option of exactly
4 bytes gets the integer value of those bytes as relay IP, with source
OPTION82, whatever GIADDR, CIADDR and the RequestedIPAddress option hold; with a
Link-Selection of any other length the request is dropped with
`MalformedPacket`; without Option-82, or without Link-Selection in it, and with
a non-zero GIADDR the relay IP is GIADDR with source GIADDR. -/
theorem option82_precedence (o : Opts) (e : Env) (w : World) (req : Request) :
    (∀ subopts ls, req.Option82 = some subopts →
      GoMap.lookup subopts Option82LinkSelection = some ls → ls.length = 4 →
      (∀ Ctx, relayIP req Ctx =
        ({ Ctx with RelayIP := IPByteToInt ls, RelayIPSource := STATS_RELAYIP_OPTION82 },
          Label.RelayIPObtained)) ∧
      (∀ out, DHCPHandleRequest o e w req = some out →
        out.Ctx.RelayIP = IPByteToInt ls ∧
          out.Ctx.RelayIPSource = STATS_RELAYIP_OPTION82)) ∧
    (∀ subopts ls, req.Option82 = some subopts →
      GoMap.lookup subopts Option82LinkSelection = some ls → ls.length ≠ 4 →
      ∃ out, DHCPHandleRequest o e w req = some out ∧ out.reply = none ∧
        out.Ctx.DropReason = DROPREASON_MALFORMED_PACKET ∧ out.mirror = []) ∧
    ((req.Option82 = none ∨
        ∃ subopts, req.Option82 = some subopts ∧
          GoMap.lookup subopts Option82LinkSelection = none) →
      req.GIAddr ≠ 0 →
      (∀ Ctx, relayIP req Ctx =
        ({ Ctx with RelayIP := req.GIAddr, RelayIPSource := STATS_RELAYIP_GIADDR },
          Label.RelayIPObtained)) ∧
      (∀ out, DHCPHandleRequest o e w req = some out →
        out.Ctx.RelayIP = req.GIAddr ∧ out.Ctx.RelayIPSource = STATS_RELAYIP_GIADDR)) := by
  refine ⟨?_, ?_, ?_⟩
  · intro subopts ls h82 hls hlen
    have hrel : ∀ Ctx, relayIP req Ctx =
        ({ Ctx with RelayIP := IPByteToInt ls, RelayIPSource := STATS_RELAYIP_OPTION82 },
          Label.RelayIPObtained) := by
      intro Ctx
      unfold relayIP
      rw [h82]
      simp only
      rw [hls]
      simp only [hlen, if_true, ReqCtx.SetRelayIP]
    refine ⟨hrel, ?_⟩
    intro out hout
    have := DHCPHandleRequest_relay hout
    rw [hrel] at this
    exact this
  · intro subopts ls h82 hls hlen
    have hrel : ∀ Ctx, relayIP req Ctx =
        ({ Ctx with DropReason := DROPREASON_MALFORMED_PACKET }, Label.Drop) := by
      intro Ctx
      unfold relayIP
      rw [h82]
      simp only
      rw [hls]
      simp only [hlen, if_false]
    refine ⟨finish
      { RequestStart := e.now, MAC := req.CHAddr, DHCPRequest := req.msgType,
        RemoteIP := req.RemoteAddr, LocalIP := req.LocalAddr,
        DropReason := DROPREASON_MALFORMED_PACKET } Response.Drop none w [], ?_, ?_, ?_, ?_⟩
    · unfold DHCPHandleRequest
      simp only
      rw [hrel]
    · simp [finish, ReqCtx.GenerateReply]
    · simp [finish, ReqCtx.GenerateReply]
    · simp [finish]
  · intro h82 hgi
    have hrel : ∀ Ctx, relayIP req Ctx =
        ({ Ctx with RelayIP := req.GIAddr, RelayIPSource := STATS_RELAYIP_GIADDR },
          Label.RelayIPObtained) := by
      intro Ctx
      have hdone : option82Done req Ctx =
          ({ Ctx with RelayIP := req.GIAddr, RelayIPSource := STATS_RELAYIP_GIADDR },
            Label.RelayIPObtained) := by
        unfold option82Done
        simp only [ReqCtx.SetRelayIP]
        rw [if_pos (Nat.pos_of_ne_zero hgi)]
      unfold relayIP
      rcases h82 with h | ⟨subopts, h, hl⟩
      · rw [h]
        exact hdone
      · rw [h]
        simp only
        rw [hl]
        exact hdone
    refine ⟨hrel, ?_⟩
    intro out hout
    have := DHCPHandleRequest_relay hout
    rw [hrel] at this
    exact this

theorem option82_precedence_witness :
    relayIP exLinkSelection { MAC := 5 } =
        ({ MAC := 5, RelayIP := 167837697, RelayIPSource := STATS_RELAYIP_OPTION82 },
          Label.RelayIPObtained) ∧
      (∃ out, DHCPHandleRequest exOpts { now := 0, fuel := 3 } { Segments := [exSegmentA] }
          exShortLink = some out ∧ out.reply = none ∧
        out.Ctx.DropReason = DROPREASON_MALFORMED_PACKET ∧ out.mirror = []) ∧
      relayIP exDiscover { MAC := 5 } =
        ({ MAC := 5, RelayIP := 167772161, RelayIPSource := STATS_RELAYIP_GIADDR },
          Label.RelayIPObtained) :=
  ⟨((option82_precedence exOpts { now := 0, fuel := 3 } { Segments := [exSegmentA] }
        exLinkSelection).1 [(Option82LinkSelection, [10, 1, 0, 1])] [10, 1, 0, 1] rfl
        (by decide) (by decide)).1 { MAC := 5 },
    (option82_precedence exOpts { now := 0, fuel := 3 } { Segments := [exSegmentA] }
        exShortLink).2.1 [(Option82LinkSelection, [10, 1, 0])] [10, 1, 0] rfl
        (by decide) (by decide),
    ((option82_precedence exOpts { now := 0, fuel := 3 } { Segments := [exSegmentA] }
        exDiscover).2.2 (Or.inl rfl) (by decide)).1 { MAC := 5 }⟩

/-! ## C11, C12: check-and-update, check-and-delete -/

/-- C11. When `by_ip[requested ip]` exists, is not expired and has the client's
MAC, `LeaseCheckAndUpdate` returns that lease; afterwards the stored lease has
`expires = request_start + subnet.lease_ttl` and `discover_phase = false`, its
ip and mac are as before, and both indices are unchanged. -/
theorem LeaseCheckAndUpdate_success (now : Int) (Ctx : ReqCtx) (s : Subnet) (p : Nat)
    (L : Lease) (hp : GoMap.lookup s.LeasesByIP Ctx.IP = some p)
    (hL : s.heap[p]? = some L) (hE : L.Expired now = false) (hm : L.MAC = Ctx.MAC) :
    ∃ Ctx' s' ops, LeaseCheckAndUpdate now Ctx s = some (Ctx', s', ops) ∧
      Ctx'.Lease = some p ∧
      s'.heap[p]? =
        some { IP := L.IP, MAC := L.MAC, Expires := Ctx.RequestStart + s.LeaseTTL,
               Discover := false, DiscoverTime := L.DiscoverTime } ∧
      s'.LeasesByIP = s.LeasesByIP ∧ s'.LeasesByMAC = s.LeasesByMAC := by
  unfold LeaseCheckAndUpdate
  rw [hp]
  simp only
  rw [hL]
  simp only [hE, Bool.false_eq_true, if_false, hm, ne_eq, not_true_eq_false]
  exact ⟨_, _, _, rfl, rfl, heap_set_self _ hL, rfl, rfl⟩

theorem LeaseCheckAndUpdate_success_witness :
    GoMap.lookup exOne.LeasesByIP 167772170 = some 0 ∧ exOne.heap[0]? = some exLeaseA ∧
      exLeaseA.Expired 10 = false ∧
      ∃ Ctx' s' ops,
        LeaseCheckAndUpdate 10 { MAC := 1, IP := 167772170, RequestStart := 10 } exOne =
          some (Ctx', s', ops) ∧
        Ctx'.Lease = some 0 ∧
        s'.heap[0]? =
          some { IP := 167772170, MAC := 1, Expires := 10 + 600, Discover := false,
                 DiscoverTime := 0 } ∧
        s'.LeasesByIP = exOne.LeasesByIP ∧ s'.LeasesByMAC = exOne.LeasesByMAC :=
  ⟨by decide, by decide, by decide,
    LeaseCheckAndUpdate_success 10 { MAC := 1, IP := 167772170, RequestStart := 10 } exOne 0
      exLeaseA (by decide) (by decide) (by decide) (by decide)⟩

/-- C12. If `by_ip[ip]` exists and its MAC is the client's, `LeaseCheckAndDelete`
removes `ip` from the by-IP index and the client MAC from the by-MAC index,
leaves every other key, the stored leases and the other fields of the subnet as
they were, and hands the deletion to the mirror; nothing about the expiry is
looked at.  If `by_ip[ip]` is absent or belongs to another MAC, the subnet is
unchanged and nothing is handed to the mirror. -/
theorem LeaseCheckAndDelete_frame (Ctx : ReqCtx) (s : Subnet) :
    (∀ p L, GoMap.lookup s.LeasesByIP Ctx.IP = some p → s.heap[p]? = some L →
      L.MAC = Ctx.MAC →
      ∃ s', LeaseCheckAndDelete Ctx s = some (s', [MirrorOp.leaseDelete L]) ∧
        GoMap.lookup s'.LeasesByIP Ctx.IP = none ∧
        GoMap.lookup s'.LeasesByMAC Ctx.MAC = none ∧
        (∀ k, k ≠ Ctx.IP → GoMap.lookup s'.LeasesByIP k = GoMap.lookup s.LeasesByIP k) ∧
        (∀ k, k ≠ Ctx.MAC → GoMap.lookup s'.LeasesByMAC k = GoMap.lookup s.LeasesByMAC k) ∧
        s'.heap = s.heap ∧
        s' = { s with LeasesByIP := s'.LeasesByIP, LeasesByMAC := s'.LeasesByMAC }) ∧
    (GoMap.lookup s.LeasesByIP Ctx.IP = none → LeaseCheckAndDelete Ctx s = some (s, [])) ∧
    (∀ p L, GoMap.lookup s.LeasesByIP Ctx.IP = some p → s.heap[p]? = some L →
      L.MAC ≠ Ctx.MAC → LeaseCheckAndDelete Ctx s = some (s, [])) := by
  refine ⟨?_, ?_, ?_⟩
  · intro p L hp hL hm
    refine ⟨{ s with
              LeasesByIP := GoMap.delete s.LeasesByIP Ctx.IP
              LeasesByMAC := GoMap.delete s.LeasesByMAC Ctx.MAC }, ?_,
      GoMap.lookup_delete_self _ _, GoMap.lookup_delete_self _ _,
      fun k hk => GoMap.lookup_delete_ne _ hk, fun k hk => GoMap.lookup_delete_ne _ hk,
      rfl, rfl⟩
    unfold LeaseCheckAndDelete
    rw [hp]
    simp only
    rw [hL]
    simp only [hm, ne_eq, not_true_eq_false, if_false]
  · intro h
    unfold LeaseCheckAndDelete
    rw [h]
  · intro p L hp hL hm
    unfold LeaseCheckAndDelete
    rw [hp]
    simp only
    rw [hL]
    simp only [hm, ne_eq, not_false_eq_true, if_true]

theorem LeaseCheckAndDelete_frame_witness :
    LeaseCheckAndDelete { MAC := 2, IP := 167772170 } exOne = some (exOne, []) ∧
      LeaseCheckAndDelete { MAC := 2, IP := 167772171 } exOne = some (exOne, []) ∧
      ∃ s', LeaseCheckAndDelete { MAC := 1, IP := 167772170 } exOne =
          some (s', [MirrorOp.leaseDelete exLeaseA]) ∧
        GoMap.lookup s'.LeasesByIP 167772170 = none ∧
        GoMap.lookup s'.LeasesByMAC 1 = none ∧
        (∀ k, k ≠ 167772170 →
          GoMap.lookup s'.LeasesByIP k = GoMap.lookup exOne.LeasesByIP k) ∧
        (∀ k, k ≠ 1 → GoMap.lookup s'.LeasesByMAC k = GoMap.lookup exOne.LeasesByMAC k) ∧
        s'.heap = exOne.heap ∧
        s' = { exOne with LeasesByIP := s'.LeasesByIP, LeasesByMAC := s'.LeasesByMAC } :=
  ⟨(LeaseCheckAndDelete_frame { MAC := 2, IP := 167772170 } exOne).2.2 0 exLeaseA
      (by decide) (by decide) (by decide),
    (LeaseCheckAndDelete_frame { MAC := 2, IP := 167772171 } exOne).2.1 (by decide),
    (LeaseCheckAndDelete_frame { MAC := 1, IP := 167772170 } exOne).1 0 exLeaseA
      (by decide) (by decide) (by decide)⟩

/-! ## C13: subnet confinement -/

/-- The three ways `LeaseFind` returns: the existing lease is adopted and
updated in place, or the search ran on the subnet, or it ran on the subnet
without the client's stale by-MAC entry. -/
theorem LeaseFind_cases {o : Opts} {fuel : Nat} {now : Int} {rands : List Nat}
    {Ctx Ctx' : ReqCtx} {s s' : Subnet}
    (h : LeaseFind o fuel now rands Ctx s = some (Ctx', s')) :
    (∃ q L, s.heap[q]? = some L ∧ L.MAC = Ctx.MAC ∧
        Ctx' = { Ctx.SetRequestedIP L.IP with LeaseSource := LEASE_SRC_EXISTING } ∧
        s' = { s with
               heap := s.heap.set q
                 (Lease.DiscoverSet now
                   { L with Expires := Ctx.RequestStart + o.DHCPGraceTTL }) }) ∨
      leaseSearch o fuel now rands Ctx s = some (Ctx', s') ∨
      leaseSearch o fuel now rands Ctx
        { s with LeasesByMAC := GoMap.delete s.LeasesByMAC Ctx.MAC } = some (Ctx', s') := by
  unfold LeaseFind at h
  cases hp : GoMap.lookup s.LeasesByMAC Ctx.MAC with
  | none => rw [hp] at h; exact Or.inr (Or.inl h)
  | some p =>
    rw [hp] at h
    simp only at h
    cases hl : s.heap[p]? with
    | none => rw [hl] at h; cases h
    | some l =>
      rw [hl] at h
      simp only at h
      by_cases hm : l.MAC ≠ Ctx.MAC
      · rw [if_pos hm] at h; exact Or.inr (Or.inr h)
      · rw [if_neg hm] at h
        cases hq : GoMap.lookup s.LeasesByIP l.IP with
        | none => rw [hq] at h; exact Or.inr (Or.inr h)
        | some q =>
          rw [hq] at h
          simp only at h
          cases hL : s.heap[q]? with
          | none => rw [hL] at h; cases h
          | some L =>
            rw [hL] at h
            simp only at h
            by_cases hm2 : L.MAC ≠ Ctx.MAC
            · rw [if_pos hm2] at h; exact Or.inr (Or.inl h)
            · rw [if_neg hm2] at h
              simp only [Option.some.injEq, Prod.mk.injEq] at h
              obtain ⟨rfl, rfl⟩ := h
              exact Or.inl ⟨q, L, hL, not_not.mp hm2, rfl, rfl⟩

/-- C13 fails as stated: for the subnet `GenerateAutoSubnet` synthesizes for
the network `10.0.0.0` from the automode parameters of `exSegmentW` (mask
`255.255.255.0`, range offsets `0.0.1.0 - 0.0.1.10`) `LeaseFind` allocates
`10.0.1.0`, which lies in the range but not in the network. -/
theorem confinement_counterexample :
    (LeaseFind exOpts 3 0 [] { MAC := 1 } (GenerateAutoSubnet 167772160 exSegmentW)).map
        (fun r => (r.1.IP, r.2.heap.map Lease.IP)) = some (167772416, [167772416]) ∧
      (GenerateAutoSubnet 167772160 exSegmentW).RangeStart ≤ 167772416 ∧
      167772416 ≤ (GenerateAutoSubnet 167772160 exSegmentW).RangeEnd ∧
      167772416 &&& (GenerateAutoSubnet 167772160 exSegmentW).Mask ≠
        (GenerateAutoSubnet 167772160 exSegmentW).Net := by
  refine ⟨by decide, by decide, by decide, by decide⟩

/-- C13, amended. For every subnet (static or synthesized) whose range ends
below the largest `uint32`, with the random probes inside the range, every
lease `LeaseFind` allocates has `range_start <= L.ip <= range_end`; it has
`(L.ip AND mask) = net` whenever every address of the range does, which
neither the subnet loader nor `GenerateAutoSubnet` checks. -/
theorem LeaseFind_confinement (o : Opts) (fuel : Nat) (now : Int) (rands : List Nat)
    (Ctx Ctx' : ReqCtx) (s s' : Subnet) (h32 : s.RangeEnd + 1 < 2 ^ 32)
    (hr : ∀ ip ∈ rands, s.RangeStart ≤ ip ∧ ip ≤ s.RangeEnd)
    (hret : LeaseFind o fuel now rands Ctx s = some (Ctx', s')) :
    ∀ p L, s.heap.length ≤ p → s'.heap[p]? = some L →
      (s.RangeStart ≤ L.IP ∧ L.IP ≤ s.RangeEnd) ∧
        ((∀ ip, s.RangeStart ≤ ip → ip ≤ s.RangeEnd → ip &&& s.Mask = s.Net) →
          L.IP &&& s.Mask = s.Net) := by
  intro p L hp hL
  have key : ∀ (t : Subnet), t.heap = s.heap → t.RangeStart = s.RangeStart →
      t.RangeEnd = s.RangeEnd → leaseSearch o fuel now rands Ctx t = some (Ctx', s') →
      s.RangeStart ≤ L.IP ∧ L.IP ≤ s.RangeEnd := by
    intro t ht hs1 hs2 hsearch
    have h32t : t.RangeEnd + 1 < 2 ^ 32 := by rw [hs2]; exact h32
    rcases leaseSearch_spec h32t hsearch with ⟨_, rfl, _, _⟩ | ⟨ip, hin, _, _, rfl⟩
    · rw [ht] at hL
      have := heap_lt hL
      omega
    · have hrange : s.RangeStart ≤ ip ∧ ip ≤ s.RangeEnd := by
        rcases hin with hin | hin
        · exact hr ip hin
        · rw [hs1, hs2] at hin
          exact hin
      have hlen : p = t.heap.length := by
        have h1 := heap_lt hL
        have h2 := congrArg List.length ht
        simp only [storeLease, List.length_append, List.length_singleton] at h1
        omega
      subst hlen
      rw [storeLease_heap_new] at hL
      cases hL
      exact hrange
  have hrange : s.RangeStart ≤ L.IP ∧ L.IP ≤ s.RangeEnd := by
    rcases LeaseFind_cases hret with ⟨q, L0, _, _, _, rfl⟩ | h | h
    · have h1 := heap_lt hL
      simp only [List.length_set] at h1
      omega
    · exact key s rfl rfl rfl h
    · exact key { s with LeasesByMAC := GoMap.delete s.LeasesByMAC Ctx.MAC } rfl rfl rfl h
  exact ⟨hrange, fun hnet => hnet L.IP hrange.1 hrange.2⟩

theorem LeaseFind_confinement_witness :
    exNet.RangeEnd + 1 < 2 ^ 32 ∧
      LeaseFind exOpts 3 0 [] { MAC := 1 } exNet =
        some ({ MAC := 1, IP := 167772170, LeaseSource := LEASE_SRC_RANGE }, exNetOne) ∧
      exNet.heap.length ≤ 0 ∧ exNetOne.heap[0]? = some exLeaseA ∧
      (∀ ip, exNet.RangeStart ≤ ip → ip ≤ exNet.RangeEnd → ip &&& exNet.Mask = exNet.Net) ∧
      (exNet.RangeStart ≤ exLeaseA.IP ∧ exLeaseA.IP ≤ exNet.RangeEnd) ∧
      exLeaseA.IP &&& exNet.Mask = exNet.Net := by
  have hnet : ∀ ip, exNet.RangeStart ≤ ip → ip ≤ exNet.RangeEnd →
      ip &&& exNet.Mask = exNet.Net := by
    intro ip h1 h2
    have h1' : 167772170 ≤ ip := h1
    have h2' : ip ≤ 167772171 := h2
    have : ip = 167772170 ∨ ip = 167772171 := by omega
    rcases this with rfl | rfl <;> decide
  have h := LeaseFind_confinement exOpts 3 0 [] { MAC := 1 }
    { MAC := 1, IP := 167772170, LeaseSource := LEASE_SRC_RANGE } exNet exNetOne
    (by decide) (fun _ hm => absurd hm (List.not_mem_nil _)) (by decide) 0 exLeaseA
    (by decide) (by decide)
  exact ⟨by decide, by decide, by decide, by decide, hnet, h.1, h.2 hnet⟩

/-! ## C14: capacity -/

theorem GoMap.keys_delete_sublist {V : Type} (m : List (Nat × V)) (k : Nat) :
    (GoMap.keys (GoMap.delete m k)).Sublist (GoMap.keys m) := by
  unfold GoMap.keys GoMap.delete
  exact List.Sublist.map _ (List.filter_sublist _)

theorem GoMap.not_mem_keys_delete {V : Type} (m : List (Nat × V)) (k : Nat) :
    k ∉ GoMap.keys (GoMap.delete m k) := by
  intro h
  unfold GoMap.keys GoMap.delete at h
  rw [List.mem_map] at h
  obtain ⟨e, he, hk⟩ := h
  rw [List.mem_filter] at he
  have := he.2
  simp only [ne_eq, decide_not, Bool.not_eq_true', decide_eq_false_iff_not] at this
  exact this hk

theorem confined_of_sublist {s t : Subnet} (hs : s.Confined)
    (h1 : t.RangeStart = s.RangeStart) (h2 : t.RangeEnd = s.RangeEnd)
    (h : (GoMap.keys t.LeasesByIP).Sublist (GoMap.keys s.LeasesByIP)) : t.Confined := by
  refine ⟨hs.1.sublist h, ?_⟩
  intro k hk
  rw [h1, h2]
  exact hs.2 k (h.subset hk)

theorem storeLease_confined {o : Opts} {now : Int} {Ctx : ReqCtx} {s : Subnet} {ip : Nat}
    (hs : s.Confined) (hip : s.RangeStart ≤ ip ∧ ip ≤ s.RangeEnd) :
    (storeLease o now Ctx s ip).Confined := by
  unfold Subnet.Confined storeLease
  simp only [GoMap.insert, GoMap.keys, List.map_cons, List.nodup_cons, List.mem_cons]
  refine ⟨⟨GoMap.not_mem_keys_delete _ _, hs.1.sublist (GoMap.keys_delete_sublist _ _)⟩, ?_⟩
  intro k hk
  rcases hk with rfl | hk
  · exact hip
  · exact hs.2 k ((GoMap.keys_delete_sublist _ _).subset hk)

theorem LeaseFind_range {o : Opts} {fuel : Nat} {now : Int} {rands : List Nat}
    {Ctx Ctx' : ReqCtx} {s s' : Subnet}
    (h : LeaseFind o fuel now rands Ctx s = some (Ctx', s')) :
    s'.RangeStart = s.RangeStart ∧ s'.RangeEnd = s.RangeEnd := by
  rcases LeaseFind_cases h with ⟨q, L0, _, _, _, rfl⟩ | h | h
  · exact ⟨rfl, rfl⟩
  · rcases leaseSearch_cases h with ⟨_, rfl⟩ | ⟨ip, _, rfl, _⟩ <;> exact ⟨rfl, rfl⟩
  · rcases leaseSearch_cases h with ⟨_, rfl⟩ | ⟨ip, _, rfl, _⟩ <;> exact ⟨rfl, rfl⟩

theorem LeaseFind_confined {o : Opts} {fuel : Nat} {now : Int} {rands : List Nat}
    {Ctx Ctx' : ReqCtx} {s s' : Subnet} (hs : s.Confined) (h32 : s.RangeEnd + 1 < 2 ^ 32)
    (hr : ∀ ip ∈ rands, s.RangeStart ≤ ip ∧ ip ≤ s.RangeEnd)
    (h : LeaseFind o fuel now rands Ctx s = some (Ctx', s')) : s'.Confined := by
  have key : ∀ (t : Subnet), t.Confined → t.RangeStart = s.RangeStart →
      t.RangeEnd = s.RangeEnd → leaseSearch o fuel now rands Ctx t = some (Ctx', s') →
      s'.Confined := by
    intro t ht hs1 hs2 hsearch
    have h32t : t.RangeEnd + 1 < 2 ^ 32 := by rw [hs2]; exact h32
    rcases leaseSearch_spec h32t hsearch with ⟨_, rfl, _, _⟩ | ⟨ip, hin, _, _, rfl⟩
    · exact ht
    · have hrange : t.RangeStart ≤ ip ∧ ip ≤ t.RangeEnd := by
        rcases hin with hin | hin
        · rw [hs1, hs2]; exact hr ip hin
        · exact hin
      exact storeLease_confined ht hrange
  rcases LeaseFind_cases h with ⟨q, L0, _, _, _, rfl⟩ | h | h
  · exact hs
  · exact key s hs rfl rfl h
  · exact key { s with LeasesByMAC := GoMap.delete s.LeasesByMAC Ctx.MAC } hs rfl rfl h

theorem LeaseCheckAndUpdate_confined {now : Int} {Ctx Ctx' : ReqCtx} {s s' : Subnet}
    {ops : List MirrorOp} (h : LeaseCheckAndUpdate now Ctx s = some (Ctx', s', ops)) :
    s'.RangeStart = s.RangeStart ∧ s'.RangeEnd = s.RangeEnd ∧ (s.Confined → s'.Confined) := by
  unfold LeaseCheckAndUpdate at h
  split at h
  · simp only [Option.some.injEq, Prod.mk.injEq] at h
    obtain ⟨_, rfl, _⟩ := h
    exact ⟨rfl, rfl, id⟩
  · split at h
    · cases h
    · split at h
      · simp only [Option.some.injEq, Prod.mk.injEq] at h
        obtain ⟨_, rfl, _⟩ := h
        exact ⟨rfl, rfl, id⟩
      · split at h <;>
          (simp only [Option.some.injEq, Prod.mk.injEq] at h
           obtain ⟨_, rfl, _⟩ := h
           exact ⟨rfl, rfl, id⟩)

theorem LeaseCheckAndDelete_confined {Ctx : ReqCtx} {s s' : Subnet} {ops : List MirrorOp}
    (h : LeaseCheckAndDelete Ctx s = some (s', ops)) :
    s'.RangeStart = s.RangeStart ∧ s'.RangeEnd = s.RangeEnd ∧ (s.Confined → s'.Confined) := by
  unfold LeaseCheckAndDelete at h
  split at h
  · simp only [Option.some.injEq, Prod.mk.injEq] at h
    obtain ⟨rfl, _⟩ := h
    exact ⟨rfl, rfl, id⟩
  · split at h
    · cases h
    · split at h
      · simp only [Option.some.injEq, Prod.mk.injEq] at h
        obtain ⟨rfl, _⟩ := h
        exact ⟨rfl, rfl, id⟩
      · simp only [Option.some.injEq, Prod.mk.injEq] at h
        obtain ⟨rfl, _⟩ := h
        exact ⟨rfl, rfl,
          fun hs => confined_of_sublist hs rfl rfl (GoMap.keys_delete_sublist _ _)⟩

theorem cleanupStep_confined {o : Opts} {now : Int} {s s' : Subnet} {mac dm di : Nat}
    (h : cleanupStep o now s mac = some (s', dm, di)) :
    s'.RangeStart = s.RangeStart ∧ s'.RangeEnd = s.RangeEnd ∧ (s.Confined → s'.Confined) := by
  unfold cleanupStep at h
  split at h
  · simp only [Option.some.injEq, Prod.mk.injEq] at h
    obtain ⟨rfl, _⟩ := h
    exact ⟨rfl, rfl, id⟩
  · split at h
    · cases h
    · split at h
      · simp only at h
        split at h
        · simp only [Option.some.injEq, Prod.mk.injEq] at h
          obtain ⟨rfl, _⟩ := h
          exact ⟨rfl, rfl, fun hs => confined_of_sublist hs rfl rfl (List.Sublist.refl _)⟩
        · split at h
          · cases h
          · split at h
            · simp only [Option.some.injEq, Prod.mk.injEq] at h
              obtain ⟨rfl, _⟩ := h
              exact ⟨rfl, rfl,
                fun hs => confined_of_sublist hs rfl rfl (GoMap.keys_delete_sublist _ _)⟩
            · simp only [Option.some.injEq, Prod.mk.injEq] at h
              obtain ⟨rfl, _⟩ := h
              exact ⟨rfl, rfl,
                fun hs => confined_of_sublist hs rfl rfl (List.Sublist.refl _)⟩
      · simp only [Option.some.injEq, Prod.mk.injEq] at h
        obtain ⟨rfl, _⟩ := h
        exact ⟨rfl, rfl, id⟩

theorem cleanupLoop_confined {o : Opts} {now : Int} {ks : List Nat} {s s' : Subnet}
    {em ei em' ei' : Nat} (h : cleanupLoop o now s ks em ei = some (s', em', ei')) :
    s'.RangeStart = s.RangeStart ∧ s'.RangeEnd = s.RangeEnd ∧ (s.Confined → s'.Confined) := by
  induction ks generalizing s em ei with
  | nil =>
    simp only [cleanupLoop, Option.some.injEq, Prod.mk.injEq] at h
    obtain ⟨rfl, _⟩ := h
    exact ⟨rfl, rfl, id⟩
  | cons k rest ih =>
    simp only [cleanupLoop] at h
    cases hstep : cleanupStep o now s k with
    | none => rw [hstep] at h; cases h
    | some res =>
      obtain ⟨s1, dm, di⟩ := res
      rw [hstep] at h
      obtain ⟨h1, h2, h3⟩ := cleanupStep_confined hstep
      obtain ⟨h4, h5, h6⟩ := ih h
      exact ⟨h4.trans h1, h5.trans h2, fun hs => h6 (h3 hs)⟩

theorem ReachableIn_confined {o : Opts} {s : Subnet} (h : ReachableIn o s)
    (h32 : s.RangeEnd + 1 < 2 ^ 32) : s.Confined := by
  induction h with
  | init s hip _ =>
    unfold Subnet.Confined
    rw [hip]
    exact ⟨List.nodup_nil, fun k hk => absurd hk (List.not_mem_nil _)⟩
  | leaseFind fuel now rands Ctx Ctx' s' _ hr hstep ih =>
    have hE := (LeaseFind_range hstep).2
    rw [hE] at h32
    exact LeaseFind_confined (ih h32) h32 hr hstep
  | leaseCheckAndUpdate now Ctx Ctx' s' ops _ hstep ih =>
    obtain ⟨_, hE, hc⟩ := LeaseCheckAndUpdate_confined hstep
    rw [hE] at h32
    exact hc (ih h32)
  | leaseCheckAndDelete Ctx s' ops _ hstep ih =>
    obtain ⟨_, hE, hc⟩ := LeaseCheckAndDelete_confined hstep
    rw [hE] at h32
    exact hc (ih h32)
  | cleanupExpired now s' em ei _ hstep ih =>
    obtain ⟨_, hE, hc⟩ := cleanupLoop_confined hstep
    rw [hE] at h32
    exact hc (ih h32)

theorem length_le_of_nodup_range {l : List Nat} {a b : Nat} (hn : l.Nodup)
    (hr : ∀ k ∈ l, a ≤ k ∧ k ≤ b) : l.length ≤ b + 1 - a := by
  have h1 : l.toFinset ⊆ Finset.Icc a b := by
    intro k hk
    rw [List.mem_toFinset] at hk
    rw [Finset.mem_Icc]
    exact hr k hk
  have h2 := Finset.card_le_card h1
  rw [List.toFinset_card_of_nodup hn, Nat.card_Icc] at h2
  exact h2

/-- The capacity bound holds in every state reached with the random probes
inside the range, for a range that ends below the largest `uint32`: the by-IP
index has at most `range_end - range_start + 1` entries, which is the value of
`Subnet.Capacity` when the range is not inverted. -/
theorem capacity_bound (o : Opts) (s : Subnet) (h : ReachableIn o s)
    (h32 : s.RangeEnd + 1 < 2 ^ 32) :
    s.LeasesByIP.length ≤ s.RangeEnd + 1 - s.RangeStart ∧
      (s.RangeStart ≤ s.RangeEnd + 1 → (s.LeasesByIP.length : Int) ≤ s.Capacity) := by
  obtain ⟨hn, hr⟩ := ReachableIn_confined h h32
  have hlen : s.LeasesByIP.length ≤ s.RangeEnd + 1 - s.RangeStart := by
    have := length_le_of_nodup_range hn hr
    simpa [GoMap.keys] using this
  refine ⟨hlen, ?_⟩
  intro hle
  unfold Subnet.Capacity
  omega

theorem exOne_reachableIn : ReachableIn exOpts exOne :=
  ReachableIn.leaseFind 3 0 [] _ _ _ (ReachableIn.init exEmpty rfl rfl)
    (fun _ h => absurd h (List.not_mem_nil _)) exOne_step

theorem exEdgeTwo_reachableIn : ReachableIn exOpts exEdgeTwo :=
  ReachableIn.leaseFind 3 10 [] _ _ _
    (ReachableIn.leaseFind 3 0 [] _ _ _ (ReachableIn.init exEdge rfl rfl)
      (fun _ h => absurd h (List.not_mem_nil _)) exEdgeOne_step)
    (fun _ h => absurd h (List.not_mem_nil _)) exEdgeTwo_step

theorem capacity_bound_witness :
    ReachableIn exOpts exOne ∧ exOne.RangeEnd + 1 < 2 ^ 32 ∧
      exOne.LeasesByIP.length ≤ exOne.RangeEnd + 1 - exOne.RangeStart ∧
      (exOne.RangeStart ≤ exOne.RangeEnd + 1 →
        (exOne.LeasesByIP.length : Int) ≤ exOne.Capacity) :=
  ⟨exOne_reachableIn, by decide, capacity_bound exOpts exOne exOne_reachableIn (by decide)⟩

/-- C14, the code at the failing input.  The subnet `exEdgeTwo`, whose range is
the single address `255.255.255.255`, is reached from empty indices by two
DISCOVERs without random probes; its capacity is `1` and its by-IP index has
two entries, the second under `0.0.0.0`, where the `uint32` scan went on after
it wrapped past `range_end`. -/
theorem capacity_exceeded_by_wraparound :
    ReachableIn exOpts exEdgeTwo ∧ exEdgeTwo.Capacity = 1 ∧
      exEdgeTwo.LeasesByIP.length = 2 ∧ GoMap.keys exEdgeTwo.LeasesByIP = [0, 4294967295] :=
  ⟨exEdgeTwo_reachableIn, by decide, by decide, by decide⟩

/-! ## C15: cleanup -/

theorem valid_of_inv {s : Subnet} (hF : s.Forward) (hM : s.MacKeyed) : s.Valid := by
  constructor
  · intro ip p h
    obtain ⟨L, hL, _⟩ := hF ip p h
    exact heap_lt hL
  · intro mac p h
    obtain ⟨L, hL, _⟩ := hM mac p h
    exact heap_lt hL

/-- What one iteration of the cleanup loop does, when it returns. -/
theorem cleanupStep_spec {o : Opts} {now : Int} {s s' : Subnet} {mac dm di : Nat}
    (h : cleanupStep o now s mac = some (s', dm, di)) :
    s'.heap = s.heap ∧
      (∀ m p, GoMap.lookup s'.LeasesByMAC m = some p → GoMap.lookup s.LeasesByMAC m = some p) ∧
      (∀ ip p, GoMap.lookup s'.LeasesByIP ip = some p → GoMap.lookup s.LeasesByIP ip = some p) ∧
      (∀ p L, GoMap.lookup s'.LeasesByMAC mac = some p → s.heap[p]? = some L →
        ¬ L.tooOld o now) ∧
      (∀ m p L, GoMap.lookup s.LeasesByMAC m = some p → s.heap[p]? = some L →
        ¬ L.tooOld o now → GoMap.lookup s'.LeasesByMAC m = some p) := by
  unfold cleanupStep at h
  cases hp : GoMap.lookup s.LeasesByMAC mac with
  | none =>
    rw [hp] at h
    simp only [Option.some.injEq, Prod.mk.injEq] at h
    obtain ⟨rfl, _⟩ := h
    refine ⟨rfl, fun _ _ hh => hh, fun _ _ hh => hh, ?_, fun _ _ _ hh _ _ => hh⟩
    intro p L hl
    rw [hp] at hl
    cases hl
  | some p0 =>
    rw [hp] at h
    simp only at h
    cases hl : s.heap[p0]? with
    | none => rw [hl] at h; cases h
    | some l =>
      rw [hl] at h
      simp only at h
      by_cases hold : now - l.Expires > o.DHCPCleanupAge
      · rw [if_pos hold] at h
        -- the by-MAC entry of `mac` is deleted in every branch that returns
        have hmacdel : s'.heap = s.heap ∧
            s'.LeasesByMAC = GoMap.delete s.LeasesByMAC mac ∧
            (s'.LeasesByIP = s.LeasesByIP ∨
              s'.LeasesByIP = GoMap.delete s.LeasesByIP l.IP) := by
          cases hq : GoMap.lookup s.LeasesByIP l.IP with
          | none =>
            rw [hq] at h
            simp only [Option.some.injEq, Prod.mk.injEq] at h
            obtain ⟨rfl, _⟩ := h
            exact ⟨rfl, rfl, Or.inl rfl⟩
          | some q =>
            rw [hq] at h
            simp only at h
            cases hL : s.heap[q]? with
            | none => rw [hL] at h; cases h
            | some L =>
              rw [hL] at h
              simp only at h
              by_cases hsame : L.MAC = l.MAC
              · rw [if_pos hsame] at h
                simp only [Option.some.injEq, Prod.mk.injEq] at h
                obtain ⟨rfl, _⟩ := h
                exact ⟨rfl, rfl, Or.inr rfl⟩
              · rw [if_neg hsame] at h
                simp only [Option.some.injEq, Prod.mk.injEq] at h
                obtain ⟨rfl, _⟩ := h
                exact ⟨rfl, rfl, Or.inl rfl⟩
        obtain ⟨hheap, hmac, hip⟩ := hmacdel
        refine ⟨hheap, ?_, ?_, ?_, ?_⟩
        · intro m p hh
          rw [hmac] at hh
          exact (GoMap.lookup_delete_some _ hh).2
        · intro ip p hh
          rcases hip with hip | hip
          · rw [hip] at hh; exact hh
          · rw [hip] at hh; exact (GoMap.lookup_delete_some _ hh).2
        · intro p L hh
          rw [hmac, GoMap.lookup_delete_self] at hh
          cases hh
        · intro m p L hm hL hnot
          have hne : m ≠ mac := by
            intro heq
            rw [heq, hp] at hm
            cases hm
            rw [hl] at hL
            cases hL
            exact hnot hold
          rw [hmac, GoMap.lookup_delete_ne _ hne]
          exact hm
      · rw [if_neg hold] at h
        simp only [Option.some.injEq, Prod.mk.injEq] at h
        obtain ⟨rfl, _⟩ := h
        refine ⟨rfl, fun _ _ hh => hh, fun _ _ hh => hh, ?_, fun _ _ _ hh _ _ => hh⟩
        intro p L hh hL
        rw [hp] at hh
        cases hh
        rw [hl] at hL
        cases hL
        exact hold

theorem cleanupStep_returns (o : Opts) (now : Int) {s : Subnet} (mac : Nat) (hV : s.Valid) :
    ∃ r, cleanupStep o now s mac = some r := by
  unfold cleanupStep
  cases hp : GoMap.lookup s.LeasesByMAC mac with
  | none => exact ⟨_, rfl⟩
  | some p =>
    simp only
    have hlt : p < s.heap.length := hV.2 _ _ hp
    obtain ⟨l, hl⟩ : ∃ l, s.heap[p]? = some l := ⟨s.heap[p], List.getElem?_eq_getElem hlt⟩
    rw [hl]
    simp only
    split
    · cases hq : GoMap.lookup s.LeasesByIP l.IP with
      | none => exact ⟨_, rfl⟩
      | some q =>
        simp only
        have hqlt : q < s.heap.length := hV.1 _ _ hq
        obtain ⟨L, hL⟩ : ∃ L, s.heap[q]? = some L := ⟨s.heap[q], List.getElem?_eq_getElem hqlt⟩
        rw [hL]
        simp only
        split <;> exact ⟨_, rfl⟩
    · exact ⟨_, rfl⟩

/-- The cleanup loop over the keys `ks` returns on a state whose pointers are
valid; it leaves the heap alone, only removes entries, leaves no too-old lease
under a visited key, and keeps every by-MAC entry that is not too old. -/
theorem cleanupLoop_spec (o : Opts) (now : Int) (ks : List Nat) :
    ∀ (s : Subnet) (em ei : Nat), s.Valid →
      ∃ s' em' ei', cleanupLoop o now s ks em ei = some (s', em', ei') ∧
        s'.heap = s.heap ∧
        (∀ m p, GoMap.lookup s'.LeasesByMAC m = some p →
          GoMap.lookup s.LeasesByMAC m = some p) ∧
        (∀ ip p, GoMap.lookup s'.LeasesByIP ip = some p →
          GoMap.lookup s.LeasesByIP ip = some p) ∧
        (∀ m ∈ ks, ∀ p L, GoMap.lookup s'.LeasesByMAC m = some p → s.heap[p]? = some L →
          ¬ L.tooOld o now) ∧
        (∀ m p L, GoMap.lookup s.LeasesByMAC m = some p → s.heap[p]? = some L →
          ¬ L.tooOld o now → GoMap.lookup s'.LeasesByMAC m = some p) := by
  induction ks with
  | nil =>
    intro s em ei _
    exact ⟨s, em, ei, rfl, rfl, fun _ _ h => h, fun _ _ h => h,
      fun m hm => absurd hm (List.not_mem_nil _), fun _ _ _ h _ _ => h⟩
  | cons k rest ih =>
    intro s em ei hV
    obtain ⟨r, hr⟩ := cleanupStep_returns o now k hV
    obtain ⟨s1, dm, di⟩ := r
    obtain ⟨h1, h2, h3, h4, h5⟩ := cleanupStep_spec hr
    have hV1 : s1.Valid := by
      constructor
      · intro ip p h
        rw [h1]
        exact hV.1 ip p (h3 ip p h)
      · intro m p h
        rw [h1]
        exact hV.2 m p (h2 m p h)
    obtain ⟨s', em', ei', hloop, g1, g2, g3, g4, g5⟩ := ih s1 (em + dm) (ei + di) hV1
    refine ⟨s', em', ei', ?_, g1.trans h1, fun m p h => h2 m p (g2 m p h),
      fun ip p h => h3 ip p (g3 ip p h), ?_, ?_⟩
    · simp only [cleanupLoop]
      rw [hr]
      exact hloop
    · intro m hm p L hl hL
      rcases List.mem_cons.mp hm with rfl | hm'
      · exact h4 p L (g2 _ p hl) hL
      · exact g4 m hm' p L hl (by rw [h1]; exact hL)
    · intro m p L hl hL hnot
      exact g5 m p L (h5 m p L hl hL hnot) (by rw [h1]; exact hL) hnot

/-- C15. On every subnet state reachable from empty indices `CleanupExpired`
returns; with `cleanup_age = 0` no lease with `expires` earlier than `now` is
left in the by-IP or in the by-MAC index; and for any `cleanup_age` every by-MAC
entry with `now - expires <= cleanup_age` is kept, lease unchanged. -/
theorem CleanupExpired_correct (o : Opts) (now : Int) (s : Subnet) (h : Reachable o s) :
    ∃ s' em ei, CleanupExpired o now s = some (s', em, ei) ∧
      (o.DHCPCleanupAge = 0 →
        (∀ ip p L, GoMap.lookup s'.LeasesByIP ip = some p → s'.heap[p]? = some L →
          ¬ L.Expires < now) ∧
        (∀ mac p L, GoMap.lookup s'.LeasesByMAC mac = some p → s'.heap[p]? = some L →
          ¬ L.Expires < now)) ∧
      (∀ mac p L, GoMap.lookup s.LeasesByMAC mac = some p → s.heap[p]? = some L →
        now - L.Expires ≤ o.DHCPCleanupAge →
        GoMap.lookup s'.LeasesByMAC mac = some p ∧ s'.heap[p]? = some L) := by
  obtain ⟨hF, hM⟩ := Reachable_inv h
  obtain ⟨s', em, ei, hrun, h1, h2, _, h4, h5⟩ :=
    cleanupLoop_spec o now (GoMap.keys s.LeasesByMAC) s 0 0 (valid_of_inv hF hM)
  obtain ⟨hF', _⟩ := cleanupLoop_inv hF hM hrun
  have hmacClean : ∀ mac p L, GoMap.lookup s'.LeasesByMAC mac = some p →
      s'.heap[p]? = some L → ¬ L.tooOld o now := by
    intro mac p L hl hL
    exact h4 mac (GoMap.mem_keys_of_lookup _ (h2 mac p hl)) p L hl (by rw [← h1]; exact hL)
  refine ⟨s', em, ei, hrun, ?_, ?_⟩
  · intro hage
    have hiff : ∀ L : Lease, ¬ L.tooOld o now → ¬ L.Expires < now := by
      intro L hn hlt
      apply hn
      unfold Lease.tooOld
      rw [hage]
      omega
    constructor
    · intro ip p L hl hL
      obtain ⟨L', hL', _, hback⟩ := hF' ip p hl
      rw [hL] at hL'
      cases hL'
      exact hiff L (hmacClean L.MAC p L hback hL)
    · intro mac p L hl hL
      exact hiff L (hmacClean mac p L hl hL)
  · intro mac p L hl hL hkeep
    refine ⟨h5 mac p L hl hL ?_, by rw [h1]; exact hL⟩
    unfold Lease.tooOld
    omega

theorem exOneZero_reachable : Reachable exOptsZero exOne :=
  Reachable.leaseFind 3 0 [] { MAC := 1 }
    { MAC := 1, IP := 167772170, LeaseSource := LEASE_SRC_RANGE } exOne
    (Reachable.init exEmpty rfl rfl) (by decide)

theorem CleanupExpired_correct_witness :
    Reachable exOptsZero exOne ∧
      CleanupExpired exOptsZero 100 exOne = some ({ exEmpty with heap := [exLeaseA] }, 1, 1) ∧
      ∃ s' em ei, CleanupExpired exOptsZero 100 exOne = some (s', em, ei) ∧
        (exOptsZero.DHCPCleanupAge = 0 →
          (∀ ip p L, GoMap.lookup s'.LeasesByIP ip = some p → s'.heap[p]? = some L →
            ¬ L.Expires < 100) ∧
          (∀ mac p L, GoMap.lookup s'.LeasesByMAC mac = some p → s'.heap[p]? = some L →
            ¬ L.Expires < 100)) ∧
        (∀ mac p L, GoMap.lookup exOne.LeasesByMAC mac = some p → exOne.heap[p]? = some L →
          100 - L.Expires ≤ exOptsZero.DHCPCleanupAge →
          GoMap.lookup s'.LeasesByMAC mac = some p ∧ s'.heap[p]? = some L) :=
  ⟨exOneZero_reachable, by decide,
    CleanupExpired_correct exOptsZero 100 exOne exOneZero_reachable⟩

/-! ## C16: subnet resolution, static path -/

theorem subnetFind_cons (Subnets : List (Nat × Subnet)) (RelayIP M : Nat) (rest : List Nat) :
    subnetFind Subnets RelayIP (M :: rest) =
      if maskHit Subnets RelayIP M = true then some (RelayIP &&& M)
      else subnetFind Subnets RelayIP rest := by
  unfold maskHit
  simp only [subnetFind]
  cases h : GoMap.lookup Subnets (RelayIP &&& M) with
  | none => simp
  | some sn =>
    simp only
    by_cases hm : sn.Mask = M
    · simp [hm]
    · simp [hm]

theorem subnetFind_none {Subnets : List (Nat × Subnet)} {RelayIP : Nat} {masks : List Nat}
    (h : ∀ M ∈ masks, maskHit Subnets RelayIP M = false) :
    subnetFind Subnets RelayIP masks = none := by
  induction masks with
  | nil => rfl
  | cons M rest ih =>
    rw [subnetFind_cons, h M (List.mem_cons_self _ _)]
    simp only [Bool.false_eq_true, if_false]
    exact ih (fun M' hM' => h M' (List.mem_cons_of_mem _ hM'))

theorem subnetFind_first {Subnets : List (Nat × Subnet)} {RelayIP : Nat}
    (pre : List Nat) (M : Nat) (post : List Nat)
    (hpre : ∀ M' ∈ pre, maskHit Subnets RelayIP M' = false)
    (hM : maskHit Subnets RelayIP M = true) :
    subnetFind Subnets RelayIP (pre ++ M :: post) = some (RelayIP &&& M) := by
  induction pre with
  | nil =>
    rw [List.nil_append, subnetFind_cons, if_pos hM]
  | cons M' rest ih =>
    rw [List.cons_append, subnetFind_cons, hpre M' (List.mem_cons_self _ _)]
    simp only [Bool.false_eq_true, if_false]
    exact ih (fun M'' h => hpre M'' (List.mem_cons_of_mem _ h))

/-- A key the mask loop returns comes from the first mask of the list that hits. -/
theorem subnetFind_some {Subnets : List (Nat × Subnet)} {RelayIP : Nat} {masks : List Nat}
    {key : Nat} (h : subnetFind Subnets RelayIP masks = some key) :
    ∃ pre M post, masks = pre ++ M :: post ∧ key = RelayIP &&& M ∧
      maskHit Subnets RelayIP M = true ∧ ∀ M' ∈ pre, maskHit Subnets RelayIP M' = false := by
  induction masks with
  | nil => cases h
  | cons M rest ih =>
    rw [subnetFind_cons] at h
    by_cases hM : maskHit Subnets RelayIP M = true
    · rw [if_pos hM] at h
      cases h
      exact ⟨[], M, rest, rfl, rfl, hM, fun _ hm => absurd hm (List.not_mem_nil _)⟩
    · rw [if_neg hM] at h
      obtain ⟨pre, M0, post, h1, h2, h3, h4⟩ := ih h
      refine ⟨M :: pre, M0, post, by rw [h1]; rfl, h2, h3, ?_⟩
      intro M' hM'
      rcases List.mem_cons.mp hM' with rfl | hM''
      · simpa using hM
      · exact h4 M' hM''

theorem maskHit_true {Subnets : List (Nat × Subnet)} {RelayIP M : Nat}
    (h : maskHit Subnets RelayIP M = true) :
    ∃ sn, GoMap.lookup Subnets (RelayIP &&& M) = some sn ∧ sn.Mask = M := by
  unfold maskHit at h
  cases hl : GoMap.lookup Subnets (RelayIP &&& M) with
  | none => rw [hl] at h; cases h
  | some sn =>
    rw [hl] at h
    exact ⟨sn, rfl, of_decide_eq_true h⟩

/-- C16. For a segment whose directory maps every key to a subnet whose net is
that key: `ObtainSubnet` returns the subnet found for the first mask `M` of the
mask list for which `by_net[relay_ip AND M]` exists and has mask exactly `M`, so
`relay_ip AND S.mask = S.net` for the subnet `S` returned and no earlier mask
has such a subnet; without automode a returned subnet always comes from such a
mask, so a directory hit with another mask is never returned; and when no mask
qualifies and automode is off no subnet is returned and nothing changes. -/
theorem ObtainSubnet_static (c : ReqCtx) (Seg : Segment)
    (hdir : ∀ key sn, GoMap.lookup Seg.Subnets key = some sn → sn.Net = key) :
    (∀ pre M post, Seg.Masks = pre ++ M :: post →
      (∀ M' ∈ pre, maskHit Seg.Subnets c.RelayIP M' = false) →
      maskHit Seg.Subnets c.RelayIP M = true →
      ∃ sn, c.ObtainSubnet Seg = ({ c with Subnet := some (c.RelayIP &&& M) }, Seg, []) ∧
        GoMap.lookup Seg.Subnets (c.RelayIP &&& M) = some sn ∧ sn.Mask = M ∧
        c.RelayIP &&& sn.Mask = sn.Net) ∧
    (∀ key, c.Subnet = none → Seg.AutoMode = false →
      (c.ObtainSubnet Seg).1.Subnet = some key →
      ∃ pre M post sn, Seg.Masks = pre ++ M :: post ∧ key = c.RelayIP &&& M ∧
        (∀ M' ∈ pre, maskHit Seg.Subnets c.RelayIP M' = false) ∧
        GoMap.lookup Seg.Subnets key = some sn ∧ sn.Mask = M ∧
        c.RelayIP &&& sn.Mask = sn.Net) ∧
    (c.Subnet = none → Seg.AutoMode = false →
      (∀ M ∈ Seg.Masks, maskHit Seg.Subnets c.RelayIP M = false) →
      c.ObtainSubnet Seg = (c, Seg, []) ∧ (c.ObtainSubnet Seg).1.Subnet = none) := by
  refine ⟨?_, ?_, ?_⟩
  · intro pre M post hmasks hpre hM
    obtain ⟨sn, hl, hmask⟩ := maskHit_true hM
    refine ⟨sn, ?_, hl, hmask, ?_⟩
    · unfold ReqCtx.ObtainSubnet
      rw [hmasks, subnetFind_first pre M post hpre hM]
    · rw [hmask, hdir _ sn hl]
  · intro key hc hauto hres
    unfold ReqCtx.ObtainSubnet at hres
    cases hf : subnetFind Seg.Subnets c.RelayIP Seg.Masks with
    | none =>
      rw [hf] at hres
      simp only [hauto, if_true] at hres
      rw [hc] at hres
      cases hres
    | some k =>
      rw [hf] at hres
      simp only [Option.some.injEq] at hres
      subst hres
      obtain ⟨pre, M, post, h1, h2, h3, h4⟩ := subnetFind_some hf
      obtain ⟨sn, hl, hmask⟩ := maskHit_true h3
      refine ⟨pre, M, post, sn, h1, h2, h4, by rw [h2]; exact hl, hmask, ?_⟩
      rw [hmask, hdir _ sn hl]
  · intro hc hauto hnone
    have hres : c.ObtainSubnet Seg = (c, Seg, []) := by
      unfold ReqCtx.ObtainSubnet
      rw [subnetFind_none hnone]
      simp only [hauto, if_true]
    exact ⟨hres, by rw [hres]; exact hc⟩

theorem ObtainSubnet_static_witness :
    (∀ key sn, GoMap.lookup exSegmentA.Subnets key = some sn → sn.Net = key) ∧
      exSegmentA.Masks = [] ++ 4294967040 :: [] ∧
      maskHit exSegmentA.Subnets 167772161 4294967040 = true ∧
      ∃ sn, ({ MAC := 5, RelayIP := 167772161 } : ReqCtx).ObtainSubnet exSegmentA =
          ({ MAC := 5, RelayIP := 167772161, Subnet := some (167772161 &&& 4294967040) },
            exSegmentA, []) ∧
        GoMap.lookup exSegmentA.Subnets (167772161 &&& 4294967040) = some sn ∧
        sn.Mask = 4294967040 ∧ 167772161 &&& sn.Mask = sn.Net := by
  have hdir : ∀ key sn, GoMap.lookup exSegmentA.Subnets key = some sn → sn.Net = key := by
    intro key sn h
    have hmem := GoMap.mem_of_lookup _ h
    have hall : ∀ e ∈ exSegmentA.Subnets, e.2.Net = e.1 := by decide
    exact hall _ hmem
  exact ⟨hdir, rfl, by decide,
    (ObtainSubnet_static { MAC := 5, RelayIP := 167772161 } exSegmentA hdir).1 []
      4294967040 [] rfl (fun _ h => absurd h (List.not_mem_nil _)) (by decide)⟩

/-! ## C17: subnet resolution, automode path -/

theorem subnetFind_none_iff {Subnets : List (Nat × Subnet)} {RelayIP : Nat} {masks : List Nat} :
    subnetFind Subnets RelayIP masks = none ↔
      ∀ M ∈ masks, maskHit Subnets RelayIP M = false := by
  constructor
  · intro h
    induction masks with
    | nil => intro M hM; exact absurd hM (List.not_mem_nil _)
    | cons M0 rest ih =>
      rw [subnetFind_cons] at h
      by_cases h0 : maskHit Subnets RelayIP M0 = true
      · rw [if_pos h0] at h; cases h
      · rw [if_neg h0] at h
        intro M hM
        rcases List.mem_cons.mp hM with rfl | hM'
        · simpa using h0
        · exact ih h M hM'
  · exact subnetFind_none

/-- The automode path of `ObtainSubnet`: what it returns and stores, and what
stays of the directory.  Entries under other keys are kept; when the key was
absent nothing is lost, and a second call with the same relay address finds the
stored subnet and changes nothing, provided the automode mask is in the mask
list (`LoadSegments` puts it there). -/
theorem ObtainSubnet_automode (c c2 : ReqCtx) (Seg : Segment)
    (hnone : subnetFind Seg.Subnets c.RelayIP Seg.Masks = none) (hauto : Seg.AutoMode = true)
    (hrelay : c2.RelayIP = c.RelayIP) :
    ∃ Seg', c.ObtainSubnet Seg =
        ({ c with Subnet := some (c.RelayIP &&& Seg.AutoModeMask) }, Seg',
          [MirrorOp.subnetUpload (c.RelayIP &&& Seg.AutoModeMask)]) ∧
      GoMap.lookup Seg'.Subnets (c.RelayIP &&& Seg.AutoModeMask) =
        some (GenerateAutoSubnet (c.RelayIP &&& Seg.AutoModeMask) Seg) ∧
      (∀ k, k ≠ c.RelayIP &&& Seg.AutoModeMask →
        GoMap.lookup Seg'.Subnets k = GoMap.lookup Seg.Subnets k) ∧
      (Seg.AutoModeMask ∈ Seg.Masks →
        c2.ObtainSubnet Seg' =
          ({ c2 with Subnet := some (c.RelayIP &&& Seg.AutoModeMask) }, Seg', [])) := by
  have hGnet : ∀ n, (GenerateAutoSubnet n Seg).Net = n := fun _ => rfl
  have hGmask : ∀ n, (GenerateAutoSubnet n Seg).Mask = Seg.AutoModeMask := fun _ => rfl
  have hres : c.ObtainSubnet Seg =
      ({ c with Subnet := some (c.RelayIP &&& Seg.AutoModeMask) },
        { Seg with Subnets := GoMap.insert Seg.Subnets (c.RelayIP &&& Seg.AutoModeMask) (GenerateAutoSubnet (c.RelayIP &&& Seg.AutoModeMask) Seg) },
        [MirrorOp.subnetUpload (c.RelayIP &&& Seg.AutoModeMask)]) := by
    unfold ReqCtx.ObtainSubnet
    rw [hnone]
    simp only [hauto, hGnet, Bool.true_eq_false, if_false]
  refine ⟨_, hres, GoMap.lookup_insert_self _ _ _,
    fun k hk => GoMap.lookup_insert_ne _ _ hk, ?_⟩
  intro hmem
  have hold := subnetFind_none_iff.mp hnone
  have hhit : ∀ M ∈ Seg.Masks,
      maskHit (GoMap.insert Seg.Subnets (c.RelayIP &&& Seg.AutoModeMask)
        (GenerateAutoSubnet (c.RelayIP &&& Seg.AutoModeMask) Seg)) c.RelayIP M =
        decide (M = Seg.AutoModeMask) := by
    intro M hM
    by_cases hk : c.RelayIP &&& M = c.RelayIP &&& Seg.AutoModeMask
    · unfold maskHit
      rw [hk, GoMap.lookup_insert_self]
      simp only [hGmask]
      by_cases hA : M = Seg.AutoModeMask
      · simp [hA]
      · have hA' : ¬ Seg.AutoModeMask = M := fun h => hA h.symm
        simp [hA, hA']
    · have hA : M ≠ Seg.AutoModeMask := fun h => hk (by rw [h])
      have h1 := hold M hM
      unfold maskHit at h1 ⊢
      rw [GoMap.lookup_insert_ne _ _ hk]
      rw [h1]
      simp [hA]
  have hfind : ∀ masks : List Nat, (∀ M ∈ masks, M ∈ Seg.Masks) → Seg.AutoModeMask ∈ masks →
      subnetFind (GoMap.insert Seg.Subnets (c.RelayIP &&& Seg.AutoModeMask)
        (GenerateAutoSubnet (c.RelayIP &&& Seg.AutoModeMask) Seg)) c.RelayIP masks =
        some (c.RelayIP &&& Seg.AutoModeMask) := by
    intro masks
    induction masks with
    | nil => intro _ h; exact absurd h (List.not_mem_nil _)
    | cons M rest ih =>
      intro hsub hin
      rw [subnetFind_cons, hhit M (hsub M (List.mem_cons_self _ _))]
      by_cases hA : M = Seg.AutoModeMask
      · simp [hA]
      · have hin' : Seg.AutoModeMask ∈ rest := by
          rcases List.mem_cons.mp hin with h | h
          · exact absurd h.symm hA
          · exact h
        simp only [hA, decide_False, Bool.false_eq_true, if_false]
        exact ih (fun M' h => hsub M' (List.mem_cons_of_mem _ h)) hin'
  unfold ReqCtx.ObtainSubnet
  simp only [hrelay]
  rw [hfind Seg.Masks (fun _ h => h) hmem]

/-- C17, the code at the failing input.  Segment `exSegmentO` has the static
subnet `10.0.0.0/25`, which holds the lease of client `1`, and automode with
mask `255.255.255.0`.  For the relay `10.0.0.200` no mask hits (the entry under
`10.0.0.0` has another mask), `ObtainSubnet` takes the automode path and stores
the synthesized `10.0.0.0/24` under the key `10.0.0.0`: the static subnet is no
longer in the directory and the new entry has empty lease indices. -/
theorem automode_insert_replaces_static :
    subnetFind exSegmentO.Subnets 167772360 exSegmentO.Masks = none ∧
      exSegmentO.AutoMode = true ∧
      167772360 &&& exSegmentO.AutoModeMask = 167772160 ∧
      GoMap.lookup exSegmentO.Subnets 167772160 = some exHalfOne ∧
      exHalfOne.LeasesByMAC = [(1, 0)] ∧
      (({ MAC := 5, RelayIP := 167772360 } : ReqCtx).ObtainSubnet exSegmentO).1.Subnet =
        some 167772160 ∧
      (({ MAC := 5, RelayIP := 167772360 } : ReqCtx).ObtainSubnet exSegmentO).2.1.Subnets =
        [(167772160, GenerateAutoSubnet 167772160 exSegmentO)] ∧
      (GenerateAutoSubnet 167772160 exSegmentO).LeasesByMAC = [] ∧
      (GenerateAutoSubnet 167772160 exSegmentO).LeasesByIP = [] ∧
      GenerateAutoSubnet 167772160 exSegmentO ≠ exHalfOne := by
  refine ⟨by decide, by decide, by decide, by decide, by decide, by decide, by decide,
    by decide, by decide, by decide⟩

/-! ## Cache reload -/

theorem segmentById_spec {S : List Segment} {id i : Nat} {Seg : Segment}
    (h : segmentById S id = some (i, Seg)) : S[i]? = some Seg ∧ Seg.Id = id := by
  induction S generalizing i with
  | nil => cases h
  | cons v rest ih =>
    simp only [segmentById] at h
    by_cases hv : v.Id = id
    · rw [if_pos hv] at h
      simp only [Option.some.injEq, Prod.mk.injEq] at h
      obtain ⟨rfl, rfl⟩ := h
      exact ⟨by simp, hv⟩
    · rw [if_neg hv] at h
      cases hr : segmentById rest id with
      | none => rw [hr] at h; cases h
      | some r =>
        rw [hr] at h
        simp only [Option.map_some', Option.some.injEq, Prod.mk.injEq] at h
        obtain ⟨rfl, rfl⟩ := h
        have h1 := ih (i := r.1) (by rw [hr])
        exact ⟨by simpa using h1.1, h1.2⟩

/-- Writing a segment with the same id through the position `segmentById` gave:
the lookup of that id yields the new value, every other lookup is as before. -/
theorem segmentById_set {S : List Segment} {id i : Nat} {Seg Seg' : Segment}
    (h : segmentById S id = some (i, Seg)) (hid : Seg'.Id = id) :
    segmentById (S.set i Seg') id = some (i, Seg') ∧
      ∀ id', id' ≠ id → segmentById (S.set i Seg') id' = segmentById S id' := by
  induction S generalizing i with
  | nil => cases h
  | cons v rest ih =>
    simp only [segmentById] at h
    by_cases hv : v.Id = id
    · rw [if_pos hv] at h
      simp only [Option.some.injEq, Prod.mk.injEq] at h
      obtain ⟨rfl, rfl⟩ := h
      refine ⟨by simp [segmentById, hid], ?_⟩
      intro id' hne
      have h1 : ¬ Seg'.Id = id' := fun h => hne (by rw [← h, hid])
      have h2 : ¬ v.Id = id' := fun h => hne (by rw [← h, hv])
      simp [segmentById, h1, h2]
    · rw [if_neg hv] at h
      cases hr : segmentById rest id with
      | none => rw [hr] at h; cases h
      | some r =>
        rw [hr] at h
        simp only [Option.map_some', Option.some.injEq, Prod.mk.injEq] at h
        obtain ⟨rfl, rfl⟩ := h
        have h1 := ih (i := r.1) (by rw [hr])
        refine ⟨by simp [segmentById, hv, h1.1], ?_⟩
        intro id' hne
        simp only [List.set_cons_succ, segmentById]
        rw [h1.2 id' hne]

theorem GoMap.lookup_cons {V : Type} (a : Nat) (b : V) (t : List (Nat × V)) (k : Nat) :
    GoMap.lookup ((a, b) :: t) k = if a = k then some b else GoMap.lookup t k := rfl

theorem GoMap.lookup_replace {V : Type} (m : List (Nat × V)) (k k' : Nat) (v : V) :
    GoMap.lookup (GoMap.replace m k v) k' =
      if k' = k then (GoMap.lookup m k).map (fun _ => v) else GoMap.lookup m k' := by
  induction m with
  | nil => simp [GoMap.replace, GoMap.lookup]
  | cons e t ih =>
    obtain ⟨a, b⟩ := e
    have hcons : GoMap.replace ((a, b) :: t) k v =
        (if a = k then (k, v) else (a, b)) :: GoMap.replace t k v := rfl
    rw [hcons]
    by_cases ha : a = k
    · rw [if_pos ha, GoMap.lookup_cons, GoMap.lookup_cons, GoMap.lookup_cons, ih]
      subst ha
      by_cases hk : k' = a
      · subst hk; simp
      · have hk' : ¬ a = k' := fun h => hk h.symm
        simp [hk, hk']
    · rw [if_neg ha, GoMap.lookup_cons, GoMap.lookup_cons, GoMap.lookup_cons, ih]
      by_cases hk : k' = k
      · subst hk; simp [ha]
      · simp [hk]

theorem GoMap.lookup_none_of_not_mem {V : Type} (m : List (Nat × V)) {k : Nat}
    (h : k ∉ GoMap.keys m) : GoMap.lookup m k = none := by
  cases hl : GoMap.lookup m k with
  | none => rfl
  | some v => exact absurd (GoMap.mem_keys_of_lookup m hl) h

/-- The loop of `DeleteDynamicSubnets`: a visited key keeps its entry exactly
when the subnet is not dynamic, the other keys are untouched. -/
theorem deleteDynamicLoop_lookup (ks : List Nat) (m : List (Nat × Subnet)) (k : Nat) :
    GoMap.lookup (deleteDynamicLoop ks m) k =
      if k ∈ ks then (GoMap.lookup m k).filter (fun sn => !sn.Dynamic)
      else GoMap.lookup m k := by
  induction ks generalizing m with
  | nil => simp [deleteDynamicLoop]
  | cons k0 rest ih =>
    simp only [deleteDynamicLoop]
    cases h0 : GoMap.lookup m k0 with
    | none =>
      simp only
      rw [ih]
      by_cases hk : k = k0
      · subst hk
        simp [h0]
      · simp [hk]
    | some sn =>
      simp only
      by_cases hd : sn.Dynamic = true
      · rw [if_pos hd, ih]
        by_cases hk : k = k0
        · subst hk
          simp [GoMap.lookup_delete_self, h0, hd, Option.filter]
        · rw [GoMap.lookup_delete_ne _ hk]
          simp [hk]
      · rw [if_neg hd, ih]
        by_cases hk : k = k0
        · subst hk
          by_cases hr : k ∈ rest
          · simp [hr]
          · simp [hr, h0, hd, Option.filter]
        · simp [hk]

theorem DeleteDynamicSubnets_lookup (s : Segment) (k : Nat) :
    GoMap.lookup s.DeleteDynamicSubnets.Subnets k =
      (GoMap.lookup s.Subnets k).filter (fun sn => !sn.Dynamic) := by
  unfold Segment.DeleteDynamicSubnets
  simp only
  rw [deleteDynamicLoop_lookup]
  by_cases hk : k ∈ GoMap.keys s.Subnets
  · rw [if_pos hk]
  · rw [if_neg hk, GoMap.lookup_none_of_not_mem _ hk]
    rfl

theorem reloadLocked_error (now : Int) (mirror : Mirror) (Segments : List Segment) :
    (reloadLocked now mirror Segments).1 ≠ some ReloadError.inProgress := by
  unfold reloadLocked
  simp only
  cases h1 : SubnetsDownloadFromAerospike mirror.Subnets
      (Segments.map Segment.DeleteDynamicSubnets) with
  | mk e1 S2 =>
    cases e1 with
    | some e => simp
    | none =>
      simp only
      cases h2 : LeasesDownloadFromAerospike now mirror.Leases S2 with
      | mk e2 S3 =>
        cases e2 with
        | some e => simp
        | none => simp

/-- C18, the code at the failing input.  Called while no reload is in progress
(flag clear), `CacheReload` returns the error "Cache reload already in
progress" without touching the segment table and leaves the flag set; called
with the flag set it does not return that error: it runs the reload and clears
the flag. -/
theorem reload_guard_inverted (now : Int) (mirror : Mirror) (Segments : List Segment) :
    CacheReload now false mirror Segments = (some ReloadError.inProgress, true, Segments) ∧
      CacheReload now true mirror Segments =
        ((reloadLocked now mirror Segments).1, false, (reloadLocked now mirror Segments).2) ∧
      (CacheReload now true mirror Segments).1 ≠ some ReloadError.inProgress := by
  have h2 : CacheReload now true mirror Segments =
      ((reloadLocked now mirror Segments).1, false, (reloadLocked now mirror Segments).2) := rfl
  refine ⟨rfl, h2, ?_⟩
  rw [h2]
  exact reloadLocked_error now mirror Segments

/-! ## C20: dynamic subnets across a reload -/

/-- One record of the subnet import, seen from a segment id: the segment keeps
its position and everything but its directory; every entry of the directory is
kept; a new entry is the subnet synthesized for its key; and the record's own
key is present afterwards when the segment has automode. -/
theorem subnetImport_spec (S : List Segment) (r : SubnetRecord) {id i : Nat} {Seg : Segment}
    (h : segmentById S id = some (i, Seg)) :
    ∃ subs, segmentById (subnetImport S r) id = some (i, { Seg with Subnets := subs }) ∧
      (∀ k sn, GoMap.lookup Seg.Subnets k = some sn → GoMap.lookup subs k = some sn) ∧
      (∀ k sn, GoMap.lookup subs k = some sn →
        GoMap.lookup Seg.Subnets k = some sn ∨
          (GoMap.lookup Seg.Subnets k = none ∧ sn = GenerateAutoSubnet k Seg)) ∧
      (id = r.SegmentId → Seg.AutoMode = true → GoMap.lookup Seg.Subnets r.NetAddr = none →
        GoMap.lookup subs r.NetAddr = some (GenerateAutoSubnet r.NetAddr Seg)) := by
  have triv : subnetImport S r = S →
      (id = r.SegmentId → Seg.AutoMode = true → GoMap.lookup Seg.Subnets r.NetAddr = none →
        False) →
      ∃ subs, segmentById (subnetImport S r) id = some (i, { Seg with Subnets := subs }) ∧
        (∀ k sn, GoMap.lookup Seg.Subnets k = some sn → GoMap.lookup subs k = some sn) ∧
        (∀ k sn, GoMap.lookup subs k = some sn →
          GoMap.lookup Seg.Subnets k = some sn ∨
            (GoMap.lookup Seg.Subnets k = none ∧ sn = GenerateAutoSubnet k Seg)) ∧
        (id = r.SegmentId → Seg.AutoMode = true → GoMap.lookup Seg.Subnets r.NetAddr = none →
          GoMap.lookup subs r.NetAddr = some (GenerateAutoSubnet r.NetAddr Seg)) := by
    intro heq hno
    refine ⟨Seg.Subnets, by rw [heq]; exact h, fun _ _ hk => hk, fun _ _ hk => Or.inl hk, ?_⟩
    intro h1 h2 h3
    exact (hno h1 h2 h3).elim
  cases hs : segmentById S r.SegmentId with
  | none =>
    apply triv
    · unfold subnetImport; rw [hs]
    · intro hid _ _
      rw [hid, hs] at h
      cases h
  | some p =>
    obtain ⟨j, SegR⟩ := p
    by_cases hauto : SegR.AutoMode = false
    · apply triv
      · unfold subnetImport; rw [hs]; simp only [hauto, if_true]
      · intro hid ha _
        rw [hid, hs] at h
        simp only [Option.some.injEq, Prod.mk.injEq] at h
        rw [h.2, ha] at hauto
        cases hauto
    · have ha' : SegR.AutoMode = true := by
        cases hb : SegR.AutoMode with
        | false => exact absurd hb hauto
        | true => rfl
      cases hl : GoMap.lookup SegR.Subnets r.NetAddr with
      | some sn0 =>
        apply triv
        · unfold subnetImport; rw [hs]; simp only [ha', Bool.true_eq_false, if_false, hl]
        · intro hid _ hn
          rw [hid, hs] at h
          simp only [Option.some.injEq, Prod.mk.injEq] at h
          rw [h.2, hn] at hl
          cases hl
      | none =>
        have hres : subnetImport S r = S.set j { SegR with Subnets := GoMap.insert SegR.Subnets r.NetAddr (GenerateAutoSubnet r.NetAddr SegR) } := by
          unfold subnetImport; rw [hs]; simp only [ha', Bool.true_eq_false, if_false, hl]
        have hidR : SegR.Id = r.SegmentId := (segmentById_spec hs).2
        have hset := @segmentById_set S r.SegmentId j SegR
          { SegR with Subnets := GoMap.insert SegR.Subnets r.NetAddr (GenerateAutoSubnet r.NetAddr SegR) } hs hidR
        by_cases hid : id = r.SegmentId
        · rw [hid, hs] at h
          simp only [Option.some.injEq, Prod.mk.injEq] at h
          obtain ⟨rfl, rfl⟩ := h
          refine ⟨GoMap.insert SegR.Subnets r.NetAddr (GenerateAutoSubnet r.NetAddr SegR), ?_, ?_, ?_, ?_⟩
          · rw [hres, hid]; exact hset.1
          · intro k sn hk
            have hne : k ≠ r.NetAddr := by
              intro hkk
              rw [hkk, hl] at hk
              cases hk
            rw [GoMap.lookup_insert_ne _ _ hne]
            exact hk
          · intro k sn hk
            by_cases hkk : k = r.NetAddr
            · rw [hkk, GoMap.lookup_insert_self] at hk
              simp only [Option.some.injEq] at hk
              exact Or.inr ⟨by rw [hkk]; exact hl, by rw [hkk]; exact hk.symm⟩
            · rw [GoMap.lookup_insert_ne _ _ hkk] at hk
              exact Or.inl hk
          · intro _ _ _
            exact GoMap.lookup_insert_self _ _ _
        · refine ⟨Seg.Subnets, ?_, fun _ _ hk => hk, fun _ _ hk => Or.inl hk, ?_⟩
          · rw [hres, hset.2 id hid]
            exact h
          · intro h1 _ _
            exact absurd h1 hid

/-- The whole loop of the subnet import, seen from a segment id: the segment
keeps its position and everything but its directory, no entry is replaced or
removed, and a new entry is the subnet synthesized for its key. -/
theorem subnetsLoop_keep (items : List (ScanItem SubnetRecord)) (S : List Segment)
    {id i : Nat} {Seg : Segment} (h : segmentById S id = some (i, Seg)) :
    ∃ subs, segmentById (subnetsLoop items S) id = some (i, { Seg with Subnets := subs }) ∧
      (∀ k sn, GoMap.lookup Seg.Subnets k = some sn → GoMap.lookup subs k = some sn) ∧
      (∀ k sn, GoMap.lookup subs k = some sn →
        GoMap.lookup Seg.Subnets k = some sn ∨
          (GoMap.lookup Seg.Subnets k = none ∧ sn = GenerateAutoSubnet k Seg)) := by
  induction items generalizing S Seg with
  | nil => exact ⟨Seg.Subnets, h, fun _ _ hk => hk, fun _ _ hk => Or.inl hk⟩
  | cons it rest ih =>
    cases it with
    | err e => exact ⟨Seg.Subnets, h, fun _ _ hk => hk, fun _ _ hk => Or.inl hk⟩
    | record r =>
      obtain ⟨subs1, h1, hkeep1, hnew1, _⟩ := subnetImport_spec S r h
      obtain ⟨subs2, h2, hkeep2, hnew2⟩ := ih (subnetImport S r) h1
      refine ⟨subs2, h2, fun k sn hk => hkeep2 k sn (hkeep1 k sn hk), ?_⟩
      intro k sn hk
      rcases hnew2 k sn hk with h3 | ⟨h3, h4⟩
      · exact hnew1 k sn h3
      · cases h5 : GoMap.lookup Seg.Subnets k with
        | none => exact Or.inr ⟨rfl, h4⟩
        | some x =>
          have h6 := hkeep1 k x h5
          have h7 : GoMap.lookup subs1 k = none := h3
          rw [h7] at h6
          cases h6

/-- A scan without errors: every record whose segment is known and has automode
and whose key is absent gets the subnet synthesized for its key. -/
theorem subnetsLoop_insert (recs : List SubnetRecord) (S : List Segment)
    {id i : Nat} {Seg : Segment} (h : segmentById S id = some (i, Seg))
    (hauto : Seg.AutoMode = true) (r : SubnetRecord) (hr : r ∈ recs) (hid : r.SegmentId = id)
    (habs : GoMap.lookup Seg.Subnets r.NetAddr = none) :
    ∃ subs, segmentById (subnetsLoop (recs.map ScanItem.record) S) id =
        some (i, { Seg with Subnets := subs }) ∧
      GoMap.lookup subs r.NetAddr = some (GenerateAutoSubnet r.NetAddr Seg) := by
  induction recs generalizing S Seg with
  | nil => exact absurd hr (List.not_mem_nil _)
  | cons r0 rest ih =>
    obtain ⟨subs1, h1, hkeep1, hnew1, hins1⟩ := subnetImport_spec S r0 h
    have hstep : subnetsLoop ((r0 :: rest).map ScanItem.record) S =
        subnetsLoop (rest.map ScanItem.record) (subnetImport S r0) := rfl
    rw [hstep]
    cases hl1 : GoMap.lookup subs1 r.NetAddr with
    | some sn1 =>
      obtain ⟨subs2, h2, hkeep2, _⟩ := subnetsLoop_keep (rest.map ScanItem.record) _ h1
      refine ⟨subs2, h2, ?_⟩
      have h3 : GoMap.lookup subs2 r.NetAddr = some sn1 := hkeep2 _ _ hl1
      rcases hnew1 _ _ hl1 with h4 | ⟨_, h4⟩
      · rw [habs] at h4; cases h4
      · rw [h3, h4]
    | none =>
      have hr' : r ∈ rest := by
        rcases List.mem_cons.mp hr with h0 | h0
        · subst h0
          rw [hins1 hid.symm hauto habs] at hl1
          cases hl1
        · exact h0
      have h2 := ih (subnetImport S r0) h1 hauto hr' hl1
      exact h2

/-- C20. After `DeleteDynamicSubnets` the directory of the segment holds exactly
the entries it held before whose subnet is not dynamic.  The subnet import that
follows stores, for every record of a scan delivering no error whose segment is
known and has automode and whose network key is absent, the dynamic subnet
synthesized for that key, and whatever the scan delivers it replaces or removes
no entry that was present.  For the reload of segment `R` from `exMirror`:
`10.5.0.0/24` is gone and `10.6.0.0/24` is there with its lease. -/
theorem reload_drops_stale_dynamics (s : Segment) (S : List Segment)
    (recs : List SubnetRecord) (scan : Except String (List (ScanItem SubnetRecord))) :
    (∀ k sn, GoMap.lookup s.DeleteDynamicSubnets.Subnets k = some sn ↔
      (GoMap.lookup s.Subnets k = some sn ∧ sn.Dynamic = false)) ∧
    (∀ r ∈ recs, ∀ i Seg, segmentById S r.SegmentId = some (i, Seg) → Seg.AutoMode = true →
      GoMap.lookup Seg.Subnets r.NetAddr = none →
      ∃ Seg', segmentById
          (SubnetsDownloadFromAerospike (Except.ok (recs.map ScanItem.record)) S).2
          r.SegmentId = some (i, Seg') ∧
        GoMap.lookup Seg'.Subnets r.NetAddr = some (GenerateAutoSubnet r.NetAddr Seg) ∧
        (GenerateAutoSubnet r.NetAddr Seg).Dynamic = true) ∧
    (∀ id i Seg k sn, segmentById S id = some (i, Seg) →
      GoMap.lookup Seg.Subnets k = some sn →
      ∃ Seg', segmentById (SubnetsDownloadFromAerospike scan S).2 id = some (i, Seg') ∧
        GoMap.lookup Seg'.Subnets k = some sn) ∧
    ((CacheReload 100 true exMirror [exSegmentR]).1 = none ∧
      (CacheReload 100 true exMirror [exSegmentR]).2.1 = false ∧
      (CacheReload 100 true exMirror [exSegmentR]).2.2.map (fun Seg => Seg.Subnets) =
        [[(168165376, exDynSix)]]) := by
  refine ⟨?_, ?_, ?_, ?_⟩
  · intro k sn
    rw [DeleteDynamicSubnets_lookup]
    cases hl : GoMap.lookup s.Subnets k with
    | none => simp [Option.filter]
    | some x =>
      by_cases hd : x.Dynamic = true
      · simp only [Option.filter, hd, Bool.not_true, Bool.false_eq_true, if_false,
          Option.some.injEq]
        constructor
        · intro h; cases h
        · intro h
          rw [← h.1, hd] at h
          cases h.2
      · have hd' : x.Dynamic = false := by
          cases hb : x.Dynamic with
          | false => rfl
          | true => exact absurd hb hd
        simp only [Option.filter, hd', Bool.not_false, if_true, Option.some.injEq]
        constructor
        · intro h; exact ⟨h, by rw [← h]; exact hd'⟩
        · intro h; exact h.1
  · intro r hr i Seg hseg hauto habs
    obtain ⟨subs, h1, h2⟩ := subnetsLoop_insert recs S hseg hauto r hr rfl habs
    exact ⟨_, h1, h2, rfl⟩
  · intro id i Seg k sn hseg hl
    cases scan with
    | error e => exact ⟨Seg, hseg, hl⟩
    | ok items =>
      obtain ⟨subs, h1, h2, _⟩ := subnetsLoop_keep items S hseg
      exact ⟨_, h1, h2 k sn hl⟩
  · refine ⟨by decide, by decide, by decide⟩

theorem reload_drops_stale_dynamics_witness :
    GoMap.lookup exSegmentR.Subnets 168099840 = some exDynFive ∧ exDynFive.Dynamic = true ∧
      GoMap.lookup exSegmentR.DeleteDynamicSubnets.Subnets 168099840 = none ∧
      (∃ Seg', segmentById
          (SubnetsDownloadFromAerospike
            (Except.ok ([({ SegmentId := 5, NetAddr := 168165376 } : SubnetRecord)].map
              ScanItem.record)) [exSegmentR.DeleteDynamicSubnets]).2 5 = some (0, Seg') ∧
        GoMap.lookup Seg'.Subnets 168165376 =
          some (GenerateAutoSubnet 168165376 exSegmentR.DeleteDynamicSubnets)) := by
  have h := reload_drops_stale_dynamics exSegmentR [exSegmentR.DeleteDynamicSubnets]
    [{ SegmentId := 5, NetAddr := 168165376 }] (Except.ok [])
  refine ⟨by decide, by decide, by decide, ?_⟩
  obtain ⟨Seg', h1, h2, _⟩ := h.2.1 { SegmentId := 5, NetAddr := 168165376 }
    (List.mem_singleton.mpr rfl) 0 exSegmentR.DeleteDynamicSubnets rfl rfl (by decide)
  exact ⟨Seg', h1, h2⟩

/-! ## C19: the lease import -/

theorem GoMap.keys_replace {V : Type} (m : List (Nat × V)) (k : Nat) (v : V) :
    GoMap.keys (GoMap.replace m k v) = GoMap.keys m := by
  induction m with
  | nil => rfl
  | cons e t ih =>
    obtain ⟨a, b⟩ := e
    have hcons : GoMap.replace ((a, b) :: t) k v =
        (if a = k then (k, v) else (a, b)) :: GoMap.replace t k v := rfl
    have hk : ∀ l : List (Nat × V), GoMap.keys l = l.map Prod.fst := fun _ => rfl
    rw [hcons, hk, List.map_cons, ← hk, ih]
    by_cases ha : a = k
    · rw [if_pos ha, ha]; rfl
    · rw [if_neg ha]; rfl

theorem GoMap.delete_of_lookup_none {V : Type} (m : List (Nat × V)) {k : Nat}
    (h : GoMap.lookup m k = none) : GoMap.delete m k = m := by
  induction m with
  | nil => rfl
  | cons e t ih =>
    obtain ⟨a, b⟩ := e
    rw [GoMap.lookup_cons] at h
    by_cases ha : a = k
    · rw [if_pos ha] at h; cases h
    · rw [if_neg ha] at h
      unfold GoMap.delete at ih ⊢
      rw [List.filter_cons_of_pos (by simpa using ha), ih h]

theorem GoMap.length_insert_of_lookup_none {V : Type} (m : List (Nat × V)) {k : Nat} (v : V)
    (h : GoMap.lookup m k = none) : (GoMap.insert m k v).length = m.length + 1 := by
  unfold GoMap.insert
  rw [GoMap.delete_of_lookup_none m h]
  rfl

theorem GoMap.replace_of_not_mem {V : Type} (m : List (Nat × V)) {k : Nat} (v : V)
    (h : k ∉ GoMap.keys m) : GoMap.replace m k v = m := by
  induction m with
  | nil => rfl
  | cons e t ih =>
    obtain ⟨a, b⟩ := e
    have hcons : GoMap.replace ((a, b) :: t) k v =
        (if a = k then (k, v) else (a, b)) :: GoMap.replace t k v := rfl
    have hk : GoMap.keys ((a, b) :: t) = a :: GoMap.keys t := rfl
    rw [hk] at h
    have ha : ¬ a = k := fun e => h (by rw [e]; exact List.mem_cons_self _ _)
    rw [hcons, if_neg ha, ih (fun hm => h (List.mem_cons_of_mem _ hm))]

/-- Replacing the value under a key of a map with one entry per key changes a
sum over the entries by that value only. -/
theorem GoMap.sum_replace {V : Type} (f : V → Nat) (m : List (Nat × V)) {k : Nat} {old : V}
    (v : V) (hnd : (GoMap.keys m).Nodup) (h : GoMap.lookup m k = some old) :
    ((GoMap.replace m k v).map (fun e => f e.2)).sum + f old =
      (m.map (fun e => f e.2)).sum + f v := by
  induction m with
  | nil => cases h
  | cons e t ih =>
    obtain ⟨a, b⟩ := e
    have hcons : GoMap.replace ((a, b) :: t) k v =
        (if a = k then (k, v) else (a, b)) :: GoMap.replace t k v := rfl
    have hk : GoMap.keys ((a, b) :: t) = a :: GoMap.keys t := rfl
    rw [hk] at hnd
    have hnd' := List.nodup_cons.mp hnd
    rw [GoMap.lookup_cons] at h
    rw [hcons]
    by_cases ha : a = k
    · rw [if_pos ha] at h ⊢
      simp only [Option.some.injEq] at h
      subst h
      rw [GoMap.replace_of_not_mem t v (by rw [← ha]; exact hnd'.1)]
      simp only [List.map_cons, List.sum_cons]
      omega
    · rw [if_neg ha] at h ⊢
      have := ih hnd'.2 h
      simp only [List.map_cons, List.sum_cons]
      omega

theorem sum_map_set {α : Type} (g : α → Nat) (l : List α) {i : Nat} {x : α} (y : α)
    (h : l[i]? = some x) :
    ((l.set i y).map g).sum + g x = (l.map g).sum + g y := by
  induction l generalizing i with
  | nil => simp at h
  | cons a t ih =>
    cases i with
    | zero =>
      simp only [List.getElem?_cons_zero, Option.some.injEq] at h
      subst h
      simp only [List.set_cons_zero, List.map_cons, List.sum_cons]
      omega
    | succ j =>
      simp only [List.getElem?_cons_succ] at h
      have := ih h
      simp only [List.set_cons_succ, List.map_cons, List.sum_cons]
      omega

/-- The lease import stores a record that is not expired, names a subnet of the
table and brings a MAC its subnet does not hold. -/
theorem leaseImport_step {now : Int} {S : List Segment} {r : LeaseRecord} {i : Nat}
    {Seg : Segment} {sn : Subnet} (hlive : ¬ r.Expires < now)
    (hseg : segmentById S r.SegmentId = some (i, Seg))
    (hsn : GoMap.lookup Seg.Subnets r.NetAddr = some sn)
    (hmac : GoMap.lookup sn.LeasesByMAC r.MAC = none) :
    leaseImport now S r =
      S.set i { Seg with Subnets := GoMap.replace Seg.Subnets r.NetAddr (loadLease sn r) } := by
  unfold leaseImport
  rw [if_neg hlive, hseg]
  simp only [hsn, hmac]

theorem leaseImport_subnetAt {now : Int} {S : List Segment} {r : LeaseRecord} {i : Nat}
    {Seg : Segment} {sn : Subnet} (hlive : ¬ r.Expires < now)
    (hseg : segmentById S r.SegmentId = some (i, Seg))
    (hsn : GoMap.lookup Seg.Subnets r.NetAddr = some sn)
    (hmac : GoMap.lookup sn.LeasesByMAC r.MAC = none) (id net : Nat) :
    subnetAt (leaseImport now S r) id net =
      if id = r.SegmentId ∧ net = r.NetAddr then some (loadLease sn r)
      else subnetAt S id net := by
  rw [leaseImport_step hlive hseg hsn hmac]
  have hset := @segmentById_set S r.SegmentId i Seg
    { Seg with Subnets := GoMap.replace Seg.Subnets r.NetAddr (loadLease sn r) } hseg
    (segmentById_spec hseg).2
  unfold subnetAt
  by_cases hid : id = r.SegmentId
  · rw [hid, hset.1, hseg]
    simp only [true_and]
    rw [GoMap.lookup_replace]
    by_cases hn : net = r.NetAddr
    · rw [if_pos hn, if_pos hn, hsn]
      rfl
    · rw [if_neg hn, if_neg hn]
  · rw [hset.2 id hid]
    have hc : ¬ (id = r.SegmentId ∧ net = r.NetAddr) := fun h => hid h.1
    rw [if_neg hc]

theorem leaseImport_count {now : Int} {S : List Segment} {r : LeaseRecord} {i : Nat}
    {Seg : Segment} {sn : Subnet} (hlive : ¬ r.Expires < now)
    (hseg : segmentById S r.SegmentId = some (i, Seg))
    (hsn : GoMap.lookup Seg.Subnets r.NetAddr = some sn)
    (hmac : GoMap.lookup sn.LeasesByMAC r.MAC = none)
    (hip : GoMap.lookup sn.LeasesByIP r.IP = none)
    (hnd : (GoMap.keys Seg.Subnets).Nodup) :
    leaseCountIP (leaseImport now S r) = leaseCountIP S + 1 ∧
      leaseCountMAC (leaseImport now S r) = leaseCountMAC S + 1 := by
  rw [leaseImport_step hlive hseg hsn hmac]
  have hi := (segmentById_spec hseg).1
  constructor
  · unfold leaseCountIP
    have h1 := sum_map_set
      (fun Seg : Segment => (Seg.Subnets.map (fun e => e.2.LeasesByIP.length)).sum) S
      { Seg with Subnets := GoMap.replace Seg.Subnets r.NetAddr (loadLease sn r) } hi
    have h2 := GoMap.sum_replace (fun s : Subnet => s.LeasesByIP.length) Seg.Subnets
      (loadLease sn r) hnd hsn
    have h3 : (loadLease sn r).LeasesByIP.length = sn.LeasesByIP.length + 1 :=
      GoMap.length_insert_of_lookup_none _ _ hip
    simp only at h1 h2
    omega
  · unfold leaseCountMAC
    have h1 := sum_map_set
      (fun Seg : Segment => (Seg.Subnets.map (fun e => e.2.LeasesByMAC.length)).sum) S
      { Seg with Subnets := GoMap.replace Seg.Subnets r.NetAddr (loadLease sn r) } hi
    have h2 := GoMap.sum_replace (fun s : Subnet => s.LeasesByMAC.length) Seg.Subnets
      (loadLease sn r) hnd hsn
    have h3 : (loadLease sn r).LeasesByMAC.length = sn.LeasesByMAC.length + 1 :=
      GoMap.length_insert_of_lookup_none _ _ hmac
    simp only at h1 h2
    omega

/-- The lease import leaves the key set of every directory as it is. -/
theorem leaseImport_dir (now : Int) (S : List Segment) (r : LeaseRecord)
    (hdir : ∀ Seg ∈ S, (GoMap.keys Seg.Subnets).Nodup) :
    ∀ Seg ∈ leaseImport now S r, (GoMap.keys Seg.Subnets).Nodup := by
  unfold leaseImport
  by_cases hlive : r.Expires < now
  · rw [if_pos hlive]; exact hdir
  · rw [if_neg hlive]
    cases hseg : segmentById S r.SegmentId with
    | none => exact hdir
    | some q =>
      obtain ⟨i, Seg0⟩ := q
      simp only
      cases hsn : GoMap.lookup Seg0.Subnets r.NetAddr with
      | none => exact hdir
      | some sn =>
        simp only
        cases hmac : GoMap.lookup sn.LeasesByMAC r.MAC with
        | some p => exact hdir
        | none =>
          simp only
          intro Seg hmem
          rcases List.mem_or_eq_of_mem_set hmem with h | h
          · exact hdir Seg h
          · rw [h]
            simp only [GoMap.keys_replace]
            exact hdir Seg0 (List.getElem?_mem (segmentById_spec hseg).1)

theorem subnetAt_some {S : List Segment} {id net : Nat} {sn : Subnet}
    (h : subnetAt S id net = some sn) :
    ∃ i Seg, segmentById S id = some (i, Seg) ∧ GoMap.lookup Seg.Subnets net = some sn := by
  unfold subnetAt at h
  cases hs : segmentById S id with
  | none => rw [hs] at h; cases h
  | some q =>
    obtain ⟨i, Seg⟩ := q
    rw [hs] at h
    exact ⟨i, Seg, rfl, h⟩

theorem subnetAt_of {S : List Segment} {id net i : Nat} {Seg : Segment} {sn : Subnet}
    (hseg : segmentById S id = some (i, Seg)) (hsn : GoMap.lookup Seg.Subnets net = some sn) :
    subnetAt S id net = some sn := by
  unfold subnetAt
  rw [hseg]
  exact hsn

theorem leaseImport_loaded_self {now : Int} {S : List Segment} {r : LeaseRecord} {i : Nat}
    {Seg : Segment} {sn : Subnet} (hlive : ¬ r.Expires < now)
    (hseg : segmentById S r.SegmentId = some (i, Seg))
    (hsn : GoMap.lookup Seg.Subnets r.NetAddr = some sn)
    (hmac : GoMap.lookup sn.LeasesByMAC r.MAC = none) :
    leaseLoaded (leaseImport now S r) r := by
  refine ⟨loadLease sn r, sn.heap.length, ?_, ?_, ?_, ?_⟩
  · rw [leaseImport_subnetAt hlive hseg hsn hmac, if_pos ⟨rfl, rfl⟩]
  · exact GoMap.lookup_insert_self _ _ _
  · exact GoMap.lookup_insert_self _ _ _
  · exact heap_append_new _ _

theorem leaseImport_loaded_old {now : Int} {S : List Segment} {r : LeaseRecord} {i : Nat}
    {Seg : Segment} {sn : Subnet} (hlive : ¬ r.Expires < now)
    (hseg : segmentById S r.SegmentId = some (i, Seg))
    (hsn : GoMap.lookup Seg.Subnets r.NetAddr = some sn)
    (hmac : GoMap.lookup sn.LeasesByMAC r.MAC = none)
    (hip : GoMap.lookup sn.LeasesByIP r.IP = none)
    (r' : LeaseRecord) (h : leaseLoaded S r') : leaseLoaded (leaseImport now S r) r' := by
  obtain ⟨sn', p, hat, h1, h2, h3⟩ := h
  by_cases hsame : r'.SegmentId = r.SegmentId ∧ r'.NetAddr = r.NetAddr
  · have hat' : subnetAt S r'.SegmentId r'.NetAddr = some sn := by
      rw [hsame.1, hsame.2]
      exact subnetAt_of hseg hsn
    rw [hat] at hat'
    simp only [Option.some.injEq] at hat'
    subst hat'
    have hneip : r'.IP ≠ r.IP := by
      intro e
      rw [e, hip] at h1
      cases h1
    have hnemac : r'.MAC ≠ r.MAC := by
      intro e
      rw [e, hmac] at h2
      cases h2
    refine ⟨loadLease sn' r, p, ?_, ?_, ?_, ?_⟩
    · rw [leaseImport_subnetAt hlive hseg hsn hmac, if_pos hsame]
    · exact (GoMap.lookup_insert_ne _ _ hneip).trans h1
    · exact (GoMap.lookup_insert_ne _ _ hnemac).trans h2
    · exact heap_append_old _ h3
  · refine ⟨sn', p, ?_, h1, h2, h3⟩
    rw [leaseImport_subnetAt hlive hseg hsn hmac, if_neg hsame]
    exact hat

/-- The loop of the lease import over records that are not expired, name
subnets of the table, and are new and pairwise distinct in IP and in MAC within
their subnets: every record adds one entry to a by-IP and one to a by-MAC index
and is found there afterwards; what was loaded before stays. -/
theorem leasesLoop_load (now : Int) (recs : List LeaseRecord) (S : List Segment)
    (hdir : ∀ Seg ∈ S, (GoMap.keys Seg.Subnets).Nodup)
    (hlive : ∀ r ∈ recs, ¬ r.Expires < now)
    (hknown : ∀ r ∈ recs, ∃ sn, subnetAt S r.SegmentId r.NetAddr = some sn)
    (hfresh : ∀ r ∈ recs, ∀ sn, subnetAt S r.SegmentId r.NetAddr = some sn →
      GoMap.lookup sn.LeasesByIP r.IP = none ∧ GoMap.lookup sn.LeasesByMAC r.MAC = none)
    (hip : (recs.map (fun r => (r.SegmentId, r.NetAddr, r.IP))).Nodup)
    (hmac : (recs.map (fun r => (r.SegmentId, r.NetAddr, r.MAC))).Nodup) :
    ∃ S', leasesLoop now (recs.map ScanItem.record) S = (none, S') ∧
      leaseCountIP S' = leaseCountIP S + recs.length ∧
      leaseCountMAC S' = leaseCountMAC S + recs.length ∧
      (∀ r ∈ recs, leaseLoaded S' r) ∧ (∀ r, leaseLoaded S r → leaseLoaded S' r) := by
  induction recs generalizing S with
  | nil => exact ⟨S, rfl, rfl, rfl, fun _ h => absurd h (List.not_mem_nil _), fun _ h => h⟩
  | cons r0 rest ih =>
    obtain ⟨sn0, hat0⟩ := hknown r0 (List.mem_cons_self _ _)
    obtain ⟨i, Seg, hseg, hsn⟩ := subnetAt_some hat0
    obtain ⟨hip0, hmac0⟩ := hfresh r0 (List.mem_cons_self _ _) sn0 hat0
    have hlive0 := hlive r0 (List.mem_cons_self _ _)
    have hnd := hdir Seg (List.getElem?_mem (segmentById_spec hseg).1)
    have hat := fun id net => @leaseImport_subnetAt now S r0 i Seg sn0 hlive0 hseg hsn hmac0 id net
    obtain ⟨hc1, hc2⟩ := leaseImport_count hlive0 hseg hsn hmac0 hip0 hnd
    simp only [List.map_cons, List.nodup_cons] at hip hmac
    have hknown1 : ∀ r ∈ rest, ∃ sn, subnetAt (leaseImport now S r0) r.SegmentId r.NetAddr =
        some sn := by
      intro r hr
      rw [hat]
      by_cases hsame : r.SegmentId = r0.SegmentId ∧ r.NetAddr = r0.NetAddr
      · rw [if_pos hsame]; exact ⟨_, rfl⟩
      · rw [if_neg hsame]; exact hknown r (List.mem_cons_of_mem _ hr)
    have hfresh1 : ∀ r ∈ rest, ∀ sn,
        subnetAt (leaseImport now S r0) r.SegmentId r.NetAddr = some sn →
        GoMap.lookup sn.LeasesByIP r.IP = none ∧ GoMap.lookup sn.LeasesByMAC r.MAC = none := by
      intro r hr sn hsn1
      rw [hat] at hsn1
      by_cases hsame : r.SegmentId = r0.SegmentId ∧ r.NetAddr = r0.NetAddr
      · rw [if_pos hsame] at hsn1
        simp only [Option.some.injEq] at hsn1
        subst hsn1
        have hold := hfresh r (List.mem_cons_of_mem _ hr) sn0 (by rw [hsame.1, hsame.2]; exact hat0)
        have hneip : r.IP ≠ r0.IP := by
          intro e
          apply hip.1
          rw [List.mem_map]
          exact ⟨r, hr, by rw [hsame.1, hsame.2, e]⟩
        have hnemac : r.MAC ≠ r0.MAC := by
          intro e
          apply hmac.1
          rw [List.mem_map]
          exact ⟨r, hr, by rw [hsame.1, hsame.2, e]⟩
        exact ⟨(GoMap.lookup_insert_ne _ _ hneip).trans hold.1,
          (GoMap.lookup_insert_ne _ _ hnemac).trans hold.2⟩
      · rw [if_neg hsame] at hsn1
        exact hfresh r (List.mem_cons_of_mem _ hr) sn hsn1
    obtain ⟨S', h1, h2, h3, h4, h5⟩ := ih (leaseImport now S r0)
      (leaseImport_dir now S r0 hdir) (fun r hr => hlive r (List.mem_cons_of_mem _ hr))
      hknown1 hfresh1 hip.2 hmac.2
    refine ⟨S', h1, ?_, ?_, ?_, ?_⟩
    · rw [h2, hc1, List.length_cons]; omega
    · rw [h3, hc2, List.length_cons]; omega
    · intro r hr
      rcases List.mem_cons.mp hr with e | hr'
      · rw [e]
        exact h5 r0 (leaseImport_loaded_self hlive0 hseg hsn hmac0)
      · exact h4 r hr'
    · intro r hl
      exact h5 r (leaseImport_loaded_old hlive0 hseg hsn hmac0 hip0 r hl)

theorem sum_map_zero {α : Type} (g : α → Nat) (l : List α) (h : ∀ x ∈ l, g x = 0) :
    (l.map g).sum = 0 := by
  induction l with
  | nil => rfl
  | cons a t ih =>
    rw [List.map_cons, List.sum_cons, h a (List.mem_cons_self _ _),
      ih (fun x hx => h x (List.mem_cons_of_mem _ hx))]

/-- A record that is expired, names an unknown segment or subnet, or brings a
MAC its subnet already holds leaves the table as it is. -/
theorem leaseImport_skip (now : Int) (T : List Segment) (r : LeaseRecord)
    (h : r.Expires < now ∨ segmentById T r.SegmentId = none ∨
      (∃ i Seg, segmentById T r.SegmentId = some (i, Seg) ∧
        GoMap.lookup Seg.Subnets r.NetAddr = none) ∨
      (∃ i Seg sn p, segmentById T r.SegmentId = some (i, Seg) ∧
        GoMap.lookup Seg.Subnets r.NetAddr = some sn ∧
        GoMap.lookup sn.LeasesByMAC r.MAC = some p)) :
    leaseImport now T r = T := by
  unfold leaseImport
  by_cases hlive : r.Expires < now
  · rw [if_pos hlive]
  · rw [if_neg hlive]
    rcases h with h | h | ⟨i, Seg, h1, h2⟩ | ⟨i, Seg, sn, p, h1, h2, h3⟩
    · exact absurd h hlive
    · rw [h]
    · rw [h1]; simp only [h2]
    · rw [h1]; simp only [h2, h3]

/-- C19. Starting from a segment table whose subnets all have empty lease
indices (every directory being a map, one entry per key), the lease import of a
scan that delivers `N` records and no error, the records not expired, naming
segments and subnets of the table, and pairwise distinct in (segment, subnet,
ip) and in (segment, subnet, mac), returns without error and leaves `N` entries
in all by-IP indices together and `N` in all by-MAC indices together, and for
every record `by_ip[ip]` and `by_mac[mac]` of its subnet are one lease with the
record's fields.  A record that is expired, names an unknown segment or subnet,
or brings a MAC its subnet already holds adds nothing. -/
theorem LeasesDownload_convergence (now : Int) (S : List Segment) (recs : List LeaseRecord)
    (hdir : ∀ Seg ∈ S, (GoMap.keys Seg.Subnets).Nodup)
    (hempty : ∀ Seg ∈ S, ∀ e ∈ Seg.Subnets, e.2.LeasesByIP = [] ∧ e.2.LeasesByMAC = [])
    (hlive : ∀ r ∈ recs, ¬ r.Expires < now)
    (hknown : ∀ r ∈ recs, ∃ i Seg sn, segmentById S r.SegmentId = some (i, Seg) ∧
      GoMap.lookup Seg.Subnets r.NetAddr = some sn)
    (hip : (recs.map (fun r => (r.SegmentId, r.NetAddr, r.IP))).Nodup)
    (hmac : (recs.map (fun r => (r.SegmentId, r.NetAddr, r.MAC))).Nodup) :
    (∃ S', LeasesDownloadFromAerospike now (Except.ok (recs.map ScanItem.record)) S =
        (none, S') ∧
      leaseCountIP S' = recs.length ∧ leaseCountMAC S' = recs.length ∧
      ∀ r ∈ recs, leaseLoaded S' r) ∧
    (∀ (T : List Segment) (r : LeaseRecord),
      (r.Expires < now ∨ segmentById T r.SegmentId = none ∨
        (∃ i Seg, segmentById T r.SegmentId = some (i, Seg) ∧
          GoMap.lookup Seg.Subnets r.NetAddr = none) ∨
        (∃ i Seg sn p, segmentById T r.SegmentId = some (i, Seg) ∧
          GoMap.lookup Seg.Subnets r.NetAddr = some sn ∧
          GoMap.lookup sn.LeasesByMAC r.MAC = some p)) →
      leaseImport now T r = T) := by
  refine ⟨?_, fun T r h => leaseImport_skip now T r h⟩
  have hknown' : ∀ r ∈ recs, ∃ sn, subnetAt S r.SegmentId r.NetAddr = some sn := by
    intro r hr
    obtain ⟨i, Seg, sn, h1, h2⟩ := hknown r hr
    exact ⟨sn, subnetAt_of h1 h2⟩
  have hfresh : ∀ r ∈ recs, ∀ sn, subnetAt S r.SegmentId r.NetAddr = some sn →
      GoMap.lookup sn.LeasesByIP r.IP = none ∧ GoMap.lookup sn.LeasesByMAC r.MAC = none := by
    intro r _ sn hsn
    obtain ⟨i, Seg, h1, h2⟩ := subnetAt_some hsn
    have hmem := List.getElem?_mem (segmentById_spec h1).1
    obtain ⟨e1, e2⟩ := hempty Seg hmem _ (GoMap.mem_of_lookup _ h2)
    simp only at e1 e2
    rw [e1, e2]
    exact ⟨rfl, rfl⟩
  have hz1 : leaseCountIP S = 0 := by
    unfold leaseCountIP
    apply sum_map_zero
    intro Seg hSeg
    apply sum_map_zero
    intro e he
    rw [(hempty Seg hSeg e he).1]
    rfl
  have hz2 : leaseCountMAC S = 0 := by
    unfold leaseCountMAC
    apply sum_map_zero
    intro Seg hSeg
    apply sum_map_zero
    intro e he
    rw [(hempty Seg hSeg e he).2]
    rfl
  obtain ⟨S', h1, h2, h3, h4, _⟩ := leasesLoop_load now recs S hdir hlive hknown' hfresh hip hmac
  refine ⟨S', h1, ?_, ?_, h4⟩
  · rw [h2, hz1]; omega
  · rw [h3, hz2]; omega

theorem LeasesDownload_convergence_witness :
    (∀ e ∈ exSegmentA.Subnets, e.2.LeasesByIP = [] ∧ e.2.LeasesByMAC = []) ∧
      (∀ r ∈ exRecords, ¬ r.Expires < 100) ∧
      (exRecords.map (fun r => (r.SegmentId, r.NetAddr, r.IP))).Nodup ∧
      (exRecords.map (fun r => (r.SegmentId, r.NetAddr, r.MAC))).Nodup ∧
      ∃ S', LeasesDownloadFromAerospike 100 (Except.ok (exRecords.map ScanItem.record))
          [exSegmentA] = (none, S') ∧
        leaseCountIP S' = 2 ∧ leaseCountMAC S' = 2 ∧ ∀ r ∈ exRecords, leaseLoaded S' r := by
  have hempty : ∀ e ∈ exSegmentA.Subnets, e.2.LeasesByIP = [] ∧ e.2.LeasesByMAC = [] := by
    decide
  have hlive : ∀ r ∈ exRecords, ¬ r.Expires < 100 := by decide
  refine ⟨hempty, hlive, by decide, by decide, ?_⟩
  have h := LeasesDownload_convergence 100 [exSegmentA] exRecords
    (by
      intro Seg hSeg
      rw [List.mem_singleton] at hSeg
      rw [hSeg]
      decide)
    (by
      intro Seg hSeg
      rw [List.mem_singleton] at hSeg
      rw [hSeg]
      exact hempty)
    hlive
    (by
      intro r hr
      have hall : ∀ r ∈ exRecords, r.SegmentId = 1 ∧ r.NetAddr = 167772160 := by decide
      obtain ⟨e1, e2⟩ := hall r hr
      rw [e1, e2]
      exact ⟨0, exSegmentA, exNet, rfl, rfl⟩)
    (by decide) (by decide)
  exact h.1

/-! ## C21: REQUEST for an address outside the subnet -/

theorem relayIP_obtained_reason {req : Request} {Ctx0 Ctx : ReqCtx}
    (h : relayIP req Ctx0 = (Ctx, Label.RelayIPObtained)) :
    Ctx.DropReason = Ctx0.DropReason := by
  have hO : ((Ctx0.SetRelayIP req.GIAddr).ObtainRequestedIP req).2.DropReason =
      Ctx0.DropReason := by
    unfold ReqCtx.ObtainRequestedIP
    split
    · rfl
    · split
      · rfl
      · rfl
  have hdone : ∀ C, option82Done req Ctx0 = (C, Label.RelayIPObtained) →
      C.DropReason = Ctx0.DropReason := by
    intro C hC
    unfold option82Done at hC
    simp only at hC
    split at hC
    · simp only [Prod.mk.injEq, and_true] at hC
      rw [← hC]
      rfl
    · split at hC
      · simp only [Prod.mk.injEq] at hC
        cases hC.2
      · cases hres : (Ctx0.SetRelayIP req.GIAddr).ObtainRequestedIP req with
        | mk b C1 =>
          rw [hres] at hC hO
          cases b with
          | true =>
            simp only at hC
            split at hC
            · simp only [Prod.mk.injEq, and_true] at hC
              rw [← hC]
              exact hO
            · simp only [Prod.mk.injEq] at hC
              cases hC.2
          | false =>
            simp only [Prod.mk.injEq, and_true] at hC
            rw [← hC]
            exact hO
  unfold relayIP at h
  split at h
  · exact hdone Ctx h
  · split at h
    · exact hdone Ctx h
    · split at h
      · simp only [Prod.mk.injEq, and_true, ReqCtx.SetRelayIP] at h
        rw [← h]
      · simp only [Prod.mk.injEq] at h
        cases h.2

/-- Every request that is classified into a segment and for which `ObtainSubnet`
yields no subnet is dropped without a reply, and its context has the empty
`drop_reason` it started with. -/
theorem unknown_subnet_drop (o : Opts) (e : Env) (w : World) (req : Request)
    (Ctx Ctx1 : ReqCtx) (i : Nat) (Seg Seg1 : Segment) (m : List MirrorOp)
    (hrel : relayIP req
        { RequestStart := e.now, MAC := req.CHAddr, DHCPRequest := req.msgType,
          RemoteIP := req.RemoteAddr, LocalIP := req.LocalAddr } =
      (Ctx, Label.RelayIPObtained))
    (hmac : Ctx.MAC ≠ 0)
    (hseg : (Ctx.SegmentEvaluate w.Segments).Segment = some i)
    (hSeg : w.Segments[i]? = some Seg)
    (hsub : (Ctx.SegmentEvaluate w.Segments).ObtainSubnet Seg = (Ctx1, Seg1, m))
    (hnone : Ctx1.Subnet = none) :
    ∃ out, DHCPHandleRequest o e w req = some out ∧ out.reply = none ∧
      out.Ctx.DHCPResponse = some Response.Drop ∧ out.Ctx.DropReason = "" := by
  have h0 : Ctx.DropReason = "" := relayIP_obtained_reason hrel
  have h1 : (Ctx.SegmentEvaluate w.Segments).DropReason = "" := by
    unfold ReqCtx.SegmentEvaluate
    split
    · exact h0
    · exact h0
  have h2 : Ctx1.DropReason = "" := by
    unfold ReqCtx.ObtainSubnet at hsub
    split at hsub
    · simp only [Prod.mk.injEq] at hsub
      rw [← hsub.1]
      exact h1
    · split at hsub
      · simp only [Prod.mk.injEq] at hsub
        rw [← hsub.1]
        exact h1
      · simp only [Prod.mk.injEq] at hsub
        rw [← hsub.1]
        exact h1
  refine ⟨finish Ctx1 Response.Drop none { w with Segments := w.Segments.set i Seg1 } m,
    ?_, ?_, ?_, ?_⟩
  · unfold DHCPHandleRequest
    simp only [hrel]
    rw [if_neg hmac]
    simp only [hseg, hSeg, hsub, hnone]
  · simp [finish, ReqCtx.GenerateReply]
  · simp [finish, ReqCtx.GenerateReply]
  · simp [finish, ReqCtx.GenerateReply, h2]

/-- C22, the code at the failing input.  A DISCOVER relayed with GIADDR
`10.0.5.1` is classified into segment `A`, whose only subnet is `10.0.0.0/24`
and which has no automode: `ObtainSubnet` yields no subnet, no reply is
produced, and the context ends with an empty `drop_reason`. -/
theorem unknown_subnet_drop_without_reason :
    (DHCPHandleRequest exOpts { now := 0, fuel := 3 } { Segments := [exSegmentA] }
        exDiscoverNoSubnet).map
      (fun out => (out.reply, out.Ctx.DHCPResponse, out.Ctx.Segment, out.Ctx.Subnet)) =
      some (none, some Response.Drop, some 0, none) ∧
    (DHCPHandleRequest exOpts { now := 0, fuel := 3 } { Segments := [exSegmentA] }
        exDiscoverNoSubnet).map
      (fun out => (out.Ctx.DropReason, out.Ctx.NAKReason, out.Ctx.RelayIP)) =
      some ("", "", 167773441) := by
  refine ⟨by decide, by decide⟩

/-! ## C23: ingress validation -/

theorem DHCPHandleConnection_handled (d : Datagram) (v : Nat) :
    DHCPHandleConnection d = Ingress.handled v ↔
      (d.HLen = 6 ∧ GoMap.lookup d.options OptionDHCPMessageType = some [v] ∧
        dhcpDiscover ≤ v ∧ v ≤ dhcpInform) := by
  unfold DHCPHandleConnection
  by_cases hh : d.HLen = 6
  · rw [if_neg (not_not.mpr hh)]
    simp only
    cases hl : GoMap.lookup d.options OptionDHCPMessageType with
    | none =>
      simp only [Option.getD_none, List.length_nil]
      constructor
      · intro h
        simp at h
      · intro h
        cases h.2.1
    | some t =>
      simp only [Option.getD_some]
      by_cases hlen : t.length = 1
      · rw [if_neg (not_not.mpr hlen)]
        obtain ⟨x, rfl⟩ := List.length_eq_one.mp hlen
        simp only [List.headD_cons]
        by_cases hr : x < dhcpDiscover ∨ x > dhcpInform
        · rw [if_pos hr]
          constructor
          · intro h; cases h
          · intro h
            simp only [Option.some.injEq, List.cons.injEq, and_true] at h
            obtain ⟨_, hx, h1, h2⟩ := h
            subst hx
            rcases hr with hr | hr
            · omega
            · omega
        · rw [if_neg hr]
          constructor
          · intro h
            simp only [Ingress.handled.injEq] at h
            subst h
            refine ⟨hh, rfl, ?_, ?_⟩
            · by_contra hc; exact hr (Or.inl (by omega))
            · by_contra hc; exact hr (Or.inr (by omega))
          · intro h
            simp only [Option.some.injEq, List.cons.injEq, and_true] at h
            rw [h.2.1]
      · rw [if_pos hlen]
        constructor
        · intro h; cases h
        · intro h
          simp only [Option.some.injEq] at h
          rw [h.2.1] at hlen
          exact absurd rfl hlen
  · rw [if_pos hh]
    constructor
    · intro h; cases h
    · intro h; exact absurd h.1 hh

/-- C23. A datagram of `n` bytes is handed to `DHCPHandleRequest`, with message
type `v`, if and only if `n >= 240`, its HLEN is `6`, its options hold a
DHCPMessageType value of length one, `[v]`, and `DISCOVER <= v <= INFORM`; every
other datagram takes a path that counts a malformed packet and sends nothing. -/
theorem ingress_validation (d : Datagram) :
    (∀ v, DHCPServe d = Ingress.handled v ↔
      (240 ≤ d.n ∧ d.HLen = 6 ∧
        GoMap.lookup d.options OptionDHCPMessageType = some [v] ∧
        dhcpDiscover ≤ v ∧ v ≤ dhcpInform)) ∧
    ((¬ ∃ v, 240 ≤ d.n ∧ d.HLen = 6 ∧
        GoMap.lookup d.options OptionDHCPMessageType = some [v] ∧
        dhcpDiscover ≤ v ∧ v ≤ dhcpInform) →
      DHCPServe d = Ingress.malformed) := by
  have h1 : ∀ v, DHCPServe d = Ingress.handled v ↔
      (240 ≤ d.n ∧ d.HLen = 6 ∧
        GoMap.lookup d.options OptionDHCPMessageType = some [v] ∧
        dhcpDiscover ≤ v ∧ v ≤ dhcpInform) := by
    intro v
    unfold DHCPServe
    by_cases hn : d.n < 240
    · rw [if_pos hn]
      constructor
      · intro h; cases h
      · intro h; omega
    · rw [if_neg hn, DHCPHandleConnection_handled]
      constructor
      · intro h; exact ⟨by omega, h⟩
      · intro h; exact h.2
  refine ⟨h1, ?_⟩
  intro hno
  cases hres : DHCPServe d with
  | malformed => rfl
  | handled v => exact absurd ⟨v, (h1 v).mp hres⟩ hno

theorem ingress_validation_witness :
    DHCPServe { n := 300, HLen := 6, options := [(OptionDHCPMessageType, [dhcpDiscover])] } =
        Ingress.handled dhcpDiscover ∧
      DHCPServe { n := 239, HLen := 6, options := [(OptionDHCPMessageType, [dhcpDiscover])] } =
        Ingress.malformed ∧
      DHCPServe { n := 300, HLen := 16, options := [(OptionDHCPMessageType, [dhcpDiscover])] } =
        Ingress.malformed ∧
      DHCPServe { n := 300, HLen := 6, options := [(OptionDHCPMessageType, [1, 1])] } =
        Ingress.malformed ∧
      DHCPServe { n := 300, HLen := 6, options := [(OptionDHCPMessageType, [9])] } =
        Ingress.malformed :=
  ⟨((ingress_validation
        { n := 300, HLen := 6, options := [(OptionDHCPMessageType, [dhcpDiscover])] }).1
      dhcpDiscover).mpr ⟨by decide, rfl, rfl, by decide, by decide⟩,
    (ingress_validation
        { n := 239, HLen := 6, options := [(OptionDHCPMessageType, [dhcpDiscover])] }).2
      (fun h => h.elim (fun _ hv => absurd hv.1 (by decide))),
    (ingress_validation
        { n := 300, HLen := 16, options := [(OptionDHCPMessageType, [dhcpDiscover])] }).2
      (fun h => h.elim (fun _ hv => absurd hv.2.1 (by decide))),
    (ingress_validation
        { n := 300, HLen := 6, options := [(OptionDHCPMessageType, [1, 1])] }).2
      (by simp [GoMap.lookup]),
    (ingress_validation
        { n := 300, HLen := 6, options := [(OptionDHCPMessageType, [9])] }).2
      (by simp [GoMap.lookup, dhcpInform])⟩

/-! ## C24: segment classification -/

theorem segmentFind_none {RemoteIP RelayIP : Nat} {segs : List Segment} {k : Nat}
    (h : ∀ v ∈ segs, v.DetectExpression RemoteIP RelayIP ≠ EvalResult.bool true) :
    segmentFind RemoteIP RelayIP segs k = none := by
  induction segs generalizing k with
  | nil => rfl
  | cons v rest ih =>
    have hv := h v (List.mem_cons_self _ _)
    unfold segmentFind
    split
    · rename_i heq
      exact absurd heq hv
    · exact ih (fun u hu => h u (List.mem_cons_of_mem _ hu))

theorem segmentFind_first {RemoteIP RelayIP : Nat} {segs : List Segment} {k i : Nat}
    {v : Segment} (hv : segs[i]? = some v)
    (hm : v.DetectExpression RemoteIP RelayIP = EvalResult.bool true)
    (hpre : ∀ j, j < i → ∀ u, segs[j]? = some u →
      u.DetectExpression RemoteIP RelayIP ≠ EvalResult.bool true) :
    segmentFind RemoteIP RelayIP segs k = some (k + i) := by
  induction segs generalizing k i with
  | nil => simp at hv
  | cons a rest ih =>
    cases i with
    | zero =>
      simp only [List.getElem?_cons_zero, Option.some.injEq] at hv
      subst hv
      unfold segmentFind
      rw [hm]
      rfl
    | succ j =>
      simp only [List.getElem?_cons_succ] at hv
      have ha := hpre 0 (Nat.succ_pos j) a (by simp)
      unfold segmentFind
      split
      · rename_i heq
        exact absurd heq ha
      · have := @ih (k + 1) j hv (fun j' hj' u hu => hpre (j' + 1) (by omega) u (by simpa using hu))
        rw [this]
        congr 1
        omega

/-- C24. Over the segment table in its iteration order, `SegmentEvaluate`
selects the first segment whose rule evaluates to the boolean `true` on the
`RemoteIP` and `RelayIP` of the context; a rule that fails, or yields a
non-boolean or `false`, does not match.  If no segment matches, the context is
left as it was, and a request that reached the label `RelayIPObtained` with a
non-zero MAC is dropped without a reply with `drop_reason = UnknownSegment`,
its segment unset. -/
theorem segment_classification (o : Opts) (e : Env) (w : World) (req : Request)
    (c : ReqCtx) :
    (∀ i v, w.Segments[i]? = some v →
      v.DetectExpression c.RemoteIP c.RelayIP = EvalResult.bool true →
      (∀ j, j < i → ∀ u, w.Segments[j]? = some u →
        u.DetectExpression c.RemoteIP c.RelayIP ≠ EvalResult.bool true) →
      c.SegmentEvaluate w.Segments = { c with Segment := some i }) ∧
    ((∀ v ∈ w.Segments, v.DetectExpression c.RemoteIP c.RelayIP ≠ EvalResult.bool true) →
      c.SegmentEvaluate w.Segments = c) ∧
    (relayIP req
        { RequestStart := e.now, MAC := req.CHAddr, DHCPRequest := req.msgType,
          RemoteIP := req.RemoteAddr, LocalIP := req.LocalAddr } =
        (c, Label.RelayIPObtained) →
      c.MAC ≠ 0 →
      (∀ v ∈ w.Segments, v.DetectExpression c.RemoteIP c.RelayIP ≠ EvalResult.bool true) →
      ∃ out, DHCPHandleRequest o e w req = some out ∧ out.reply = none ∧
        out.Ctx.Segment = none ∧ out.Ctx.DropReason = DROPREASON_UNKNOWN_SEGMENT ∧
        out.mirror = []) := by
  have hnone : (∀ v ∈ w.Segments,
      v.DetectExpression c.RemoteIP c.RelayIP ≠ EvalResult.bool true) →
      c.SegmentEvaluate w.Segments = c := by
    intro h
    unfold ReqCtx.SegmentEvaluate
    rw [segmentFind_none h]
  refine ⟨?_, hnone, ?_⟩
  · intro i v hv hm hpre
    unfold ReqCtx.SegmentEvaluate
    rw [segmentFind_first hv hm hpre]
    simp
  · intro hrel hmac hno
    have hseg0 : c.Segment = none := by
      have h1 : ∀ (C0 C : ReqCtx), option82Done req C0 = (C, Label.RelayIPObtained) →
          C.Segment = C0.Segment := by
        intro C0 C hC
        have hO : ((C0.SetRelayIP req.GIAddr).ObtainRequestedIP req).2.Segment =
            C0.Segment := by
          unfold ReqCtx.ObtainRequestedIP
          split
          · rfl
          · split
            · rfl
            · rfl
        unfold option82Done at hC
        simp only at hC
        split at hC
        · simp only [Prod.mk.injEq, and_true] at hC
          rw [← hC]
          rfl
        · split at hC
          · simp only [Prod.mk.injEq] at hC
            cases hC.2
          · cases hres : (C0.SetRelayIP req.GIAddr).ObtainRequestedIP req with
            | mk b C1 =>
              rw [hres] at hC hO
              cases b with
              | true =>
                simp only at hC
                split at hC
                · simp only [Prod.mk.injEq, and_true] at hC
                  rw [← hC]
                  exact hO
                · simp only [Prod.mk.injEq] at hC
                  cases hC.2
              | false =>
                simp only [Prod.mk.injEq, and_true] at hC
                rw [← hC]
                exact hO
      unfold relayIP at hrel
      split at hrel
      · exact h1 _ _ hrel
      · split at hrel
        · exact h1 _ _ hrel
        · split at hrel
          · simp only [Prod.mk.injEq, and_true, ReqCtx.SetRelayIP] at hrel
            rw [← hrel]
          · simp only [Prod.mk.injEq] at hrel
            cases hrel.2
    refine ⟨finish { c with DropReason := DROPREASON_UNKNOWN_SEGMENT } Response.Drop none w [],
      ?_, ?_, ?_, ?_, ?_⟩
    · unfold DHCPHandleRequest
      simp only [hrel]
      rw [if_neg hmac]
      simp only [hnone hno, hseg0]
    · simp [finish, ReqCtx.GenerateReply]
    · simp [finish, ReqCtx.GenerateReply, hseg0]
    · simp [finish, ReqCtx.GenerateReply]
    · simp [finish]

theorem segment_classification_witness :
    exSegmentC.DetectExpression 0 167837697 = EvalResult.bool true ∧
      exSegmentW.DetectExpression 0 167837697 = EvalResult.bool true ∧
      ({ MAC := 5, RelayIP := 167837697 } : ReqCtx).SegmentEvaluate
          [exSegmentE, exSegmentC, exSegmentW] =
        { MAC := 5, RelayIP := 167837697, Segment := some 1 } ∧
      ({ MAC := 5, RelayIP := 167837697 } : ReqCtx).SegmentEvaluate
          [exSegmentE, exSegmentA] = { MAC := 5, RelayIP := 167837697 } :=
  ⟨rfl, rfl,
    (segment_classification exOpts { now := 0, fuel := 3 }
        { Segments := [exSegmentE, exSegmentC, exSegmentW] } exDiscover
        { MAC := 5, RelayIP := 167837697 }).1 1 exSegmentC rfl rfl
      (by
        intro j hj u hu
        have hj0 : j = 0 := by omega
        subst hj0
        simp only [List.getElem?_cons_zero, Option.some.injEq] at hu
        rw [← hu]
        decide),
    (segment_classification exOpts { now := 0, fuel := 3 }
        { Segments := [exSegmentE, exSegmentA] } exDiscover
        { MAC := 5, RelayIP := 167837697 }).2.1
      (by
        intro v hv
        simp only [List.mem_cons, List.mem_singleton, List.not_mem_nil, or_false] at hv
        rcases hv with h | h
        · rw [h]; decide
        · rw [h]; decide)⟩

/-! ## C25: the lease snapshot -/

/-- C25 fails as stated: the REQUEST of client `1` for `10.0.0.10` at time `10`
confirms the lease the DISCOVER left in `exOne`; the stored lease then has
`discover_phase` cleared, the snapshot `LeaseCopy` still has it set. -/
theorem lease_snapshot_counterexample :
    (LeaseCheckAndUpdate 10 { MAC := 1, IP := 167772170, RequestStart := 10 } exOne).map
        (fun r => (r.1.Lease, r.1.LeaseCopy, r.2.1.leaseAtIP 167772170)) =
      some (some 0,
        some { IP := 167772170, MAC := 1, Expires := 610, Discover := true, DiscoverTime := 0 },
        some { IP := 167772170, MAC := 1, Expires := 610, Discover := false,
               DiscoverTime := 0 }) ∧
    (LeaseCheckAndUpdate 10 { MAC := 1, IP := 167772170, RequestStart := 10 } exOne).map
        (fun r => decide (r.1.LeaseCopy = r.2.1.leaseAtIP 167772170)) = some false := by
  refine ⟨by decide, by decide⟩

/-- C25, amended. After a successful `LeaseCheckAndUpdate` the snapshot
`LeaseCopy`, which is what the mirror is handed, agrees with the updated lease
stored under `by_ip[ip]` in ip, mac, expires (`request_start +
subnet.lease_ttl`) and discover time; its `discover_phase` is the one the lease
had before the call, the snapshot being taken before the flag is cleared in the
stored lease. -/
theorem lease_snapshot (now : Int) (Ctx Ctx' : ReqCtx) (s s' : Subnet)
    (ops : List MirrorOp) (h : LeaseCheckAndUpdate now Ctx s = some (Ctx', s', ops))
    (hok : Ctx'.Lease ≠ none) :
    ∃ p L C L', GoMap.lookup s.LeasesByIP Ctx.IP = some p ∧ s.heap[p]? = some L ∧
      Ctx'.Lease = some p ∧ Ctx'.LeaseCopy = some C ∧ ops = [MirrorOp.leaseUpload C] ∧
      GoMap.lookup s'.LeasesByIP Ctx.IP = some p ∧ s'.heap[p]? = some L' ∧
      C.IP = L'.IP ∧ C.MAC = L'.MAC ∧ C.Expires = L'.Expires ∧
      L'.Expires = Ctx.RequestStart + s.LeaseTTL ∧ C.DiscoverTime = L'.DiscoverTime ∧
      C.Discover = L.Discover ∧ L'.Discover = false := by
  unfold LeaseCheckAndUpdate at h
  cases hp : GoMap.lookup s.LeasesByIP Ctx.IP with
  | none =>
    rw [hp] at h
    simp only [Option.some.injEq, Prod.mk.injEq] at h
    rw [← h.1] at hok
    exact absurd rfl hok
  | some p =>
    rw [hp] at h
    simp only at h
    cases hL : s.heap[p]? with
    | none => rw [hL] at h; cases h
    | some L =>
      rw [hL] at h
      simp only at h
      by_cases hE : L.Expired now = true
      · rw [if_pos hE] at h
        simp only [Option.some.injEq, Prod.mk.injEq] at h
        rw [← h.1] at hok
        exact absurd rfl hok
      · rw [if_neg hE] at h
        by_cases hm : L.MAC ≠ Ctx.MAC
        · rw [if_pos hm] at h
          simp only [Option.some.injEq, Prod.mk.injEq] at h
          rw [← h.1] at hok
          exact absurd rfl hok
        · rw [if_neg hm] at h
          simp only [Option.some.injEq, Prod.mk.injEq] at h
          obtain ⟨rfl, rfl, rfl⟩ := h
          exact ⟨p, L, _, _, rfl, hL, rfl, rfl, rfl, hp, heap_set_self _ hL,
            rfl, rfl, rfl, rfl, rfl, rfl, rfl⟩

theorem lease_snapshot_witness :
    ∃ (p : Nat) (L C L' : Lease),
      GoMap.lookup exOne.LeasesByIP 167772170 = some p ∧ exOne.heap[p]? = some L ∧
      some 0 = some p ∧
      some ({ IP := 167772170, MAC := 1, Expires := 610, Discover := true,
              DiscoverTime := 0 } : Lease) = some C ∧
      [MirrorOp.leaseUpload { IP := 167772170, MAC := 1, Expires := 610, Discover := true,
                              DiscoverTime := 0 }] = [MirrorOp.leaseUpload C] ∧
      GoMap.lookup exOne.LeasesByIP 167772170 = some p ∧
      ([{ IP := 167772170, MAC := 1, Expires := 610, Discover := false,
          DiscoverTime := 0 }] : List Lease)[p]? = some L' ∧
      C.IP = L'.IP ∧ C.MAC = L'.MAC ∧ C.Expires = L'.Expires ∧
      L'.Expires = 10 + exOne.LeaseTTL ∧ C.DiscoverTime = L'.DiscoverTime ∧
      C.Discover = L.Discover ∧ L'.Discover = false :=
  lease_snapshot 10 { MAC := 1, IP := 167772170, RequestStart := 10 }
    { MAC := 1, IP := 167772170, RequestStart := 10, Lease := some 0,
      LeaseCopy := some { IP := 167772170, MAC := 1, Expires := 610, Discover := true,
                          DiscoverTime := 0 } }
    exOne
    { exOne with heap := [{ IP := 167772170, MAC := 1, Expires := 610, Discover := false, DiscoverTime := 0 }] }
    [MirrorOp.leaseUpload { IP := 167772170, MAC := 1, Expires := 610, Discover := true,
                            DiscoverTime := 0 }]
    (by decide) (by decide)

/-! ## C26: the mask list of a segment -/

theorem GoMap.mem_keys_delete_of_ne {V : Type} (m : List (Nat × V)) {k k' : Nat}
    (hne : k' ≠ k) (h : k' ∈ GoMap.keys m) : k' ∈ GoMap.keys (GoMap.delete m k) := by
  unfold GoMap.keys GoMap.delete at *
  rw [List.mem_map] at h ⊢
  obtain ⟨e, he, hk⟩ := h
  refine ⟨e, ?_, hk⟩
  rw [List.mem_filter]
  exact ⟨he, by simp [hk, hne]⟩

theorem GoMap.mem_keys_insert_of_mem {V : Type} (m : List (Nat × V)) (k : Nat) (v : V)
    {k' : Nat} (h : k' ∈ GoMap.keys m) : k' ∈ GoMap.keys (GoMap.insert m k v) := by
  have hk : GoMap.keys (GoMap.insert m k v) = k :: GoMap.keys (GoMap.delete m k) := rfl
  rw [hk]
  by_cases hne : k' = k
  · rw [hne]; exact List.mem_cons_self _ _
  · exact List.mem_cons_of_mem _ (GoMap.mem_keys_delete_of_ne m hne h)

theorem GoMap.mem_keys_insert {V : Type} (m : List (Nat × V)) (k : Nat) (v : V)
    {k' : Nat} (h : k' ∈ GoMap.keys (GoMap.insert m k v)) : k' = k ∨ k' ∈ GoMap.keys m := by
  have hk : GoMap.keys (GoMap.insert m k v) = k :: GoMap.keys (GoMap.delete m k) := rfl
  rw [hk] at h
  rcases List.mem_cons.mp h with h1 | h1
  · exact Or.inl h1
  · exact Or.inr ((GoMap.keys_delete_sublist m k).subset h1)

theorem GoMap.nodup_keys_insert {V : Type} (m : List (Nat × V)) (k : Nat) (v : V)
    (h : (GoMap.keys m).Nodup) : (GoMap.keys (GoMap.insert m k v)).Nodup := by
  have hk : GoMap.keys (GoMap.insert m k v) = k :: GoMap.keys (GoMap.delete m k) := rfl
  rw [hk]
  exact List.nodup_cons.mpr
    ⟨GoMap.not_mem_keys_delete m k, List.Nodup.sublist (GoMap.keys_delete_sublist m k) h⟩

theorem GoMap.mem_insert {V : Type} (m : List (Nat × V)) (k : Nat) (v : V)
    {e : Nat × V} (h : e ∈ GoMap.insert m k v) : e = (k, v) ∨ e ∈ m := by
  unfold GoMap.insert GoMap.delete at h
  rcases List.mem_cons.mp h with h1 | h1
  · exact Or.inl h1
  · exact Or.inr (List.mem_filter.mp h1).1

theorem loadOpts_mask {Net Net1 : Subnet} {opts : List OptRow}
    (h : loadOpts Net opts = some Net1) : Net1.Mask = Net.Mask := by
  induction opts generalizing Net with
  | nil =>
    simp only [loadOpts, Option.some.injEq] at h
    rw [h]
  | cons r rest ih =>
    cases r with
    | router ip =>
      simp only [loadOpts] at h
      split at h
      · have h1 := ih h
        exact h1
      · have h1 := ih h
        exact h1
    | dns ip =>
      simp only [loadOpts] at h
      split at h
      · cases h
      · have h1 := ih h
        exact h1
    | lease_ttl d =>
      cases d with
      | none => simp [loadOpts] at h
      | some d =>
        simp only [loadOpts] at h
        have h1 := ih h
        exact h1
    | other =>
      simp only [loadOpts] at h
      exact ih h

/-- The loop over the subnet rows keeps `MasksMap` a map whose keys are the
masks of the rows seen, among them the mask of every subnet stored. -/
theorem loadRows_inv {rows : List SubnetRow} {Subnets S' : List (Nat × Subnet)}
    {MasksMap M' : List (Nat × Bool)}
    (h : loadRows rows Subnets MasksMap = some (S', M'))
    (hnd : (GoMap.keys MasksMap).Nodup)
    (hin : ∀ e ∈ Subnets, e.2.Mask ∈ GoMap.keys MasksMap) :
    (GoMap.keys M').Nodup ∧ (∀ e ∈ S', e.2.Mask ∈ GoMap.keys M') ∧
      (∀ k ∈ GoMap.keys M', k ∈ GoMap.keys MasksMap ∨ ∃ row ∈ rows, row.Mask = k) := by
  induction rows generalizing Subnets MasksMap with
  | nil =>
    simp only [loadRows, Option.some.injEq, Prod.mk.injEq] at h
    obtain ⟨rfl, rfl⟩ := h
    exact ⟨hnd, hin, fun k hk => Or.inl hk⟩
  | cons row rest ih =>
    simp only [loadRows] at h
    split at h
    · cases h
    · rename_i Net1 hopts
      have hmask : Net1.Mask = row.Mask := loadOpts_mask hopts
      obtain ⟨h1, h2, h3⟩ := ih h (GoMap.nodup_keys_insert _ _ _ hnd)
        (by
          intro e he
          rcases GoMap.mem_insert _ _ _ he with he1 | he1
          · rw [he1]
            simp only [hmask]
            have hk : GoMap.keys (GoMap.insert MasksMap row.Mask true) =
                row.Mask :: GoMap.keys (GoMap.delete MasksMap row.Mask) := rfl
            rw [hk]
            exact List.mem_cons_self _ _
          · exact GoMap.mem_keys_insert_of_mem _ _ _ (hin e he1))
      refine ⟨h1, h2, ?_⟩
      intro k hk
      rcases h3 k hk with h4 | ⟨r, hr, hrk⟩
      · rcases GoMap.mem_keys_insert _ _ _ h4 with h5 | h5
        · exact Or.inr ⟨row, List.mem_cons_self _ _, h5.symm⟩
        · exact Or.inl h5
      · exact Or.inr ⟨r, List.mem_cons_of_mem _ hr, hrk⟩

theorem sortReverse_mem (Masks : List Nat) (k : Nat) : k ∈ sortReverse Masks ↔ k ∈ Masks := by
  unfold sortReverse
  rw [List.mem_reverse]
  exact (List.perm_insertionSort _ _).mem_iff

theorem sortReverse_nodup (Masks : List Nat) : (sortReverse Masks).Nodup ↔ Masks.Nodup := by
  unfold sortReverse
  rw [List.nodup_reverse]
  exact (List.perm_insertionSort _ _).nodup_iff

theorem sortReverse_sorted (Masks : List Nat) :
    (sortReverse Masks).Pairwise (fun a b => b ≤ a) := by
  unfold sortReverse
  rw [List.pairwise_reverse]
  exact List.sorted_insertionSort (fun a b : Nat => a ≤ b) Masks

/-- What `LoadSegments` leaves in the mask list of a segment: the list is in
descending order and holds the mask of every subnet of the directory and, with
automode, the automode mask; it holds no value twice when automode is off or
the automode mask is the mask of no row. -/
theorem loadSegment_masks {rows : List SubnetRow} {s s' : Segment}
    (h : loadSegment rows s = some s') :
    s'.Masks.Pairwise (fun a b => b ≤ a) ∧
      (∀ e ∈ s'.Subnets, e.2.Mask ∈ s'.Masks) ∧
      (s.AutoMode = true → s.AutoModeMask ∈ s'.Masks) ∧
      ((s.AutoMode = false ∨ ∀ row ∈ rows, row.Mask ≠ s.AutoModeMask) → s'.Masks.Nodup) := by
  unfold loadSegment LoadSubnetsFromSegment at h
  cases hr : loadRows rows [] [] with
  | none => rw [hr] at h; cases h
  | some q =>
    obtain ⟨S', M'⟩ := q
    rw [hr] at h
    simp only [Option.some.injEq] at h
    obtain ⟨h1, h2, h3⟩ := loadRows_inv hr List.nodup_nil
      (fun e he => absurd he (List.not_mem_nil _))
    subst h
    refine ⟨sortReverse_sorted _, ?_, ?_, ?_⟩
    · intro e he
      rw [sortReverse_mem]
      have := h2 e he
      split
      · exact List.mem_append_left _ this
      · exact this
    · intro ha
      simp only
      rw [sortReverse_mem, if_pos ha]
      exact List.mem_append_right _ (List.mem_singleton.mpr rfl)
    · intro hc
      simp only
      rw [sortReverse_nodup]
      by_cases ha : s.AutoMode = true
      · rw [if_pos ha]
        rcases hc with hc | hc
        · rw [ha] at hc; cases hc
        · rw [List.nodup_append]
          refine ⟨h1, List.nodup_singleton _, ?_⟩
          intro a ha1 ha2
          rw [List.mem_singleton] at ha2
          rcases h3 a ha1 with h4 | ⟨row, hrow, hk⟩
          · exact absurd h4 (List.not_mem_nil _)
          · exact hc row hrow (by rw [hk, ha2])
      · rw [if_neg ha]
        exact h1

/-- C26, the code at the failing input.  Segment `R` has automode with mask
`255.255.255.0`, and the database holds for it the static subnets
`10.0.0.0/24` and `10.0.1.0/25`: `LoadSegments` leaves the mask list
`[/25, /24, /24]`, in which the automode mask stands twice. -/
theorem automode_mask_duplicated :
    (LoadSegments (fun _ => exRows) [exSegmentCfg]).map
        (fun S => S.map (fun s => (s.Masks, GoMap.keys s.Subnets, s.AutoMode, s.AutoModeMask))) =
      some [([4294967168, 4294967040, 4294967040], [167772416, 167772160], true,
        4294967040)] ∧
    ¬ ([4294967168, 4294967040, 4294967040] : List Nat).Nodup := by
  refine ⟨by decide, by decide⟩

/-! ## C27, C28, C29: what `LeaseFind` leaves for the next operation -/

theorem rangeScan_free {o : Opts} {now : Int} {Ctx : ReqCtx} :
    ∀ (fuel : Nat) (s s' : Subnet) (ip ip' : Nat),
      rangeScan o now Ctx fuel s ip = some (some ip', s') → s.freeAt now ip' = true := by
  intro fuel
  induction fuel with
  | zero => intro s s' ip ip' h; cases h
  | succ n ih =>
    intro s s' ip ip' h
    simp only [rangeScan] at h
    split at h
    · cases hA : LeaseAdd o now Ctx s ip with
      | none => rw [hA] at h; cases h
      | some q =>
        obtain ⟨b, s1⟩ := q
        rw [hA] at h
        rcases LeaseAdd_spec hA with ⟨rfl, hf, _⟩ | ⟨rfl, _, rfl⟩
        · simp only [Option.some.injEq, Prod.mk.injEq] at h
          rw [← h.1]
          exact hf
        · exact ih _ _ _ _ h
    · cases h

/-- The search of `LeaseFind` either leaves context and subnet alone or stores
a new lease at an address whose probe succeeded. -/
theorem leaseSearch_free {o : Opts} {fuel : Nat} {now : Int} {rands : List Nat}
    {Ctx Ctx' : ReqCtx} {s s' : Subnet}
    (h : leaseSearch o fuel now rands Ctx s = some (Ctx', s')) :
    (Ctx' = Ctx ∧ s' = s) ∨
      (∃ ip, s.freeAt now ip = true ∧ Ctx'.IP = ip ∧ s' = storeLease o now Ctx s ip ∧
        (Ctx'.LeaseSource = LEASE_SRC_RANDOM ∨ Ctx'.LeaseSource = LEASE_SRC_RANGE)) := by
  unfold leaseSearch at h
  cases hR : randomTries o now Ctx s rands with
  | none => rw [hR] at h; cases h
  | some q =>
    obtain ⟨r, s1⟩ := q
    rw [hR] at h
    rcases randomTries_spec hR with ⟨rfl, rfl, _⟩ | ⟨ip, _, rfl, hf, rfl⟩
    · simp only at h
      cases hS : rangeScan o now Ctx fuel s1 s1.RangeStart with
      | none => rw [hS] at h; cases h
      | some q2 =>
        obtain ⟨r2, s2⟩ := q2
        rw [hS] at h
        cases r2 with
        | none =>
          simp only [Option.some.injEq, Prod.mk.injEq] at h
          rcases rangeScan_cases hS with ⟨_, hs⟩ | ⟨ip', hc, _⟩
          · exact Or.inl ⟨h.1.symm, by rw [← h.2, hs]⟩
          · cases hc
        | some ip2 =>
          simp only [Option.some.injEq, Prod.mk.injEq] at h
          obtain ⟨rfl, rfl⟩ := h
          rcases rangeScan_cases hS with ⟨hc, _⟩ | ⟨ip', hc, hs⟩
          · cases hc
          · cases hc
            exact Or.inr ⟨ip2, rangeScan_free _ _ _ _ _ hS, rfl, hs, Or.inr rfl⟩
    · simp only [Option.some.injEq, Prod.mk.injEq] at h
      obtain ⟨rfl, rfl⟩ := h
      exact Or.inr ⟨ip, hf, rfl, rfl, Or.inl rfl⟩

/-- The paths of `LeaseFind`: adoption of the client's lease, found through
`by_mac` and `by_ip`, or the search, on the subnet as it is or with the client's
by-MAC entry deleted. -/
theorem LeaseFind_paths {o : Opts} {fuel : Nat} {now : Int} {rands : List Nat}
    {Ctx Ctx' : ReqCtx} {s s' : Subnet}
    (h : LeaseFind o fuel now rands Ctx s = some (Ctx', s')) :
    (∃ p l q L, GoMap.lookup s.LeasesByMAC Ctx.MAC = some p ∧ s.heap[p]? = some l ∧
        l.MAC = Ctx.MAC ∧ GoMap.lookup s.LeasesByIP l.IP = some q ∧ s.heap[q]? = some L ∧
        L.MAC = Ctx.MAC ∧
        Ctx' = { Ctx.SetRequestedIP L.IP with LeaseSource := LEASE_SRC_EXISTING } ∧
        s' = { s with
               heap := s.heap.set q
                 (Lease.DiscoverSet now
                   { L with Expires := Ctx.RequestStart + o.DHCPGraceTTL }) }) ∨
      (∃ t : Subnet, t.LeasesByIP = s.LeasesByIP ∧ t.heap = s.heap ∧
        leaseSearch o fuel now rands Ctx t = some (Ctx', s')) := by
  unfold LeaseFind at h
  cases hp : GoMap.lookup s.LeasesByMAC Ctx.MAC with
  | none => rw [hp] at h; exact Or.inr ⟨s, rfl, rfl, h⟩
  | some p =>
    rw [hp] at h
    simp only at h
    cases hl : s.heap[p]? with
    | none => rw [hl] at h; cases h
    | some l =>
      rw [hl] at h
      simp only at h
      by_cases hm : l.MAC ≠ Ctx.MAC
      · rw [if_pos hm] at h
        exact Or.inr ⟨{ s with LeasesByMAC := GoMap.delete s.LeasesByMAC Ctx.MAC }, rfl, rfl, h⟩
      · rw [if_neg hm] at h
        cases hq : GoMap.lookup s.LeasesByIP l.IP with
        | none =>
          rw [hq] at h
          simp only at h
          exact Or.inr ⟨{ s with LeasesByMAC := GoMap.delete s.LeasesByMAC Ctx.MAC }, rfl, rfl, h⟩
        | some q =>
          rw [hq] at h
          simp only at h
          cases hL : s.heap[q]? with
          | none => rw [hL] at h; cases h
          | some L =>
            rw [hL] at h
            simp only at h
            by_cases hm2 : L.MAC ≠ Ctx.MAC
            · rw [if_pos hm2] at h; exact Or.inr ⟨s, rfl, rfl, h⟩
            · rw [if_neg hm2] at h
              simp only [Option.some.injEq, Prod.mk.injEq] at h
              obtain ⟨rfl, rfl⟩ := h
              exact Or.inl ⟨p, l, q, L, rfl, hl, not_not.mp hm, hq, hL, not_not.mp hm2,
                rfl, rfl⟩

/-- `LeaseFind` adopts the lease found through `by_mac` and `by_ip` when both
lookups yield leases of the client's MAC. -/
theorem LeaseFind_adopt (o : Opts) (fuel : Nat) (now : Int) (rands : List Nat)
    (Ctx : ReqCtx) {s : Subnet} {p q : Nat} {l L : Lease}
    (hp : GoMap.lookup s.LeasesByMAC Ctx.MAC = some p) (hl : s.heap[p]? = some l)
    (hm : l.MAC = Ctx.MAC) (hq : GoMap.lookup s.LeasesByIP l.IP = some q)
    (hL : s.heap[q]? = some L) (hm2 : L.MAC = Ctx.MAC) :
    LeaseFind o fuel now rands Ctx s =
      some ({ Ctx.SetRequestedIP L.IP with LeaseSource := LEASE_SRC_EXISTING },
        { s with
          heap := s.heap.set q
            (Lease.DiscoverSet now { L with Expires := Ctx.RequestStart + o.DHCPGraceTTL }) }) := by
  unfold LeaseFind
  rw [hp]
  simp only
  rw [hl]
  simp only [hm, ne_eq, not_true_eq_false, if_false]
  rw [hq]
  simp only
  rw [hL]
  simp only [hm2, ne_eq, not_true_eq_false, if_false]

/-- `LeaseCheckAndUpdate` confirms a lease of the client's MAC that is stored
under the requested IP and is not expired. -/
theorem LeaseCheckAndUpdate_ok (now : Int) (Ctx : ReqCtx) {s : Subnet} {p : Nat}
    {L : Lease} (hp : GoMap.lookup s.LeasesByIP Ctx.IP = some p)
    (hL : s.heap[p]? = some L) (hE : L.Expired now = false) (hm : L.MAC = Ctx.MAC) :
    ∃ Ctx' s' ops, LeaseCheckAndUpdate now Ctx s = some (Ctx', s', ops) ∧
      Ctx'.Lease = some p ∧
      s'.heap[p]? =
        some { IP := L.IP, MAC := L.MAC, Expires := Ctx.RequestStart + s.LeaseTTL,
               Discover := false, DiscoverTime := L.DiscoverTime } ∧
      s'.LeasesByIP = s.LeasesByIP ∧ s'.LeasesByMAC = s.LeasesByMAC := by
  unfold LeaseCheckAndUpdate
  rw [hp]
  simp only
  rw [hL]
  simp only [hE, Bool.false_eq_true, if_false, hm, ne_eq, not_true_eq_false]
  exact ⟨_, _, _, rfl, rfl, heap_set_self _ hL, rfl, rfl⟩

/-- C27. In a subnet state that satisfies the forward bijection invariant of C1,
if `LeaseFind` with request start `t` assigns an address to the client (it sets
`lease_source`, empty on entry), then `LeaseCheckAndUpdate` for that address and
MAC on the resulting state, at any current time not later than `t + grace_TTL`,
returns the lease, and afterwards `by_ip[ip]` and `by_mac[mac]` are that one
lease, confirmed: `expires = request_start + lease_ttl` of the REQUEST,
`discover_phase` cleared. -/
theorem discover_request_round_trip (o : Opts) (fuel : Nat) (now : Int) (rands : List Nat)
    (Ctx Ctx' : ReqCtx) (s s' : Subnet) (hF : s.Forward)
    (h : LeaseFind o fuel now rands Ctx s = some (Ctx', s'))
    (h0 : Ctx.LeaseSource = "") (hA : Ctx'.LeaseSource ≠ "")
    (now2 : Int) (hnow : now2 ≤ Ctx.RequestStart + o.DHCPGraceTTL)
    (Req : ReqCtx) (hmac : Req.MAC = Ctx.MAC) (hip : Req.IP = Ctx'.IP) :
    ∃ Req' s'' ops p L1, LeaseCheckAndUpdate now2 Req s' = some (Req', s'', ops) ∧
      Req'.Lease = some p ∧
      GoMap.lookup s''.LeasesByIP Ctx'.IP = some p ∧
      GoMap.lookup s''.LeasesByMAC Ctx.MAC = some p ∧
      s''.heap[p]? = some L1 ∧ L1.IP = Ctx'.IP ∧ L1.MAC = Ctx.MAC ∧
      L1.Expires = Req.RequestStart + s'.LeaseTTL ∧ L1.Discover = false := by
  have hexp : ∀ x : Lease, x.Expires = Ctx.RequestStart + o.DHCPGraceTTL →
      x.Expired now2 = false := by
    intro x hx
    unfold Lease.Expired
    rw [hx]
    exact decide_eq_false (not_lt.mpr hnow)
  rcases LeaseFind_paths h with ⟨p, l, q, L, hp, hl, hm, hq, hL, hm2, rfl, rfl⟩ |
    ⟨t, hti, hth, hs⟩
  · obtain ⟨L2, hL2, hIP, hback⟩ := hF l.IP q hq
    rw [hL] at hL2
    cases hL2
    rw [hm2, hp] at hback
    cases hback
    have hp' : GoMap.lookup s.LeasesByIP Req.IP = some p := by
      rw [hip]
      show GoMap.lookup s.LeasesByIP L.IP = some p
      rw [hIP]
      exact hq
    obtain ⟨Req', s'', ops, hr, hlease, hheap, hbi, hbm⟩ :=
      @LeaseCheckAndUpdate_ok now2 Req
        { s with
          heap := s.heap.set p
            (Lease.DiscoverSet now { L with Expires := Ctx.RequestStart + o.DHCPGraceTTL }) }
        p (Lease.DiscoverSet now { L with Expires := Ctx.RequestStart + o.DHCPGraceTTL })
        hp' (heap_set_self _ hL) (hexp _ rfl) (hm2.trans hmac.symm)
    refine ⟨Req', s'', ops, p, _, hr, hlease, ?_, ?_, hheap, rfl, hm2, rfl, rfl⟩
    · rw [hbi]
      show GoMap.lookup s.LeasesByIP L.IP = some p
      rw [hIP]
      exact hq
    · rw [hbm]
      exact hp
  · rcases leaseSearch_free hs with ⟨rfl, rfl⟩ | ⟨ip, _, hIP, rfl, _⟩
    · exact absurd h0 hA
    · have hp' : GoMap.lookup (storeLease o now Ctx t ip).LeasesByIP Req.IP =
          some t.heap.length := by
        rw [hip, hIP]
        exact storeLease_lookup_ip _ _ _ _ _
      obtain ⟨Req', s'', ops, hr, hlease, hheap, hbi, hbm⟩ :=
        @LeaseCheckAndUpdate_ok now2 Req (storeLease o now Ctx t ip) t.heap.length
          (newLease o now Ctx ip) hp' (storeLease_heap_new _ _ _ _ _) (hexp _ rfl) hmac.symm
      refine ⟨Req', s'', ops, t.heap.length, _, hr, hlease, ?_, ?_, hheap, hIP.symm, rfl,
        rfl, rfl⟩
      · rw [hbi, hIP]
        exact storeLease_lookup_ip _ _ _ _ _
      · rw [hbm]
        exact storeLease_lookup_mac _ _ _ _ _

theorem discover_request_round_trip_witness :
    exEmpty.Forward ∧
      ∃ Req' s'' ops p L1,
        LeaseCheckAndUpdate 60 { MAC := 1, IP := 167772170, RequestStart := 60 } exOne =
          some (Req', s'', ops) ∧
        Req'.Lease = some p ∧
        GoMap.lookup s''.LeasesByIP 167772170 = some p ∧
        GoMap.lookup s''.LeasesByMAC 1 = some p ∧
        s''.heap[p]? = some L1 ∧ L1.IP = 167772170 ∧ L1.MAC = 1 ∧
        L1.Expires = 60 + exOne.LeaseTTL ∧ L1.Discover = false := by
  have hF : exEmpty.Forward := by
    intro ip p hp
    cases hp
  exact ⟨hF, discover_request_round_trip exOpts 3 0 [] { MAC := 1 }
    { MAC := 1, IP := 167772170, LeaseSource := LEASE_SRC_RANGE } exEmpty exOne hF
    (by decide) rfl (by decide) 60 (by decide)
    { MAC := 1, IP := 167772170, RequestStart := 60 } rfl rfl⟩

/-- C28. If `LeaseFind` assigns an address to the client (it sets
`lease_source`, empty on entry), a second `LeaseFind` for the same MAC on the
resulting state, at any time and with any random probes and scan bound, returns
the same address with `lease_source = EXISTING` and leaves both indices as they
are; whether the tentative lease has expired is not looked at. -/
theorem repeated_discover_stable (o : Opts) (fuel : Nat) (now : Int) (rands : List Nat)
    (Ctx Ctx' : ReqCtx) (s s' : Subnet)
    (h : LeaseFind o fuel now rands Ctx s = some (Ctx', s'))
    (h0 : Ctx.LeaseSource = "") (hA : Ctx'.LeaseSource ≠ "")
    (fuel2 : Nat) (now2 : Int) (rands2 : List Nat) (Ctx2 : ReqCtx)
    (hmac : Ctx2.MAC = Ctx.MAC) :
    ∃ Ctx2' s'', LeaseFind o fuel2 now2 rands2 Ctx2 s' = some (Ctx2', s'') ∧
      Ctx2'.IP = Ctx'.IP ∧ Ctx2'.LeaseSource = LEASE_SRC_EXISTING ∧
      s''.LeasesByIP = s'.LeasesByIP ∧ s''.LeasesByMAC = s'.LeasesByMAC ∧
      GoMap.keys s''.LeasesByIP = GoMap.keys s'.LeasesByIP ∧
      GoMap.keys s''.LeasesByMAC = GoMap.keys s'.LeasesByMAC := by
  rcases LeaseFind_paths h with ⟨p, l, q, L, hp, hl, hm, hq, hL, hm2, rfl, rfl⟩ |
    ⟨t, hti, hth, hs⟩
  · by_cases hpq : p = q
    · subst hpq
      rw [hl] at hL
      cases hL
      have hadopt := @LeaseFind_adopt o fuel2 now2 rands2 Ctx2
        { s with
          heap := s.heap.set p
            (Lease.DiscoverSet now { l with Expires := Ctx.RequestStart + o.DHCPGraceTTL }) }
        p p (Lease.DiscoverSet now { l with Expires := Ctx.RequestStart + o.DHCPGraceTTL })
        (Lease.DiscoverSet now { l with Expires := Ctx.RequestStart + o.DHCPGraceTTL })
        (by rw [hmac]; exact hp) (heap_set_self _ hl) (hm.trans hmac.symm) hq
        (heap_set_self _ hl) (hm.trans hmac.symm)
      exact ⟨_, _, hadopt, rfl, rfl, rfl, rfl, rfl, rfl⟩
    · have hadopt := @LeaseFind_adopt o fuel2 now2 rands2 Ctx2
        { s with
          heap := s.heap.set q
            (Lease.DiscoverSet now { L with Expires := Ctx.RequestStart + o.DHCPGraceTTL }) }
        p q l (Lease.DiscoverSet now { L with Expires := Ctx.RequestStart + o.DHCPGraceTTL })
        (by rw [hmac]; exact hp)
        ((heap_set_ne _ (fun e => hpq e.symm)).trans hl) (hm.trans hmac.symm) hq
        (heap_set_self _ hL) (hm2.trans hmac.symm)
      exact ⟨_, _, hadopt, rfl, rfl, rfl, rfl, rfl, rfl⟩
  · rcases leaseSearch_free hs with ⟨rfl, rfl⟩ | ⟨ip, _, hIP, rfl, _⟩
    · exact absurd h0 hA
    · have hadopt := @LeaseFind_adopt o fuel2 now2 rands2 Ctx2 (storeLease o now Ctx t ip)
        t.heap.length t.heap.length (newLease o now Ctx ip) (newLease o now Ctx ip)
        (by rw [hmac]; exact storeLease_lookup_mac _ _ _ _ _)
        (storeLease_heap_new _ _ _ _ _) hmac.symm (storeLease_lookup_ip _ _ _ _ _)
        (storeLease_heap_new _ _ _ _ _) hmac.symm
      exact ⟨_, _, hadopt, hIP.symm, rfl, rfl, rfl, rfl, rfl⟩

theorem repeated_discover_stable_witness :
    ∃ Ctx2' s'',
      LeaseFind exOpts 0 5000 [] { MAC := 1, RequestStart := 5000 } exOne =
        some (Ctx2', s'') ∧
      Ctx2'.IP = 167772170 ∧ Ctx2'.LeaseSource = LEASE_SRC_EXISTING ∧
      s''.LeasesByIP = exOne.LeasesByIP ∧ s''.LeasesByMAC = exOne.LeasesByMAC ∧
      GoMap.keys s''.LeasesByIP = GoMap.keys exOne.LeasesByIP ∧
      GoMap.keys s''.LeasesByMAC = GoMap.keys exOne.LeasesByMAC :=
  repeated_discover_stable exOpts 3 0 [] { MAC := 1 }
    { MAC := 1, IP := 167772170, LeaseSource := LEASE_SRC_RANGE } exEmpty exOne
    (by decide) rfl (by decide) 0 5000 [] { MAC := 1, RequestStart := 5000 } rfl

/-- Every state reachable from empty indices stores each lease of the by-IP
index under the lease's own ip. -/
theorem Reachable_ipKeyed {o : Opts} {s : Subnet} (h : Reachable o s) :
    ∀ k p L, GoMap.lookup s.LeasesByIP k = some p → s.heap[p]? = some L → L.IP = k := by
  intro k p L hp hL
  obtain ⟨L2, h2, h3, _⟩ := (Reachable_inv h).1 k p hp
  rw [hL] at h2
  cases h2
  exact h3

theorem exZeroOne_step :
    LeaseFind exOpts 3 0 [] { MAC := 3 } exZero =
      some ({ MAC := 3, IP := 0, LeaseSource := LEASE_SRC_RANGE }, exZeroOne) := by
  decide

theorem exZeroOne_reachable : Reachable exOpts exZeroOne :=
  Reachable.leaseFind 3 0 [] _ _ _ (Reachable.init exZero rfl rfl) exZeroOne_step

/-- C29 fails as stated.  In `exZeroOne`, reached by one DISCOVER on the range
`0.0.0.0 - 0.0.0.0`, `by_ip[0.0.0.0]` holds the lease of client `3`, not expired
at time `10`; `LeaseFind` for client `1` finds no free address and returns with
the context as it was, so `context.ip = 0.0.0.0`, the very address held.  In
`exUnkeyed`, where a by-IP entry holds a lease under another ip than its own,
`LeaseFind` for client `1` returns `context.ip = 10.0.0.11` although
`by_ip[10.0.0.11]` holds a lease of client `2` that is not expired. -/
theorem no_theft_counterexample :
    (Reachable exOpts exZeroOne ∧
      exZeroOne.leaseAtIP 0 =
        some { IP := 0, MAC := 3, Expires := 60, Discover := true, DiscoverTime := 0 } ∧
      Lease.Expired 10
        { IP := 0, MAC := 3, Expires := 60, Discover := true, DiscoverTime := 0 } = false ∧
      LeaseFind exOpts 3 10 [] { MAC := 1, RequestStart := 10 } exZeroOne =
        some ({ MAC := 1, RequestStart := 10 }, exZeroOne) ∧
      ({ MAC := 1, RequestStart := 10 } : ReqCtx).IP = 0) ∧
    (exUnkeyed.leaseAtIP 167772171 = some { IP := 167772171, MAC := 2, Expires := 1000 } ∧
      Lease.Expired 10 { IP := 167772171, MAC := 2, Expires := 1000 } = false ∧
      (LeaseFind exOpts 3 10 [] { MAC := 1, RequestStart := 10 } exUnkeyed).map
          (fun res => (res.1.IP, res.1.LeaseSource, res.2.leaseAtIP 167772171)) =
        some (167772171, LEASE_SRC_EXISTING,
          some { IP := 167772171, MAC := 2, Expires := 1000 })) := by
  refine ⟨⟨exZeroOne_reachable, by decide, by decide, by decide, rfl⟩,
    by decide, by decide, by decide⟩

/-- C29, amended. In a subnet state whose by-IP index stores every lease under
its own ip (every reachable state is such a state), if `by_ip[ip]` holds a
lease of another MAC that is not expired, `LeaseFind` for the client leaves
`by_ip[ip]` that same lease, with every field as it was, and does not assign
`ip`: the context's ip differs from `ip` unless `LeaseFind` assigned nothing and
returned the context as it was on entry.  `LeaseFind` does return when the
indices hold no dangling pointer, the range ends below the largest `uint32` and
the scan is given one step more than the range has addresses. -/
theorem no_theft_of_live_leases (o : Opts) (fuel : Nat) (now : Int) (rands : List Nat)
    (Ctx : ReqCtx) (s : Subnet) (ip r : Nat) (R : Lease)
    (hK : ∀ k p L, GoMap.lookup s.LeasesByIP k = some p → s.heap[p]? = some L → L.IP = k)
    (hr : GoMap.lookup s.LeasesByIP ip = some r) (hR : s.heap[r]? = some R)
    (hother : R.MAC ≠ Ctx.MAC) (hlive : R.Expired now = false) :
    (∀ Ctx' s', LeaseFind o fuel now rands Ctx s = some (Ctx', s') →
      GoMap.lookup s'.LeasesByIP ip = some r ∧ s'.heap[r]? = some R ∧
        (Ctx'.IP ≠ ip ∨ Ctx' = Ctx)) ∧
    (s.Valid → s.RangeEnd + 1 < 2 ^ 32 → s.RangeEnd + 1 - s.RangeStart < fuel →
      ∃ res, LeaseFind o fuel now rands Ctx s = some res) := by
  refine ⟨?_, fun hV h32 hfuel => LeaseFind_returns o now rands Ctx hV h32 hfuel⟩
  intro Ctx' s' h
  rcases LeaseFind_paths h with ⟨p, l, q, L, hp, hl, hm, hq, hL, hm2, rfl, rfl⟩ |
    ⟨t, hti, hth, hs⟩
  · have hqr : q ≠ r := by
      intro e
      rw [e, hR] at hL
      cases hL
      exact hother hm2
    refine ⟨hr, (heap_set_ne _ hqr).trans hR, Or.inl ?_⟩
    have hIP := hK l.IP q L hq hL
    intro e
    have e' : L.IP = ip := e
    rw [← hIP, e', hr] at hq
    exact hqr (Option.some.inj hq).symm
  · rcases leaseSearch_free hs with ⟨rfl, rfl⟩ | ⟨ip', hf, hIP, rfl, _⟩
    · exact ⟨by rw [hti]; exact hr, by rw [hth]; exact hR, Or.inr rfl⟩
    · have hne : ip ≠ ip' := by
        intro e
        rw [← e] at hf
        unfold Subnet.freeAt at hf
        rw [hti, hr] at hf
        simp only at hf
        rw [hth, hR] at hf
        simp only at hf
        rw [hlive] at hf
        cases hf
      refine ⟨?_, ?_, Or.inl ?_⟩
      · exact (GoMap.lookup_insert_ne _ _ hne).trans (by rw [hti]; exact hr)
      · exact heap_append_old _ (by rw [hth]; exact hR)
      · rw [hIP]
        exact fun e => hne e.symm

theorem no_theft_of_live_leases_witness :
    (∀ k p L, GoMap.lookup exTaken.LeasesByIP k = some p → exTaken.heap[p]? = some L →
        L.IP = k) ∧
      LeaseFind exOpts 3 105 [167772170] { MAC := 3, RequestStart := 105 } exTaken =
        some ({ MAC := 3, RequestStart := 105, IP := 167772171,
                LeaseSource := LEASE_SRC_RANGE }, exFull) ∧
      GoMap.lookup exFull.LeasesByIP 167772170 = some 1 ∧ exFull.heap[1]? = some exLeaseB ∧
      ((167772171 : Nat) ≠ 167772170 ∨
        ({ MAC := 3, RequestStart := 105, IP := 167772171,
           LeaseSource := LEASE_SRC_RANGE } : ReqCtx) = { MAC := 3, RequestStart := 105 }) := by
  have hK : ∀ k p L, GoMap.lookup exTaken.LeasesByIP k = some p → exTaken.heap[p]? = some L →
      L.IP = k := by
    intro k p L hp hL
    obtain ⟨L2, h2, h3, _⟩ := (Reachable_inv exTaken_reachable).1 k p hp
    rw [hL] at h2
    cases h2
    exact h3
  have hstep : LeaseFind exOpts 3 105 [167772170] { MAC := 3, RequestStart := 105 } exTaken =
      some ({ MAC := 3, RequestStart := 105, IP := 167772171,
              LeaseSource := LEASE_SRC_RANGE }, exFull) := by decide
  have h := (no_theft_of_live_leases exOpts 3 105 [167772170]
    { MAC := 3, RequestStart := 105 } exTaken 167772170 1 exLeaseB hK (by decide) (by decide)
    (by decide) (by decide)).1 _ _ hstep
  exact ⟨hK, hstep, h.1, h.2.1, h.2.2⟩

/-! ## C30: termination of the linear scan -/

theorem rangeProbes_isSome (o : Opts) (now : Int) (Ctx : ReqCtx) :
    ∀ (fuel : Nat) (s : Subnet) (ip : Nat),
      (rangeProbes o now Ctx fuel s ip).isSome = (rangeScan o now Ctx fuel s ip).isSome := by
  intro fuel
  induction fuel with
  | zero => intro s ip; rfl
  | succ n ih =>
    intro s ip
    simp only [rangeProbes, rangeScan]
    split
    · cases hA : LeaseAdd o now Ctx s ip with
      | none => rfl
      | some q =>
        obtain ⟨b, s1⟩ := q
        cases b with
        | true => rfl
        | false =>
          simp only [Option.isSome_map']
          exact ih _ _
    · rfl

/-- In a range that ends below the largest `uint32` the scan probes at most the
addresses from its starting point to `range_end`, each inside the range. -/
theorem rangeProbes_bound {o : Opts} {now : Int} {Ctx : ReqCtx} {s : Subnet}
    (h32 : s.RangeEnd + 1 < 2 ^ 32) :
    ∀ (fuel ip : Nat) (l : List Nat), rangeProbes o now Ctx fuel s ip = some l →
      l.length ≤ s.RangeEnd + 1 - ip ∧ ∀ a ∈ l, ip ≤ a ∧ a ≤ s.RangeEnd := by
  intro fuel
  induction fuel with
  | zero => intro ip l h; cases h
  | succ n ih =>
    intro ip l h
    simp only [rangeProbes] at h
    by_cases hle : ip ≤ s.RangeEnd
    · rw [if_pos hle] at h
      cases hA : LeaseAdd o now Ctx s ip with
      | none => rw [hA] at h; cases h
      | some q =>
        obtain ⟨b, s1⟩ := q
        rw [hA] at h
        rcases LeaseAdd_cases hA with ⟨rfl, rfl⟩ | ⟨rfl, _⟩
        · simp only at h
          have hmod : (ip + 1) % 2 ^ 32 = ip + 1 := Nat.mod_eq_of_lt (by omega)
          rw [hmod] at h
          cases hrec : rangeProbes o now Ctx n s1 (ip + 1) with
          | none => rw [hrec] at h; cases h
          | some l1 =>
            rw [hrec] at h
            simp only [Option.map_some', Option.some.injEq] at h
            subst h
            obtain ⟨h1, h2⟩ := ih (ip + 1) l1 hrec
            refine ⟨by simp only [List.length_cons]; omega, ?_⟩
            intro a ha
            rcases List.mem_cons.mp ha with e | ha'
            · rw [e]; exact ⟨le_refl _, hle⟩
            · have := h2 a ha'
              exact ⟨by omega, this.2⟩
        · simp only [Option.some.injEq] at h
          subst h
          refine ⟨by simp only [List.length_singleton]; omega, ?_⟩
          intro a ha
          rw [List.mem_singleton] at ha
          rw [ha]
          exact ⟨le_refl _, hle⟩
    · rw [if_neg hle] at h
      simp only [Option.some.injEq] at h
      subst h
      exact ⟨Nat.zero_le _, fun a ha => absurd ha (List.not_mem_nil _)⟩

/-- With `range_end` the largest `uint32` the loop condition never fails: when
every 32-bit address is held by a lease that is not expired the scan is not over
after any number of steps. -/
theorem rangeScan_never_ends (o : Opts) (now : Int) (Ctx : ReqCtx) (s : Subnet)
    (hend : s.RangeEnd = 4294967295)
    (hall : ∀ a, a < 2 ^ 32 → s.heldLive now a = true) :
    ∀ (fuel ip : Nat), ip < 2 ^ 32 → rangeScan o now Ctx fuel s ip = none := by
  intro fuel
  induction fuel with
  | zero => intro ip _; rfl
  | succ n ih =>
    intro ip hip
    simp only [rangeScan]
    have hle : ip ≤ s.RangeEnd := by rw [hend]; omega
    rw [if_pos hle, LeaseAdd_of_held (hall ip hip)]
    exact ih _ (Nat.mod_lt _ (by norm_num))

/-- C30, the code at the failing input.  In `exEdgeOne` the range is the single
address `255.255.255.255`, held by a lease of client `2` that is not expired, and
the capacity is `1`.  The scan for client `3` probes `255.255.255.255`, then
`0.0.0.0`: the `uint32` counter has wrapped, the loop condition still holds, and
the scan ends only because `0.0.0.0`, outside the range, is free and is
allocated. -/
theorem scan_leaves_the_range :
    exEdgeOne.RangeStart ≤ exEdgeOne.RangeEnd ∧ exEdgeOne.Capacity = 1 ∧
      exEdgeOne.heldLive 10 4294967295 = true ∧
      rangeProbes exOpts 10 { MAC := 3, RequestStart := 10 } 5 exEdgeOne exEdgeOne.RangeStart =
        some [4294967295, 0] ∧
      rangeScan exOpts 10 { MAC := 3, RequestStart := 10 } 5 exEdgeOne exEdgeOne.RangeStart =
        some (some 0, exEdgeTwo) ∧
      LeaseFind exOpts 5 10 [] { MAC := 3, RequestStart := 10 } exEdgeOne =
        some ({ MAC := 3, RequestStart := 10, IP := 0, LeaseSource := LEASE_SRC_RANGE },
          exEdgeTwo) := by
  refine ⟨by decide, by decide, by decide, by decide, by decide, by decide⟩

end DHCPD
